import Mathlib

/-!
# Trading bot: indicator pipeline, entry signal and position lifecycle

A shallow embedding of `main.go` and `binance.go`.

Conventions of the embedding.

* A finite `float64` is the rational it denotes.  A decimal received from the
  exchange (price, candle field, amount) or read from the configuration is
  typed `ℚ`; where the program holds it as a `float64` it is the nearest
  `float64` (`roundF64`, what `strconv.ParseFloat` returns).
* The `float64` operations whose result decides an order or is sent with one
  are rounded to nearest, ties to even, one operation at a time: the stop price,
  the threshold of a tier, the position in the channel, the price and the
  quantity of an order.  The price and the quantity of an order are the numbers
  that the strings sent read (`%.2f`, `%f`).  The true range, the ATR and the
  regression slope are computed exactly.
* `roundF64` keeps 53 significant bits at every exponent from the subnormal
  range (`2 ^ (-1074)`) up: overflow to an infinity, which needs a magnitude of
  `2 ^ 1024`, is not modelled, and there is no signed zero.  The IEEE special
  values that the program can produce by dividing by zero are kept: see `F64`.
  The amount of a position is compared with zero as the decimal received,
  which has the sign of its `float64` unless it is below `2 ^ (-1075)` in
  magnitude.
* A Go `int` has 64 bits and its arithmetic wraps around (`wrapInt64`).
* A Go slice is the list of the elements it shows.  Re-slicing (`s[1:]`)
  changes only the local slice header; `copy` writes into the shared backing
  array and so is seen by every slice over that array.
* A run-time panic is the fault `Fault.panic`; an `error` value returned by a
  function is `Fault.error`.
* The exchange is an oracle fixed for one tick (`Gateway`); every call made to
  it is recorded, in program order, in a trace.
-/

namespace TradingBot

/-! ## Rounding to `float64`, printing, machine integers -/

/-- Round-to-nearest of the quotient `N / D` of two naturals, a tie going to
the even integer. -/
def nearestEven (N D : ℕ) : ℕ :=
  let f := N / D
  let r := N % D
  if 2 * r < D then f else if D < 2 * r then f + 1 else if f % 2 = 0 then f else f + 1

/-- `⌊log₂ n⌋` by halving, at most `fuel` times (`fuel = n` is enough). -/
def log2Fuel : ℕ → ℕ → ℕ
  | 0, _ => 0
  | fuel + 1, n => if n < 2 then 0 else log2Fuel fuel (n / 2) + 1

/-- The binade of the positive rational `n / d`: the integer `E` with
`2 ^ E ≤ n / d < 2 ^ (E + 1)`. -/
def binade (n d : ℕ) : ℤ :=
  let k : ℤ := (log2Fuel n n : ℤ) - (log2Fuel d d : ℤ)
  if d * 2 ^ k.toNat ≤ n * 2 ^ (-k).toNat then k else k - 1

/-- The exponent of the unit in the last place of a `float64` in the binade of
`n / d`: 52 binary places below the binade, and never below `-1074` (the
subnormal numbers). -/
def ulpExp (n d : ℕ) : ℤ :=
  if binade n d - 52 < -1074 then -1074 else binade n d - 52

/-- The `float64` nearest to `q`, a tie going to the even significand
(`strconv.ParseFloat` on a decimal, and the rounding of every `float64`
operation). -/
def roundF64 (q : ℚ) : ℚ :=
  let n : ℕ := q.num.natAbs
  let d : ℕ := q.den
  let e : ℤ := ulpExp n d
  let m : ℕ := nearestEven (n * 2 ^ (-e).toNat) (d * 2 ^ e.toNat)
  mkRat (q.num.sign * ((m * 2 ^ e.toNat : ℕ) : ℤ)) (2 ^ (-e).toNat)

/-- Round-to-nearest integer of a rational, a tie going to the even integer
(what `nearestEven` computes on a quotient of naturals). -/
def roundHalfEven (x : ℚ) : ℤ :=
  let f : ℤ := ⌊x⌋
  let r : ℚ := x - f
  if r < 1 / 2 then f else if 1 / 2 < r then f + 1 else if f % 2 = 0 then f else f + 1

/-- `fmt.Sprintf("%.2f", x)` read back as a number: `x` rounded to the nearest
multiple of 1/100, a tie going to the even multiple. -/
def twoDecimals (x : ℚ) : ℚ :=
  let f : ℤ := ⌊x * 100⌋
  let r : ℚ := x * 100 - f
  (if r < 1 / 2 then (f : ℚ)
    else if 1 / 2 < r then (f : ℚ) + 1
    else if f % 2 = 0 then (f : ℚ) else (f : ℚ) + 1) / 100

/-- `fmt.Sprintf("%f", x)` read back as a number: `x` rounded to the nearest
multiple of `10 ^ (-6)`, a tie going to the even multiple. -/
def sixDecimals (x : ℚ) : ℚ := (roundHalfEven (x * 1000000) : ℚ) / 1000000

/-- The value of a Go `int` expression whose mathematical value is `x`: the
representative of `x` modulo `2 ^ 64` in `[-2 ^ 63, 2 ^ 63)`. -/
def wrapInt64 (x : ℤ) : ℤ := (x + 2 ^ 63) % 2 ^ 64 - 2 ^ 63

/-! ## float64 values -/

/-- Value of type `float64`: a finite value (an exact rational), one of the
two infinities, or NaN. -/
inductive F64 where
  | fin (q : ℚ)
  | pinf
  | ninf
  | nan
  deriving DecidableEq

namespace F64

/-- Unary minus. -/
def neg : F64 → F64
  | fin a => fin (-a)
  | pinf => ninf
  | ninf => pinf
  | nan => nan

/-- Addition `a + b`. -/
def add : F64 → F64 → F64
  | fin a, fin b => fin (a + b)
  | fin _, pinf => pinf
  | fin _, ninf => ninf
  | pinf, fin _ => pinf
  | pinf, pinf => pinf
  | ninf, fin _ => ninf
  | ninf, ninf => ninf
  | pinf, ninf => nan
  | ninf, pinf => nan
  | nan, _ => nan
  | fin _, nan => nan
  | pinf, nan => nan
  | ninf, nan => nan

/-- Subtraction `a - b`. -/
def sub (a b : F64) : F64 := add a (neg b)

/-- The infinity with the sign of `s * q`, NaN when `q = 0`
(`s` is `true` for a positive infinity). -/
def infTimes (s : Bool) (q : ℚ) : F64 :=
  if q = 0 then nan else if (0 < q) = s then pinf else ninf

/-- Multiplication `a * b`. -/
def mul : F64 → F64 → F64
  | fin a, fin b => fin (a * b)
  | fin a, pinf => infTimes true a
  | fin a, ninf => infTimes false a
  | pinf, fin b => infTimes true b
  | ninf, fin b => infTimes false b
  | pinf, pinf => pinf
  | ninf, ninf => pinf
  | pinf, ninf => ninf
  | ninf, pinf => ninf
  | nan, _ => nan
  | fin _, nan => nan
  | pinf, nan => nan
  | ninf, nan => nan

/-- Division `a / b`.  A zero divisor is `+0`: the program only divides by
differences `x - y` and by lengths, which are never `-0`. -/
def div : F64 → F64 → F64
  | fin a, fin b =>
    if b = 0 then (if a = 0 then nan else if 0 < a then pinf else ninf)
    else fin (a / b)
  | fin _, pinf => fin 0
  | fin _, ninf => fin 0
  | pinf, fin b => if 0 ≤ b then pinf else ninf
  | ninf, fin b => if 0 ≤ b then ninf else pinf
  | pinf, pinf => nan
  | pinf, ninf => nan
  | ninf, pinf => nan
  | ninf, ninf => nan
  | nan, _ => nan
  | fin _, nan => nan
  | pinf, nan => nan
  | ninf, nan => nan

/-- Comparison `a < b`; false as soon as one side is NaN. -/
def lt : F64 → F64 → Bool
  | fin a, fin b => decide (a < b)
  | fin _, pinf => true
  | ninf, fin _ => true
  | ninf, pinf => true
  | fin _, ninf => false
  | pinf, _ => false
  | ninf, ninf => false
  | nan, _ => false
  | fin _, nan => false
  | ninf, nan => false

/-- Sum of a vector, accumulated from `0`. -/
def sum (v : List F64) : F64 := v.foldl add (fin 0)

/-- The `float64` that holds a result: a finite value goes to the nearest
`float64`, the special values stay. -/
def nearest : F64 → F64
  | fin q => fin (roundF64 q)
  | x => x

/-- The `float64` operation `a - b`: the exact difference of the two
`float64` operands, rounded. -/
def subR (a b : F64) : F64 := nearest (sub (nearest a) (nearest b))

/-- The `float64` operation `a / b`: the exact quotient of the two `float64`
operands, rounded. -/
def divR (a b : F64) : F64 := nearest (div (nearest a) (nearest b))

end F64

/-! ## Faults -/

/-- The `error` values the program returns. -/
inductive Err where
  | account
  | cancelAll
  | klines
  | csv
  | order
  | limitTooSmall
  | slopeInvalid
  | unsupportedPosition
  deriving DecidableEq

/-- Abnormal end of a function: a returned `error`, or a run-time panic. -/
inductive Fault where
  | error (e : Err)
  | panic
  deriving DecidableEq

deriving instance DecidableEq for Except

/-- `TradingPosition`: `""` (the zero value), `"long"` or `"short"`. -/
inductive TradingPosition where
  | empty
  | LONG
  | SHORT
  deriving DecidableEq

/-! ## Series access -/

/-- `Value(i)` on a series of finite floats; an index out of range panics. -/
def Value (s : List ℚ) (i : Int) : Except Fault ℚ :=
  if i < 0 then .error .panic
  else match s[i.toNat]? with
    | some v => .ok v
    | none => .error .panic

/-- `Value(i)` on a `SeriesFloat64`: the library returns `nil` for a NaN cell
and the float otherwise; an index out of range panics. -/
def ValueF (s : List F64) (i : Int) : Except Fault (Option F64) :=
  if i < 0 then .error .panic
  else match s[i.toNat]? with
    | some v => .ok (if v = F64.nan then none else some v)
    | none => .error .panic

/-- `Value(i).(float64)`: the unchecked type assertion panics on `nil`. -/
def ValueFloat (s : List F64) (i : Int) : Except Fault F64 :=
  match ValueF s i with
  | .ok (some v) => .ok v
  | .ok none => .error .panic
  | .error f => .error f

/-! ## Indicators (`main.go`) -/

/-- `rollingMax`: entry `i` is the running maximum, started at `-Inf`, of the
column over `j = start .. i` with `start = max 0 (i - size + 1)`. -/
def rollingMax (column : List ℚ) (size : ℕ) : List F64 :=
  (List.range column.length).map fun i =>
    let start := i + 1 - size
    ((column.take (i + 1)).drop start).foldl
      (fun windowMax val => if F64.lt windowMax (F64.fin val) then F64.fin val else windowMax)
      F64.ninf

/-- `rollingMin`: as `rollingMax`, with the running minimum started at `+Inf`. -/
def rollingMin (column : List ℚ) (size : ℕ) : List F64 :=
  (List.range column.length).map fun i =>
    let start := i + 1 - size
    ((column.take (i + 1)).drop start).foldl
      (fun windowMin val => if F64.lt (F64.fin val) windowMin then F64.fin val else windowMin)
      F64.pinf

/-- `positionInChannel`: `(close[i] - min[i]) / (max[i] - min[i])` for every
row, the two differences and the quotient being `float64` operations. -/
def positionInChannel (closeVals : List ℚ) (minChanVals maxChanVals : List F64) : List F64 :=
  List.zipWith3 (fun c mn mx => F64.divR (F64.subR (F64.fin c) mn) (F64.subR mx mn))
    closeVals minChanVals maxChanVals

/-- `mat.Min` of a non-empty vector. -/
def vecMin : List ℚ → ℚ
  | [] => 0
  | a :: as => as.foldl min a

/-- `mat.Max` of a non-empty vector. -/
def vecMax : List ℚ → ℚ
  | [] => 0
  | a :: as => as.foldl max a

/-- `stat.Mean` without weights. -/
def Mean (x : List F64) : F64 := F64.div (F64.sum x) (F64.fin x.length)

/-- `stat.LinearRegression(x, y, nil, false)`, returning `(alpha, beta)`:
`beta` is the sample covariance of `x` and `y` over the sample variance of
`x`, and `alpha = mean y - beta * mean x`. -/
def LinearRegression (x y : List F64) : F64 × F64 :=
  let xu := Mean x
  let yu := Mean y
  let nm1 : F64 := F64.fin ((x.length : ℚ) - 1)
  let xv := F64.div (F64.sum (x.map fun a => F64.mul (F64.sub a xu) (F64.sub a xu))) nm1
  let cov := F64.div
    (F64.sum (List.zipWith (fun a b => F64.mul (F64.sub a xu) (F64.sub b yu)) x y)) nm1
  let beta := F64.div cov xv
  (F64.sub yu (F64.mul beta xu), beta)

/-- Body of the first loop of `IndicateSlope` for one window `y = series[j-n:j]`:
`x = 0, 1, .., n-1`; both are min-max scaled and the regression slope is taken. -/
def windowSlope (y : List ℚ) : F64 :=
  let x : List ℚ := (List.range y.length).map fun i => (i : ℚ)
  let xMin := vecMin x
  let xMax := vecMax x
  let yMin := vecMin y
  let yMax := vecMax y
  let xSc := x.map fun a => F64.div (F64.fin (a - xMin)) (F64.fin (xMax - xMin))
  let ySc := y.map fun a => F64.div (F64.fin (a - yMin)) (F64.fin (yMax - yMin))
  (LinearRegression xSc ySc).2

/-- The array `arraySl` after the first loop of `IndicateSlope`, for `n ≥ 1`:
the loop `for j := n; j <= len(series); j++` writes entry `j-1` from the
window `series[j-n:j]`; the other entries keep the zero of `make`. -/
def arraySl (series : List ℚ) (n : ℕ) : List F64 :=
  (List.range series.length).map fun i =>
    if n ≤ i + 1 then windowSlope ((series.drop (i + 1 - n)).take n) else F64.fin 0

/-- `IndicateSlope`.  `atanDeg slope` stands for the library expression
`math.Atan(slope) * (180.0 / math.Pi)`.  With `n = 0` the first pass of the
loop builds a vector of length zero, on which `mat.NewVecDense` panics. -/
def IndicateSlope {β : Type} (atanDeg : F64 → β) (series : List ℚ) (n : ℕ) :
    Except Fault (List β) :=
  if n = 0 then .error .panic
  else .ok ((arraySl series n).map atanDeg)

/-- True range of `IndicateATR`: `tr[0] = 0` and, for `i > 0`,
`tr[i] = max(hl[i], max(hpc[i], lpc[i]))`. -/
def trueRange (high low closes : List ℚ) : List ℚ :=
  (List.range high.length).map fun i =>
    if i = 0 then 0
    else
      let hl := high.getD i 0 - low.getD i 0
      let hpc := |high.getD i 0 - closes.getD (i - 1) 0|
      let lpc := |low.getD i 0 - closes.getD (i - 1) 0|
      max hl (max hpc lpc)

/-- `IndicateATR` on the three columns of one frame (all of length `nRows`),
returning the columns `TR` and `ATR`: `atr[i] = (tr[i-period+1] + .. + tr[i]) / period`
for `period ≤ i`, and `0` before. -/
def IndicateATR (high low closes : List ℚ) (period : ℕ) : List ℚ × List F64 :=
  let tr := trueRange high low closes
  let atr := (List.range high.length).map fun i =>
    if period ≤ i then
      F64.div (F64.fin (((tr.take (i + 1)).drop (i + 1 - period)).foldl (· + ·) 0))
        (F64.fin period)
    else F64.fin 0
  (tr, atr)

/-- `isLocalMinimumIdx` on the `close` column.  The three conjuncts are read
left to right and `&&` stops at the first false one. -/
def isLocalMinimumIdx (closeSer : List ℚ) (idx : Int) : Except Fault Int := do
  let a ← Value closeSer idx
  let b ← Value closeSer (idx + 1)
  if a ≤ b then
    let c ← Value closeSer (idx - 1)
    if a ≤ c then
      if c < b then pure (idx - 1) else pure 0
    else pure 0
  else pure 0

/-- `isLocalMaximumIdx` on the `close` column. -/
def isLocalMaximumIdx (closeSer : List ℚ) (idx : Int) : Except Fault Int := do
  let a ← Value closeSer idx
  let b ← Value closeSer (idx + 1)
  if a ≥ b then
    let c ← Value closeSer (idx - 1)
    if a ≥ c then
      if c > b then pure idx else pure 0
    else pure 0
  else pure 0

/-! ## The candle frame -/

/-- One candle as received from the exchange (`futures.Kline`); the numeric
fields are the decimals it sends. -/
structure Kline where
  OpenTime : Int
  Open : ℚ
  High : ℚ
  Low : ℚ
  Close : ℚ
  Volume : ℚ
  deriving DecidableEq

/-- The frame returned by `PrepareDataFrame`: the candle columns it reads and
the columns it adds. -/
structure Frame where
  date : List Int
  high : List ℚ
  low : List ℚ
  close : List ℚ
  TR : List ℚ
  ATR : List F64
  slope : List F64
  chan_max : List F64
  chan_min : List F64
  pos_in_chan : List F64
  hcc : List ℚ
  lcc : List ℚ
  deriving DecidableEq

/-- Last loop of `PrepareDataFrame`, one of its two columns: entry `i` for
`4 ≤ i < nRows - 1` is `close[i]` when `isExtremum(df, i) > 0`, else `0`. -/
def extremumColumn (isExtremum : List ℚ → Int → Except Fault Int) (closes : List ℚ) :
    Except Fault (List ℚ) :=
  (List.range closes.length).mapM fun i =>
    if 4 ≤ i ∧ i + 1 < closes.length then do
      let m ← isExtremum closes i
      if m > 0 then Value closes i else pure 0
    else pure 0

/-- `PrepareDataFrame`: ATR with period 14, slope with window 5, channel of
size 10, position in the channel, and the two columns of local extrema.  The
columns `high`, `low` and `close` of the frame are `float64` columns: a field
of a candle is in them as the nearest `float64`, which is what loading the CSV
file (`LoadFromCSV` in `binanceKlinesFuturesDataframe`) leaves in the frame. -/
def PrepareDataFrame (atanDeg : F64 → F64) (df : List Kline) : Except Fault Frame := do
  let high := df.map fun k => roundF64 k.High
  let low := df.map fun k => roundF64 k.Low
  let closeVals := df.map fun k => roundF64 k.Close
  let atr := IndicateATR high low closeVals 14
  let slope ← IndicateSlope atanDeg closeVals 5
  let maxChannel := rollingMax high 10
  let minChanel := rollingMin low 10
  let posInChannel := positionInChannel closeVals minChanel maxChannel
  let hccArr ← extremumColumn isLocalMaximumIdx closeVals
  let lccArr ← extremumColumn isLocalMinimumIdx closeVals
  pure {
    date := df.map (·.OpenTime), high := high, low := low, close := closeVals,
    TR := atr.1, ATR := atr.2, slope := slope, chan_max := maxChannel,
    chan_min := minChanel, pos_in_chan := posInChannel, hcc := hccArr, lcc := lccArr }

/-- First half of the decision of `checkSignalToBuy` (the local-minimum
block): the value of `sig` after it. -/
def longBlock (df : Frame) (lastCandle : Int) : Except Fault TradingPosition := do
  let m ← isLocalMinimumIdx df.close (lastCandle - 1)
  if m > 0 then
    let p ← ValueFloat df.pos_in_chan (lastCandle - 1)
    if F64.lt p (F64.fin (1 / 2)) then
      match ← ValueF df.slope (lastCandle - 1) with
      | none => throw (Fault.error Err.slopeInvalid)
      | some slope =>
        if F64.lt slope (F64.fin (-20)) then pure TradingPosition.LONG
        else pure TradingPosition.empty
    else pure TradingPosition.empty
  else pure TradingPosition.empty

/-- Second half of the decision of `checkSignalToBuy` (the local-maximum
block), entered with the current value of `sig`. -/
def shortBlock (df : Frame) (lastCandle : Int) (sig : TradingPosition) :
    Except Fault TradingPosition := do
  let m ← isLocalMaximumIdx df.close (lastCandle - 1)
  if m > 0 then
    let p ← ValueFloat df.pos_in_chan (lastCandle - 1)
    if F64.lt (F64.fin (1 / 2)) p then
      let slope ← ValueFloat df.slope (lastCandle - 1)
      if F64.lt (F64.fin 20) slope then pure TradingPosition.SHORT else pure sig
    else pure sig
  else pure sig

/-- `saveChartAsSVG(df, min, max)`.  The x values are the linear sequence
from `min` to `max` with step 1, which has `int((max - min) / 1) + 1` terms
(`int((min - max) / 1) + 1` when `min ≥ max`); the chart library pairs the x
value number `i` with `YValues[i]` of each of the three series (`chan_max`,
`close`, `chan_min`) for every `i` below the number of x values, so that a
series with fewer rows than x values makes the index run out of range.  The
file that is written has no effect on the program. -/
def saveChartAsSVG (df : Frame) (min max : ℚ) : Except Fault Unit :=
  let xLen : ℤ :=
    (if min < max then ⌊roundF64 (max - min)⌋ else ⌊roundF64 (min - max)⌋) + 1
  if (df.chan_max.length : ℤ) < xLen ∨ (df.close.length : ℤ) < xLen ∨
      (df.chan_min.length : ℤ) < xLen then .error .panic
  else .ok ()

/-- The part of `checkSignalToBuy` that follows the candle fetch: prepare the
frame, draw the chart (`saveChartAsSVG(df, 1, float64(limit))`), then run the
two blocks at index `lastCandle - 1`. -/
def signalOnFrame (atanDeg : F64 → F64) (limit : Int) (ohlc : List Kline) :
    Except Fault TradingPosition := do
  let lastCandle := wrapInt64 (limit - 2)
  let df ← PrepareDataFrame atanDeg ohlc
  saveChartAsSVG df 1 (roundF64 (limit : ℚ))
  let sig ← longBlock df lastCandle
  shortBlock df lastCandle sig

/-! ## The exchange (`binance.go`) -/

/-- Order side (`futures.SideType`). -/
inductive SideType where
  | buy
  | sell
  deriving DecidableEq

/-- A limit order, good till cancelled, as handed to the order service:
`quantity` and `price` are the numbers that the two strings of the request
read, `fmt.Sprintf("%f", quantity)` (six decimals) and `closePrice` (two
decimals). -/
structure Order where
  side : SideType
  quantity : ℚ
  price : ℚ
  deriving DecidableEq

/-- One call to the exchange, with whether it succeeded. -/
inductive Call where
  | account (ok : Bool)
  | listOpenOrders (ok : Bool)
  | cancelAll (ok : Bool)
  | klines (ok : Bool)
  | listPrices (ok : Bool)
  | order (o : Order) (ok : Bool)
  deriving DecidableEq

/-- The row of the account's positions for the configured symbol. -/
structure AccountRow where
  positionAmt : ℚ
  entryPrice : ℚ

/-- What the exchange (and the file system, for the CSV file) answers during
one tick; `none` and `false` are failures: the call returns an `error`.
`price k` answers the `k`-th price query of the tick and `orderOk k` the `k`-th
order request.  `orderOk k = true` says that the batch request came back
without an `error`; whether the exchange then took the order or refused it
inside its answer the program does not look at, the answer being discarded. -/
structure Gateway where
  account : Option AccountRow
  openOrders : Option ℕ
  cancelOk : Bool
  klines : Option (List Kline)
  csvOk : Bool
  price : ℕ → Option ℚ
  orderOk : ℕ → Bool

/-- Values of `Config` that the strategy reads, as the decimals written in
the configuration file. -/
structure Config where
  MaxPositionAmount : ℚ
  StopPercent : ℚ

/-- The struct `OpenedPosition`, fields read by `Trade`. -/
structure OpenedPosition where
  Position : TradingPosition
  Amount : ℚ
  EntryPrice : ℚ

/-- `df.Sort` with the key `date`, `Desc: true`: the rows in the order of
decreasing open time.  The open times of the candles of one answer are
distinct; on rows of equal open time, which the library may leave in any
order, this definition keeps the order received. -/
def sortByDateDesc (rows : List Kline) : List Kline :=
  rows.insertionSort fun a b => b.OpenTime ≤ a.OpenTime

/-- `binanceKlinesFuturesDataframe`: fetch the candles, write them to the CSV
file, load the file and sort the frame. -/
def binanceKlinesFuturesDataframe (gw : Gateway) : Except Fault (List Kline) × List Call :=
  match gw.klines with
  | none => (.error (.error .klines), [Call.klines false])
  | some klines =>
    if gw.csvOk then (.ok (sortByDateDesc klines), [Call.klines true])
    else (.error (.error .csv), [Call.klines true])

/-- `checkSignalToBuy`; `limit` is a Go `int`, in `[-2 ^ 63, 2 ^ 63)`, and
`limit - 2` wraps around. -/
def checkSignalToBuy (atanDeg : F64 → F64) (gw : Gateway) (limit : Int) :
    Except Fault TradingPosition × List Call :=
  let lastCandle := wrapInt64 (limit - 2)
  if lastCandle ≤ 0 then (.error (.error .limitTooSmall), [])
  else
    match binanceKlinesFuturesDataframe gw with
    | (.error f, calls) => (.error f, calls)
    | (.ok ohlc, calls) => (signalOnFrame atanDeg limit ohlc, calls)

/-- `binanceCryptoPairPrice`, as the `k`-th price query of the tick: the error
of the query is dropped and the price is then `0`. -/
def binanceCryptoPairPrice (gw : Gateway) (k : ℕ) : ℚ × Call :=
  match gw.price k with
  | some p => (p, Call.listPrices true)
  | none => (0, Call.listPrices false)

/-- The string `closePrice` of the two order functions, read as a number:
`fmt.Sprintf("%.2f", cryptoPairPrice * factor)`, where `cryptoPairPrice` is the
parsed price, `factor` is the `float64` constant `1 + 0.01` or `1 - 0.01`, and
the product is a `float64` operation. -/
def closePrice (cryptoPairPrice factor : ℚ) : ℚ :=
  twoDecimals (roundF64 (roundF64 cryptoPairPrice * roundF64 factor))

/-- The string `fmt.Sprintf("%f", quantity)` of the two order functions, read
as a number; the argument `quantity` is held as a `float64`. -/
def quantityText (quantity : ℚ) : ℚ := sixDecimals (roundF64 quantity)

/-- `binanceOpenPosition`, making the `k`-th price query and the `j`-th order
request of the tick. -/
def binanceOpenPosition (gw : Gateway) (k j : ℕ) (position : TradingPosition) (quantity : ℚ) :
    Except Fault Unit × List Call :=
  let (cryptoPairPrice, c) := binanceCryptoPairPrice gw k
  match position with
  | .empty => (.error (.error .unsupportedPosition), [c])
  | .LONG =>
    let o : Order :=
      ⟨SideType.buy, quantityText quantity, closePrice cryptoPairPrice (1 + 1 / 100)⟩
    if gw.orderOk j then (.ok (), [c, Call.order o true])
    else (.error (.error .order), [c, Call.order o false])
  | .SHORT =>
    let o : Order :=
      ⟨SideType.sell, quantityText quantity, closePrice cryptoPairPrice (1 - 1 / 100)⟩
    if gw.orderOk j then (.ok (), [c, Call.order o true])
    else (.error (.error .order), [c, Call.order o false])

/-- `binanceClosePosition`, making the `k`-th price query and the `j`-th order
request of the tick. -/
def binanceClosePosition (gw : Gateway) (k j : ℕ) (position : TradingPosition) (quantity : ℚ) :
    Except Fault Unit × List Call :=
  let (cryptoPairPrice, c) := binanceCryptoPairPrice gw k
  match position with
  | .empty => (.error (.error .unsupportedPosition), [c])
  | .LONG =>
    let o : Order :=
      ⟨SideType.sell, quantityText quantity, closePrice cryptoPairPrice (1 - 1 / 100)⟩
    if gw.orderOk j then (.ok (), [c, Call.order o true])
    else (.error (.error .order), [c, Call.order o false])
  | .SHORT =>
    let o : Order :=
      ⟨SideType.buy, quantityText quantity, closePrice cryptoPairPrice (1 + 1 / 100)⟩
    if gw.orderOk j then (.ok (), [c, Call.order o true])
    else (.error (.error .order), [c, Call.order o false])

/-- `binanceOpenedPositions`: the side is `long` for a positive amount,
`short` for a negative one, and empty otherwise. -/
def binanceOpenedPositions (gw : Gateway) : Except Fault OpenedPosition × List Call :=
  match gw.account with
  | none => (.error (.error .account), [Call.account false])
  | some row =>
    let position :=
      if row.positionAmt > 0 then TradingPosition.LONG
      else if row.positionAmt < 0 then TradingPosition.SHORT
      else TradingPosition.empty
    (.ok ⟨position, row.positionAmt, row.entryPrice⟩, [Call.account true])

/-- `binanceCheckAndCloseOrders`: the error of the listing is dropped (no
order is then seen); the orders are cancelled when there is at least one. -/
def binanceCheckAndCloseOrders (gw : Gateway) : Except Fault Bool × List Call :=
  match gw.openOrders with
  | none => (.ok true, [Call.listOpenOrders false])
  | some n =>
    if n > 0 then
      if gw.cancelOk then (.ok false, [Call.listOpenOrders true, Call.cancelAll true])
      else (.error (.error .cancelAll), [Call.listOpenOrders true, Call.cancelAll false])
    else (.ok true, [Call.listOpenOrders true])

/-! ## The strategy (`Trade`) and the trading loop (`startTrading`) -/

/-- One tier of the profit ladder, the Go value `[]int{delta, contracts}`. -/
structure Tier where
  delta : Int
  contracts : Int
  deriving DecidableEq

/-- The ladder `profits` built in `main`. -/
def profits : List Tier :=
  [⟨20, 1⟩, ⟨40, 1⟩, ⟨60, 2⟩, ⟨80, 2⟩, ⟨100, 2⟩, ⟨150, 1⟩, ⟨200, 1⟩, ⟨200, 0⟩]

/-- The built-in `copy(dst, src)`: the first `min (len dst) (len src)`
elements of `dst` are overwritten with those of `src`; the result is what
`dst` shows afterwards. -/
def goCopy {α : Type} (dst src : List α) : List α :=
  src.take dst.length ++ dst.drop src.length

/-- The statement of `Trade` from which a call to the exchange is made. -/
inductive Site where
  | positions
  | strayOrders
  | signal
  | entry
  | currentPrice
  | stopLoss
  | takeProfit (i : ℕ)
  deriving DecidableEq

/-- Calls made from one statement, labelled with it. -/
def tag (s : Site) (calls : List Call) : List (Site × Call) := calls.map (Prod.mk s)

/-- The test of the ladder loop on the tier `tempArr[i]`:
`currentPrice > entryPrice + float64(delta)` in the long block and
`currentPrice < entryPrice - float64(delta)` in the short block.  The two
prices are the parsed ones, `float64(delta)` is the nearest `float64`, and the
sum and the difference are `float64` operations. -/
def tierHit (position : TradingPosition) (entryPrice currentPrice : ℚ) (t : Tier) : Bool :=
  match position with
  | .LONG =>
    decide (roundF64 currentPrice > roundF64 (roundF64 entryPrice + roundF64 (t.delta : ℚ)))
  | .SHORT =>
    decide (roundF64 currentPrice < roundF64 (roundF64 entryPrice - roundF64 (t.delta : ℚ)))
  | .empty => false

/-- The stop-loss test: `currentPrice < stopPrice` with
`stopPrice := entryPrice * (1 - cfg.StopPercent)` in the long block and
`currentPrice > stopPrice` with `stopPrice := entryPrice * (1 + cfg.StopPercent)`
in the short one.  The two prices and `StopPercent` are the parsed ones, and
the sum or difference and the product are `float64` operations. -/
def stopHit (cfg : Config) (position : TradingPosition) (entryPrice currentPrice : ℚ) : Bool :=
  match position with
  | .LONG =>
    decide (roundF64 currentPrice <
      roundF64 (roundF64 entryPrice * roundF64 (1 - roundF64 cfg.StopPercent)))
  | .SHORT =>
    decide (roundF64 currentPrice >
      roundF64 (roundF64 entryPrice * roundF64 (1 + roundF64 cfg.StopPercent)))
  | .empty => false

/-- The quantity of a partial close,
`math.Abs(cfg.MaxPositionAmount * (float64(contracts) / 10))`: the quotient
and the product are `float64` operations. -/
def tierQuantity (cfg : Config) (t : Tier) : ℚ :=
  |roundF64 (roundF64 cfg.MaxPositionAmount * roundF64 (roundF64 (t.contracts : ℚ) / 10))|

/-- State at the end of the ladder loop. -/
structure LoopResult where
  outcome : Except Fault Unit
  calls : List (Site × Call)
  cpProfitArr : List Tier
  ladders : List (List Tier)
  deriving DecidableEq

/-- The loop `for i := range tempArr` of `Trade`, from index `i` on, `rest`
being `tempArr[i:]`, after `k` orders have been submitted in the tick;
`cpProfitArr` is the local slice variable.  `ladders` lists the values
assigned to it, in order. -/
def profitLoop (gw : Gateway) (cfg : Config) (position : TradingPosition)
    (entryPrice currentPrice : ℚ) :
    (rest : List Tier) → (i k : ℕ) → (cpProfitArr : List Tier) → LoopResult
  | [], _, _, cpProfitArr => ⟨.ok (), [], cpProfitArr, []⟩
  | t :: rest, i, k, cpProfitArr =>
    if tierHit position entryPrice currentPrice t then
      let q := tierQuantity cfg t
      match binanceClosePosition gw (k + 1) k position q with
      | (.error f, calls) => ⟨.error f, tag (.takeProfit i) calls, cpProfitArr, []⟩
      | (.ok _, calls) =>
        match cpProfitArr with
        | [] => ⟨.error .panic, tag (.takeProfit i) calls, cpProfitArr, []⟩
        | _ :: tail =>
          let r := profitLoop gw cfg position entryPrice currentPrice rest (i + 1) (k + 1) tail
          ⟨r.outcome, tag (.takeProfit i) calls ++ r.calls, r.cpProfitArr, tail :: r.ladders⟩
    else profitLoop gw cfg position entryPrice currentPrice rest (i + 1) k cpProfitArr

/-- What one call of `Trade` does: the value it returns, the calls it makes,
the successive values of its local slice variable `cpProfitArr` (`ladders`,
the first one being the argument) with the last of them (`cpProfitArr`), and
what the caller's slice `cpProfits` shows when the call is over. -/
structure TradeResult where
  outcome : Except Fault Unit
  calls : List (Site × Call)
  cpProfitArr : List Tier
  ladders : List (List Tier)
  cpProfits : List Tier
  deriving DecidableEq

/-- The branch of `Trade` for an open position (`long` or `short`). -/
def tradeHeld (gw : Gateway) (srcProfitsArr cpProfitArr : List Tier) (cfg : Config)
    (pos : OpenedPosition) (position : TradingPosition) (before : List (Site × Call)) :
    TradeResult :=
  let entryPrice := pos.EntryPrice
  let (currentPrice, c) := binanceCryptoPairPrice gw 0
  let quantity := pos.Amount
  let seen := before ++ [(Site.currentPrice, c)]
  if stopHit cfg position entryPrice currentPrice then
    match binanceClosePosition gw 1 0 position |quantity| with
    | (.error f, calls) =>
      ⟨.error f, seen ++ tag .stopLoss calls, cpProfitArr, [cpProfitArr], cpProfitArr⟩
    | (.ok _, calls) =>
      let reset := goCopy cpProfitArr srcProfitsArr
      ⟨.ok (), seen ++ tag .stopLoss calls, reset, [cpProfitArr, reset], reset⟩
  else
    let r := profitLoop gw cfg position entryPrice currentPrice cpProfitArr 0 0 cpProfitArr
    ⟨r.outcome, seen ++ r.calls, r.cpProfitArr, cpProfitArr :: r.ladders, cpProfitArr⟩

/-- The branch of `Trade` taken when no position is open. -/
def tradeFlat (atanDeg : F64 → F64) (gw : Gateway) (srcProfitsArr cpProfitArr : List Tier)
    (cfg : Config) (before : List (Site × Call)) : TradeResult :=
  match binanceCheckAndCloseOrders gw with
  | (.error f, c1) =>
    ⟨.error f, before ++ tag .strayOrders c1, cpProfitArr, [cpProfitArr], cpProfitArr⟩
  | (.ok _, c1) =>
    match checkSignalToBuy atanDeg gw 100 with
    | (.error f, c2) =>
      ⟨.error f, before ++ tag .strayOrders c1 ++ tag .signal c2,
        cpProfitArr, [cpProfitArr], cpProfitArr⟩
    | (.ok sig, c2) =>
      let seen := before ++ tag .strayOrders c1 ++ tag .signal c2
      let reset := goCopy cpProfitArr srcProfitsArr
      match sig with
      | .empty => ⟨.ok (), seen, reset, [cpProfitArr, reset], reset⟩
      | .LONG =>
        let (r, c3) := binanceOpenPosition gw 0 0 .LONG cfg.MaxPositionAmount
        ⟨r, seen ++ tag .entry c3, reset, [cpProfitArr, reset], reset⟩
      | .SHORT =>
        let (r, c3) := binanceOpenPosition gw 0 0 .SHORT cfg.MaxPositionAmount
        ⟨r, seen ++ tag .entry c3, reset, [cpProfitArr, reset], reset⟩

/-- `Trade`: one tick of the strategy. -/
def Trade (atanDeg : F64 → F64) (gw : Gateway) (srcProfitsArr cpProfitArr : List Tier)
    (cfg : Config) : TradeResult :=
  match binanceOpenedPositions gw with
  | (.error f, c0) => ⟨.error f, tag .positions c0, cpProfitArr, [cpProfitArr], cpProfitArr⟩
  | (.ok pos, c0) =>
    match pos.Position with
    | .empty => tradeFlat atanDeg gw srcProfitsArr cpProfitArr cfg (tag .positions c0)
    | .LONG => tradeHeld gw srcProfitsArr cpProfitArr cfg pos .LONG (tag .positions c0)
    | .SHORT => tradeHeld gw srcProfitsArr cpProfitArr cfg pos .SHORT (tag .positions c0)

/-- The sleep that ends one pass of the loop of `startTrading`. -/
inductive Sleep where
  | minute
  | fourMinutes
  deriving DecidableEq

/-- One pass of the loop: the tick, and the sleep that follows it (`none` when
the tick panicked, which ends the process). -/
structure Pass where
  result : TradeResult
  sleep : Option Sleep
  deriving DecidableEq

/-- The loop of `startTrading`, entered with the current `errCounter`; the
list of gateways stands for the ticks that start before the time-out.  The
slices `profits` and `cpProfits` are the same at every call of `Trade`: only
the contents of the array behind `cpProfits` can change. -/
def tradingLoop (atanDeg : F64 → F64) (profits : List Tier) (cfg : Config) :
    List Gateway → (errCounter : ℕ) → (cpProfits : List Tier) → List Pass
  | [], _, _ => []
  | gw :: rest, errCounter, cpProfits =>
    let r := Trade atanDeg gw profits cpProfits cfg
    match r.outcome with
    | .error .panic => [⟨r, none⟩]
    | .error (.error _) =>
      if errCounter + 1 = 5 then
        ⟨r, some .fourMinutes⟩ :: tradingLoop atanDeg profits cfg rest 0 r.cpProfits
      else
        ⟨r, some .minute⟩ :: tradingLoop atanDeg profits cfg rest (errCounter + 1) r.cpProfits
    | .ok _ =>
      if errCounter = 5 then
        ⟨r, some .fourMinutes⟩ :: tradingLoop atanDeg profits cfg rest 0 r.cpProfits
      else
        ⟨r, some .minute⟩ :: tradingLoop atanDeg profits cfg rest errCounter r.cpProfits

/-- `startTrading`: the loop, entered with `errCounter := 0`. -/
def startTrading (atanDeg : F64 → F64) (profits cpProfits : List Tier) (cfg : Config)
    (ticks : List Gateway) : List Pass :=
  tradingLoop atanDeg profits cfg ticks 0 cpProfits

/-! ## Observations on a tick -/

/-- The orders submitted during a tick, in order, each with the statement of
`Trade` that submitted it. -/
def TradeResult.orders (r : TradeResult) : List (Site × Order) :=
  r.calls.filterMap fun x =>
    match x.2 with
    | Call.order o _ => some (x.1, o)
    | _ => none

/-- A failed call whose error the program does not drop: every failed call
except the listing of the open orders and the price query. -/
def Call.fatal : Call → Bool
  | .account ok => !ok
  | .cancelAll ok => !ok
  | .klines ok => !ok
  | .order _ ok => !ok
  | .listOpenOrders _ => false
  | .listPrices _ => false

/-- The call as the exchange would have recorded it had it answered: the
listing of the open orders and the price query are marked as answered, the
other calls are left as they are. -/
def Call.answered : Call → Call
  | .listOpenOrders _ => .listOpenOrders true
  | .listPrices _ => .listPrices true
  | c => c

/-- The exchange that answers where `gw` fails the listing of the open orders
or a price query: it lists no open order and quotes the price 0; everything
else is as in `gw`. -/
def Gateway.forgiving (gw : Gateway) : Gateway :=
  ⟨gw.account, some (gw.openOrders.getD 0), gw.cancelOk, gw.klines, gw.csvOk,
    fun k => some ((gw.price k).getD 0), gw.orderOk⟩

/-- The result of a tick with every listing and every price query marked as
answered. -/
def TradeResult.answered (r : TradeResult) : TradeResult :=
  ⟨r.outcome, r.calls.map fun x => (x.1, x.2.answered), r.cpProfitArr, r.ladders, r.cpProfits⟩

/-- A call that failed. -/
def Call.failed : Call → Bool
  | .account ok => !ok
  | .cancelAll ok => !ok
  | .klines ok => !ok
  | .order _ ok => !ok
  | .listOpenOrders ok => !ok
  | .listPrices ok => !ok

/-- The trace `calls` of a tick that ended with `outcome` stops at its first
fatal call: nothing follows that call, and the tick returned an `error`. -/
def StopsAtFatal (calls : List (Site × Call)) (outcome : Except Fault Unit) : Prop :=
  ∀ pre x post, calls = pre ++ x :: post → x.2.fatal = true →
    post = [] ∧ ∃ e, outcome = .error (.error e)

/-- The tick returned an `error` (what `startTrading` counts). -/
def TradeResult.failed (r : TradeResult) : Bool :=
  match r.outcome with
  | .error (.error _) => true
  | _ => false

/-- An angle function defined on the finite slopes only. -/
def F64.mapFin {β : Type} (f : ℚ → β) : F64 → Option β
  | .fin q => some (f q)
  | _ => none

/-- A stand-in for `math.Atan(slope) * (180.0 / math.Pi)` in the examples:
`45 * slope`, which agrees with it at the slopes `0`, `1`, `-1` and NaN.  The
examples depend on it at these slopes only (a tick that holds a position does
not evaluate it at all). -/
def anyAngle : F64 → F64 := fun s => F64.mul (F64.fin 45) s

/-- The local-low test of `isLocalMinimumIdx` at row `i` of the `close` column. -/
def localLow (close : List ℚ) (i : ℕ) : Prop :=
  close.getD i 0 ≤ close.getD (i + 1) 0 ∧ close.getD i 0 ≤ close.getD (i - 1) 0 ∧
    close.getD (i - 1) 0 < close.getD (i + 1) 0

/-- The local-high test of `isLocalMaximumIdx` at row `i` of the `close` column. -/
def localHigh (close : List ℚ) (i : ℕ) : Prop :=
  close.getD i 0 ≥ close.getD (i + 1) 0 ∧ close.getD i 0 ≥ close.getD (i - 1) 0 ∧
    close.getD (i - 1) 0 > close.getD (i + 1) 0

instance (close : List ℚ) (i : ℕ) : Decidable (localLow close i) := by
  unfold localLow; infer_instance

instance (close : List ℚ) (i : ℕ) : Decidable (localHigh close i) := by
  unfold localHigh; infer_instance

/-- An exchange with no open position and no open order that returns the
candles `ks`. -/
def flatWith (ks : List Kline) : Gateway :=
  ⟨some ⟨0, 0⟩, some 0, true, some ks, true, fun _ => some 100, fun _ => true⟩

/-- A candle with open time `t` and close `c`, its high at `c + 2` and its low
at `c - 1`. -/
def candle (t : Int) (c : ℚ) : Kline := ⟨t, c, c + 2, c - 1, c, 1⟩

/-- An exchange that reports a position of `amt` entered at `entry`, answers
every price query with `price` and every order request without an error. -/
def heldAt (amt entry price : ℚ) : Gateway :=
  ⟨some ⟨amt, entry⟩, some 0, true, none, true, fun _ => some price, fun _ => true⟩

/-- An exchange whose account query fails. -/
def accountDown : Gateway :=
  ⟨none, some 0, true, none, true, fun _ => none, fun _ => true⟩

/-- An exchange that reports a position of `amt` entered at `entry`, answers
every order request without an error, fails the first price query of the tick
and answers the later ones with `price`. -/
def priceDownOnce (amt entry price : ℚ) : Gateway :=
  ⟨some ⟨amt, entry⟩, some 0, true, none, true,
    fun k => if k = 0 then none else some price, fun _ => true⟩

/-- Seven candles, oldest first, whose closes read `5, 4, 3, 2, 1, 3, 4` from
the newest to the oldest. -/
def sevenCandles : List Kline :=
  [candle 1 4, candle 2 3, candle 3 1, candle 4 2, candle 5 3, candle 6 4, candle 7 5]

/-- The frame that `PrepareDataFrame` builds from `sevenCandles`, with
`anyAngle` for the angle (rows 5 and 6 of `slope`, which the signal does not
read, hold its values `45 * slope`); the positions in the channel are the
`float64` quotients. -/
def sevenFrame : Frame where
  date := [7, 6, 5, 4, 3, 2, 1]
  high := [7, 6, 5, 4, 3, 5, 6]
  low := [4, 3, 2, 1, 0, 2, 3]
  close := [5, 4, 3, 2, 1, 3, 4]
  TR := [0, 3, 3, 3, 3, 4, 3]
  ATR := [.fin 0, .fin 0, .fin 0, .fin 0, .fin 0, .fin 0, .fin 0]
  slope := [.fin 0, .fin 0, .fin 0, .fin 0, .fin (-45), .fin (-24), .fin 18]
  chan_max := [.fin 7, .fin 7, .fin 7, .fin 7, .fin 7, .fin 7, .fin 7]
  chan_min := [.fin 4, .fin 3, .fin 2, .fin 1, .fin 0, .fin 0, .fin 0]
  pos_in_chan := [.fin (roundF64 (1 / 3)), .fin (1 / 4), .fin (roundF64 (1 / 5)),
    .fin (roundF64 (1 / 6)), .fin (roundF64 (1 / 7)), .fin (roundF64 (3 / 7)),
    .fin (roundF64 (4 / 7))]
  hcc := [0, 0, 0, 0, 0, 0, 0]
  lcc := [0, 0, 0, 0, 1, 0, 0]

/-- The two-tier ladder `[(20,1),(40,1)]`. -/
def twoTiers : List Tier := [⟨20, 1⟩, ⟨40, 1⟩]

/-- The local-minimum block of `checkSignalToBuy` entered with `sig` already
assigned; the program enters it with the zero value (`longBlock`). -/
def longBlockFrom (df : Frame) (lastCandle : Int) (sig : TradingPosition) :
    Except Fault TradingPosition := do
  let m ← isLocalMinimumIdx df.close (lastCandle - 1)
  if m > 0 then
    let p ← ValueFloat df.pos_in_chan (lastCandle - 1)
    if F64.lt p (F64.fin (1 / 2)) then
      match ← ValueF df.slope (lastCandle - 1) with
      | none => throw (Fault.error Err.slopeInvalid)
      | some slope =>
        if F64.lt slope (F64.fin (-20)) then pure TradingPosition.LONG
        else pure sig
    else pure sig
  else pure sig

/-- The two blocks of `checkSignalToBuy` run in the other order: the
local-maximum block first, then the local-minimum block. -/
def checksInOtherOrder (df : Frame) (lastCandle : Int) : Except Fault TradingPosition := do
  let sig ← shortBlock df lastCandle TradingPosition.empty
  longBlockFrom df lastCandle sig

/-- The two blocks of `checkSignalToBuy` in the order of the program. -/
def checksInOrder (df : Frame) (lastCandle : Int) : Except Fault TradingPosition := do
  let sig ← longBlock df lastCandle
  shortBlock df lastCandle sig

/-- The orders among the calls of a trace, each with the statement that
submitted it. -/
def ordersIn (calls : List (Site × Call)) : List (Site × Order) :=
  calls.filterMap fun x =>
    match x.2 with
    | Call.order o _ => some (x.1, o)
    | _ => none

/-- A hundred candles, oldest first (open times 1 to 100), with closes
`206, 205, 203, 204, 205, .., 300`: in the frame, which holds the newest candle
first, the closes fall by one a row down to 203 at row 97 and then read 205,
206. -/
def hundredCandles : List Kline :=
  (List.range 100).map fun t =>
    candle ((t : ℤ) + 1) (if t = 0 then 206 else if t = 1 then 205 else 201 + (t : ℚ))

/-- An exchange with no open position and no open order that returns the
candles `ks`, answers every price query with `price` and every order request
without an error. -/
def flatAtPrice (ks : List Kline) (price : ℚ) : Gateway :=
  ⟨some ⟨0, 0⟩, some 0, true, some ks, true, fun _ => some price, fun _ => true⟩

/-! ## Properties of the rounding -/

theorem log2Fuel_spec : ∀ (fuel n : ℕ), n ≤ fuel → 0 < n →
    2 ^ log2Fuel fuel n ≤ n ∧ n < 2 ^ (log2Fuel fuel n + 1) := by
  intro fuel
  induction fuel with
  | zero => intro n h1 h2; omega
  | succ f ih =>
    intro n h1 h2
    unfold log2Fuel
    by_cases h : n < 2
    · have : n = 1 := by omega
      subst this
      simp
    · rw [if_neg h]
      obtain ⟨ha, hb⟩ := ih (n / 2) (by omega) (by omega)
      constructor
      · rw [pow_succ]
        have := Nat.div_mul_le_self n 2
        omega
      · rw [pow_succ]
        have := Nat.lt_div_mul_add (a := n) (b := 2) (by norm_num)
        omega

theorem two_zpow_split (k : ℤ) :
    (2 : ℚ) ^ k = (2 : ℚ) ^ k.toNat / (2 : ℚ) ^ (-k).toNat := by
  rcases le_total 0 k with h | h
  · have h2 : (-k).toNat = 0 := by omega
    rw [h2, pow_zero, div_one, ← zpow_natCast, Int.toNat_of_nonneg h]
  · have h2 : k.toNat = 0 := by omega
    have h3 : ((-k).toNat : ℤ) = -k := Int.toNat_of_nonneg (by omega)
    rw [h2, pow_zero, one_div, ← zpow_natCast, h3, zpow_neg, inv_inv]

theorem two_zpow_pos (k : ℤ) : (0 : ℚ) < (2 : ℚ) ^ k := zpow_pos (by norm_num) k

theorem two_zpow_le {a b : ℤ} (h : a ≤ b) : (2 : ℚ) ^ a ≤ (2 : ℚ) ^ b :=
  zpow_le_zpow_right₀ (by norm_num) h

theorem two_zpow_lt_imp {a b : ℤ} (h : (2 : ℚ) ^ a < (2 : ℚ) ^ b) : a < b := by
  by_contra hn
  exact absurd h (not_lt.mpr (two_zpow_le (not_lt.mp hn)))

theorem binade_spec (n d : ℕ) (hn : 0 < n) (hd : 0 < d) :
    (2 : ℚ) ^ binade n d ≤ (n : ℚ) / d ∧ (n : ℚ) / d < (2 : ℚ) ^ (binade n d + 1) := by
  obtain ⟨hn1, hn2⟩ := log2Fuel_spec n n le_rfl hn
  obtain ⟨hd1, hd2⟩ := log2Fuel_spec d d le_rfl hd
  have hdq : (0 : ℚ) < d := by exact_mod_cast hd
  have hn1q : (2 : ℚ) ^ (log2Fuel n n : ℤ) ≤ n := by
    rw [zpow_natCast]; exact_mod_cast hn1
  have hn2q : (n : ℚ) < (2 : ℚ) ^ ((log2Fuel n n : ℤ) + 1) := by
    have : (n : ℚ) < (2 : ℚ) ^ (log2Fuel n n + 1) := by exact_mod_cast hn2
    rw [← zpow_natCast] at this
    simpa using this
  have hd1q : (2 : ℚ) ^ (log2Fuel d d : ℤ) ≤ d := by
    rw [zpow_natCast]; exact_mod_cast hd1
  have hd2q : (d : ℚ) < (2 : ℚ) ^ ((log2Fuel d d : ℤ) + 1) := by
    have : (d : ℚ) < (2 : ℚ) ^ (log2Fuel d d + 1) := by exact_mod_cast hd2
    rw [← zpow_natCast] at this
    simpa using this
  set ln : ℤ := (log2Fuel n n : ℤ)
  set ld : ℤ := (log2Fuel d d : ℤ)
  have two_ne : (2 : ℚ) ≠ 0 := by norm_num
  have hup : (n : ℚ) / d < (2 : ℚ) ^ (ln - ld + 1) := by
    rw [div_lt_iff₀ hdq]
    calc (n : ℚ) < (2 : ℚ) ^ (ln + 1) := hn2q
      _ = (2 : ℚ) ^ (ln - ld + 1) * (2 : ℚ) ^ ld := by
          rw [← zpow_add₀ two_ne]; congr 1; ring
      _ ≤ (2 : ℚ) ^ (ln - ld + 1) * d :=
          mul_le_mul_of_nonneg_left hd1q (two_zpow_pos _).le
  have hlow : (2 : ℚ) ^ (ln - ld - 1) < (n : ℚ) / d := by
    rw [lt_div_iff₀ hdq]
    calc (2 : ℚ) ^ (ln - ld - 1) * d < (2 : ℚ) ^ (ln - ld - 1) * (2 : ℚ) ^ (ld + 1) :=
          mul_lt_mul_of_pos_left hd2q (two_zpow_pos _)
      _ = (2 : ℚ) ^ ln := by rw [← zpow_add₀ two_ne]; congr 1; ring
      _ ≤ n := hn1q
  have htest : d * 2 ^ (ln - ld).toNat ≤ n * 2 ^ (-(ln - ld)).toNat ↔
      (2 : ℚ) ^ (ln - ld) ≤ (n : ℚ) / d := by
    rw [two_zpow_split (ln - ld), div_le_div_iff₀ (by positivity) hdq]
    constructor
    · intro h
      have : ((d * 2 ^ (ln - ld).toNat : ℕ) : ℚ) ≤ ((n * 2 ^ (-(ln - ld)).toNat : ℕ) : ℚ) := by
        exact_mod_cast h
      push_cast at this
      linarith
    · intro h
      have : ((d * 2 ^ (ln - ld).toNat : ℕ) : ℚ) ≤ ((n * 2 ^ (-(ln - ld)).toNat : ℕ) : ℚ) := by
        push_cast
        linarith
      exact_mod_cast this
  unfold binade
  simp only
  by_cases ht : d * 2 ^ (ln - ld).toNat ≤ n * 2 ^ (-(ln - ld)).toNat
  · rw [if_pos ht]
    exact ⟨htest.mp ht, hup⟩
  · rw [if_neg ht]
    refine ⟨hlow.le, ?_⟩
    have : (n : ℚ) / d < (2 : ℚ) ^ (ln - ld) := not_le.mp (fun h => ht (htest.mpr h))
    simpa using this

theorem binade_unique (n d : ℕ) (hn : 0 < n) (hd : 0 < d) (E : ℤ)
    (h1 : (2 : ℚ) ^ E ≤ (n : ℚ) / d) (h2 : (n : ℚ) / d < (2 : ℚ) ^ (E + 1)) :
    binade n d = E := by
  obtain ⟨b1, b2⟩ := binade_spec n d hn hd
  have := two_zpow_lt_imp (lt_of_le_of_lt h1 b2)
  have := two_zpow_lt_imp (lt_of_le_of_lt b1 h2)
  omega

theorem binade_mono (n d n' d' : ℕ) (hn : 0 < n) (hd : 0 < d) (hn' : 0 < n') (hd' : 0 < d')
    (h : (n : ℚ) / d ≤ (n' : ℚ) / d') : binade n d ≤ binade n' d' := by
  obtain ⟨b1, -⟩ := binade_spec n d hn hd
  obtain ⟨-, c2⟩ := binade_spec n' d' hn' hd'
  have := two_zpow_lt_imp (lt_of_le_of_lt (le_trans b1 h) c2)
  omega

theorem roundHalfEven_bounds (x : ℚ) :
    ⌊x⌋ ≤ roundHalfEven x ∧ roundHalfEven x ≤ ⌊x⌋ + 1 := by
  unfold roundHalfEven
  simp only
  split_ifs <;> constructor <;> omega

theorem roundHalfEven_intCast (n : ℤ) : roundHalfEven (n : ℚ) = n := by
  unfold roundHalfEven
  simp

theorem roundHalfEven_mono {x y : ℚ} (h : x ≤ y) : roundHalfEven x ≤ roundHalfEven y := by
  have hf : ⌊x⌋ ≤ ⌊y⌋ := Int.floor_mono h
  rcases lt_or_eq_of_le hf with hlt | heq
  · have h1 := (roundHalfEven_bounds x).2
    have h2 := (roundHalfEven_bounds y).1
    omega
  · unfold roundHalfEven
    simp only
    rw [← heq]
    have hr : x - (⌊x⌋ : ℚ) ≤ y - (⌊x⌋ : ℚ) := by linarith
    split_ifs <;> first | omega | (exfalso; linarith)

theorem roundHalfEven_ge {x : ℚ} {n : ℤ} (h : (n : ℚ) ≤ x) : n ≤ roundHalfEven x := by
  have := roundHalfEven_mono h
  rwa [roundHalfEven_intCast] at this

theorem roundHalfEven_le {x : ℚ} {n : ℤ} (h : x ≤ (n : ℚ)) : roundHalfEven x ≤ n := by
  have := roundHalfEven_mono h
  rwa [roundHalfEven_intCast] at this

theorem nearestEven_eq (N D : ℕ) (hD : 0 < D) :
    ((nearestEven N D : ℕ) : ℤ) = roundHalfEven ((N : ℚ) / D) := by
  have hDq : (0 : ℚ) < D := by exact_mod_cast hD
  have hfl : ⌊(N : ℚ) / D⌋ = ((N / D : ℕ) : ℤ) := by
    have := Rat.floor_intCast_div_natCast (N : ℤ) D
    simpa using this
  have hdecomp : (N : ℚ) = D * (N / D : ℕ) + (N % D : ℕ) := by
    exact_mod_cast (Nat.div_add_mod N D).symm
  have hr : (N : ℚ) / D - ((N / D : ℕ) : ℤ) = ((N % D : ℕ) : ℚ) / D := by
    rw [Int.cast_natCast, eq_div_iff hDq.ne', sub_mul, div_mul_cancel₀ _ hDq.ne']
    nth_rewrite 1 [hdecomp]
    ring
  have c1 : ((N % D : ℕ) : ℚ) / D < 1 / 2 ↔ 2 * (N % D) < D := by
    rw [div_lt_div_iff₀ hDq (by norm_num)]
    constructor
    · intro h
      have : ((2 * (N % D) : ℕ) : ℚ) < (D : ℚ) := by push_cast; linarith
      exact_mod_cast this
    · intro h
      have : ((2 * (N % D) : ℕ) : ℚ) < (D : ℚ) := by exact_mod_cast h
      push_cast at this
      linarith
  have c2 : 1 / 2 < ((N % D : ℕ) : ℚ) / D ↔ D < 2 * (N % D) := by
    rw [div_lt_div_iff₀ (by norm_num) hDq]
    constructor
    · intro h
      have : (D : ℚ) < ((2 * (N % D) : ℕ) : ℚ) := by push_cast; linarith
      exact_mod_cast this
    · intro h
      have : (D : ℚ) < ((2 * (N % D) : ℕ) : ℚ) := by exact_mod_cast h
      push_cast at this
      linarith
  have c3 : ((N / D : ℕ) : ℤ) % 2 = 0 ↔ (N / D) % 2 = 0 := by omega
  unfold roundHalfEven nearestEven
  simp only [hfl, hr, c1, c2, c3]
  split_ifs <;> simp

theorem ulpExp_cases (n d : ℕ) :
    (ulpExp n d = binade n d - 52 ∧ -1074 ≤ binade n d - 52) ∨
      (ulpExp n d = -1074 ∧ binade n d - 52 < -1074) := by
  unfold ulpExp
  split_ifs with h
  · right; exact ⟨rfl, h⟩
  · left; exact ⟨rfl, by omega⟩

theorem ulpExp_ge (n d : ℕ) : -1074 ≤ ulpExp n d := by
  rcases ulpExp_cases n d with ⟨h, h2⟩ | ⟨h, -⟩ <;> omega

theorem ulpExp_mono (n d n' d' : ℕ) (hn : 0 < n) (hd : 0 < d) (hn' : 0 < n') (hd' : 0 < d')
    (h : (n : ℚ) / d ≤ (n' : ℚ) / d') : ulpExp n d ≤ ulpExp n' d' := by
  have hb := binade_mono n d n' d' hn hd hn' hd' h
  rcases ulpExp_cases n d with ⟨h1, h2⟩ | ⟨h1, h2⟩ <;>
    rcases ulpExp_cases n' d' with ⟨h3, h4⟩ | ⟨h3, h4⟩ <;> omega

/-- The scaled magnitude is below `2 ^ 53`, and at least `2 ^ 52` above the
subnormal range. -/
theorem scaled_bounds (n d : ℕ) (hn : 0 < n) (hd : 0 < d) :
    (n : ℚ) / d / (2 : ℚ) ^ ulpExp n d < 2 ^ 53 ∧
    (-1074 < ulpExp n d → (2 : ℚ) ^ 52 ≤ (n : ℚ) / d / (2 : ℚ) ^ ulpExp n d) := by
  obtain ⟨b1, b2⟩ := binade_spec n d hn hd
  have two_ne : (2 : ℚ) ≠ 0 := by norm_num
  have hpos := two_zpow_pos (ulpExp n d)
  constructor
  · rw [div_lt_iff₀ hpos]
    have hle : binade n d + 1 ≤ 53 + ulpExp n d := by
      rcases ulpExp_cases n d with ⟨h1, h2⟩ | ⟨h1, h2⟩ <;> omega
    calc (n : ℚ) / d < (2 : ℚ) ^ (binade n d + 1) := b2
      _ ≤ (2 : ℚ) ^ (53 + ulpExp n d) := two_zpow_le hle
      _ = 2 ^ 53 * (2 : ℚ) ^ ulpExp n d := by
          rw [zpow_add₀ two_ne]; norm_num
  · intro hgt
    have he : ulpExp n d = binade n d - 52 := by
      rcases ulpExp_cases n d with ⟨h1, h2⟩ | ⟨h1, h2⟩ <;> omega
    rw [le_div_iff₀ hpos]
    calc (2 : ℚ) ^ 52 * (2 : ℚ) ^ ulpExp n d = (2 : ℚ) ^ (52 + ulpExp n d) := by
          rw [zpow_add₀ two_ne]; norm_num
      _ = (2 : ℚ) ^ binade n d := by rw [he]; congr 1; ring
      _ ≤ (n : ℚ) / d := b1

/-- On a positive rational, `roundF64` rounds the magnitude scaled by the unit
in the last place. -/
theorem roundF64_pos (q : ℚ) (hq : 0 < q) :
    roundF64 q = (roundHalfEven (q / (2 : ℚ) ^ ulpExp q.num.natAbs q.den) : ℚ) *
      (2 : ℚ) ^ ulpExp q.num.natAbs q.den := by
  have hnum : 0 < q.num := Rat.num_pos.mpr hq
  have hsign : q.num.sign = 1 := Int.sign_eq_one_of_pos hnum
  have hq' : ((q.num.natAbs : ℕ) : ℚ) / (q.den : ℚ) = q := by
    have h1 : ((q.num.natAbs : ℕ) : ℤ) = q.num := Int.natAbs_of_nonneg hnum.le
    have h2 : ((q.num.natAbs : ℕ) : ℚ) = ((q.num : ℤ) : ℚ) := by
      rw [← h1, Int.cast_natCast, Int.natAbs_cast]
    rw [h2]
    exact Rat.num_div_den q
  set e := ulpExp q.num.natAbs q.den with he
  have hD : 0 < q.den * 2 ^ e.toNat := Nat.mul_pos q.den_pos (by positivity)
  have hne := nearestEven_eq (q.num.natAbs * 2 ^ (-e).toNat) (q.den * 2 ^ e.toNat) hD
  have hscaled : ((q.num.natAbs * 2 ^ (-e).toNat : ℕ) : ℚ) / ((q.den * 2 ^ e.toNat : ℕ) : ℚ) =
      q / (2 : ℚ) ^ e := by
    calc ((q.num.natAbs * 2 ^ (-e).toNat : ℕ) : ℚ) / ((q.den * 2 ^ e.toNat : ℕ) : ℚ)
        = ((q.num.natAbs : ℕ) : ℚ) / (q.den : ℚ) /
            ((2 : ℚ) ^ e.toNat / (2 : ℚ) ^ (-e).toNat) := by
          push_cast
          field_simp
      _ = q / (2 : ℚ) ^ e := by rw [hq', ← two_zpow_split e]
  unfold roundF64
  simp only
  rw [← he, hsign, one_mul, Rat.mkRat_eq_div, ← hscaled, ← hne, two_zpow_split e]
  push_cast
  field_simp

theorem roundF64_zero : roundF64 0 = 0 := by decide!

theorem roundF64_neg (q : ℚ) : roundF64 (-q) = -roundF64 q := by
  unfold roundF64
  simp only [Rat.neg_num, Rat.neg_den, Int.natAbs_neg, Int.sign_neg, neg_mul, Rat.mkRat_eq_div]
  push_cast
  ring

theorem roundF64_nonneg {q : ℚ} (hq : 0 ≤ q) : 0 ≤ roundF64 q := by
  rcases eq_or_lt_of_le hq with rfl | hpos
  · rw [roundF64_zero]
  · rw [roundF64_pos q hpos]
    apply mul_nonneg _ (two_zpow_pos _).le
    have : (0 : ℤ) ≤ roundHalfEven (q / (2 : ℚ) ^ ulpExp q.num.natAbs q.den) :=
      roundHalfEven_ge (by
        simp only [Int.cast_zero]
        exact div_nonneg hq (two_zpow_pos _).le)
    exact_mod_cast this

theorem pos_num_den (q : ℚ) (hq : 0 < q) :
    0 < q.num.natAbs ∧ 0 < q.den ∧ ((q.num.natAbs : ℕ) : ℚ) / (q.den : ℚ) = q := by
  have hnum : 0 < q.num := Rat.num_pos.mpr hq
  refine ⟨by omega, q.den_pos, ?_⟩
  have h1 : ((q.num.natAbs : ℕ) : ℤ) = q.num := Int.natAbs_of_nonneg hnum.le
  have h2 : ((q.num.natAbs : ℕ) : ℚ) = ((q.num : ℤ) : ℚ) := by
    rw [← h1, Int.cast_natCast, Int.natAbs_cast]
  rw [h2]
  exact Rat.num_div_den q

theorem roundF64_mono_pos {a b : ℚ} (ha : 0 < a) (hab : a ≤ b) : roundF64 a ≤ roundF64 b := by
  have hb : 0 < b := lt_of_lt_of_le ha hab
  obtain ⟨an, ad, aq⟩ := pos_num_den a ha
  obtain ⟨bn, bd, bq⟩ := pos_num_den b hb
  rw [roundF64_pos a ha, roundF64_pos b hb]
  set ea := ulpExp a.num.natAbs a.den
  set eb := ulpExp b.num.natAbs b.den
  have hexp : ea ≤ eb := ulpExp_mono _ _ _ _ an ad bn bd (by rw [aq, bq]; exact hab)
  have two_ne : (2 : ℚ) ≠ 0 := by norm_num
  rcases eq_or_lt_of_le hexp with heq | hlt
  · rw [← heq]
    apply mul_le_mul_of_nonneg_right _ (two_zpow_pos _).le
    have : roundHalfEven (a / (2 : ℚ) ^ ea) ≤ roundHalfEven (b / (2 : ℚ) ^ ea) :=
      roundHalfEven_mono (div_le_div_of_nonneg_right hab (two_zpow_pos _).le)
    exact_mod_cast this
  · have hA := (scaled_bounds _ _ an ad).1
    rw [aq] at hA
    have hB := (scaled_bounds _ _ bn bd).2 (by have := ulpExp_ge a.num.natAbs a.den; omega)
    rw [bq] at hB
    have h1 : roundHalfEven (a / (2 : ℚ) ^ ea) ≤ (2 : ℤ) ^ 53 :=
      roundHalfEven_le (by push_cast; exact hA.le)
    have h2 : (2 : ℤ) ^ 52 ≤ roundHalfEven (b / (2 : ℚ) ^ eb) :=
      roundHalfEven_ge (by push_cast; exact hB)
    have h1q : (roundHalfEven (a / (2 : ℚ) ^ ea) : ℚ) ≤ 2 ^ 53 := by exact_mod_cast h1
    have h2q : (2 : ℚ) ^ 52 ≤ (roundHalfEven (b / (2 : ℚ) ^ eb) : ℚ) := by exact_mod_cast h2
    calc (roundHalfEven (a / (2 : ℚ) ^ ea) : ℚ) * (2 : ℚ) ^ ea
        ≤ 2 ^ 53 * (2 : ℚ) ^ ea := mul_le_mul_of_nonneg_right h1q (two_zpow_pos _).le
      _ = (2 : ℚ) ^ (53 + ea) := by rw [zpow_add₀ two_ne]; norm_num
      _ ≤ (2 : ℚ) ^ (52 + eb) := two_zpow_le (by omega)
      _ = 2 ^ 52 * (2 : ℚ) ^ eb := by rw [zpow_add₀ two_ne]; norm_num
      _ ≤ (roundHalfEven (b / (2 : ℚ) ^ eb) : ℚ) * (2 : ℚ) ^ eb :=
          mul_le_mul_of_nonneg_right h2q (two_zpow_pos _).le

/-- Rounding to `float64` is monotone. -/
theorem roundF64_mono {a b : ℚ} (hab : a ≤ b) : roundF64 a ≤ roundF64 b := by
  rcases lt_trichotomy 0 a with ha | ha | ha
  · exact roundF64_mono_pos ha hab
  · subst ha
    rw [roundF64_zero]
    exact roundF64_nonneg hab
  · rcases le_or_lt 0 b with hb | hb
    · have h1 : roundF64 a ≤ 0 := by
        have := roundF64_nonneg (q := -a) (by linarith)
        rw [roundF64_neg] at this
        linarith
      exact le_trans h1 (roundF64_nonneg hb)
    · have := roundF64_mono_pos (a := -b) (b := -a) (by linarith) (by linarith)
      rw [roundF64_neg, roundF64_neg] at this
      linarith

theorem roundF64_one : roundF64 1 = 1 := by decide!

/-- The smallest positive `float64`, `2 ^ (-1074)`, is its own rounding. -/
theorem roundF64_least : roundF64 ((2 : ℚ) ^ (-1074 : ℤ)) = (2 : ℚ) ^ (-1074 : ℤ) := by
  have hn : ∀ n : ℕ, (2 : ℚ) ^ (-(n : ℤ)) = mkRat 1 (2 ^ n) := by
    intro n
    rw [Rat.mkRat_eq_div, zpow_neg, zpow_natCast, Int.cast_one, one_div, Nat.cast_pow,
      Nat.cast_ofNat]
  have h : (2 : ℚ) ^ (-1074 : ℤ) = mkRat 1 (2 ^ 1074) := hn 1074
  rw [h]
  decide!

/-- Every `float64` is an integer multiple of `2 ^ (-1074)`. -/
theorem roundF64_grid (q : ℚ) : ∃ z : ℤ, roundF64 q = (z : ℚ) * (2 : ℚ) ^ (-1074 : ℤ) := by
  have two_ne : (2 : ℚ) ≠ 0 := by norm_num
  have key : ∀ a : ℚ, 0 < a → ∃ z : ℤ, roundF64 a = (z : ℚ) * (2 : ℚ) ^ (-1074 : ℤ) := by
    intro a ha
    have hge := ulpExp_ge a.num.natAbs a.den
    refine ⟨roundHalfEven (a / (2 : ℚ) ^ ulpExp a.num.natAbs a.den) *
      2 ^ (ulpExp a.num.natAbs a.den + 1074).toNat, ?_⟩
    rw [roundF64_pos a ha]
    push_cast
    rw [mul_assoc, ← zpow_natCast, ← zpow_add₀ two_ne, Int.toNat_of_nonneg (by omega)]
    congr 2
    ring
  rcases lt_trichotomy 0 q with h | h | h
  · exact key q h
  · subst h
    exact ⟨0, by rw [roundF64_zero]; simp⟩
  · obtain ⟨z, hz⟩ := key (-q) (by linarith)
    refine ⟨-z, ?_⟩
    rw [roundF64_neg] at hz
    push_cast
    linarith

/-- The difference of two distinct `float64` values does not round to zero. -/
theorem roundF64_sub_pos (x y : ℚ) (h : roundF64 x < roundF64 y) :
    0 < roundF64 (roundF64 y - roundF64 x) := by
  obtain ⟨zx, hx⟩ := roundF64_grid x
  obtain ⟨zy, hy⟩ := roundF64_grid y
  have hpos := two_zpow_pos (-1074)
  have hz : zx < zy := by
    rw [hx, hy] at h
    have := lt_of_mul_lt_mul_right h hpos.le
    exact_mod_cast this
  have hge : (2 : ℚ) ^ (-1074 : ℤ) ≤ roundF64 y - roundF64 x := by
    rw [hx, hy, ← sub_mul]
    have h1 : (1 : ℚ) ≤ (zy : ℚ) - zx := by
      have : (1 : ℤ) ≤ zy - zx := by omega
      exact_mod_cast this
    calc (2 : ℚ) ^ (-1074 : ℤ) = 1 * (2 : ℚ) ^ (-1074 : ℤ) := (one_mul _).symm
      _ ≤ ((zy : ℚ) - zx) * (2 : ℚ) ^ (-1074 : ℤ) := mul_le_mul_of_nonneg_right h1 hpos.le
  have := roundF64_mono hge
  rw [roundF64_least] at this
  linarith

/-- A significand of at most 53 bits at an exponent of the format is a
`float64`: rounding leaves it as it is. -/
theorem roundF64_of_float (m e : ℤ) (hm : 0 < m) (hm2 : m ≤ 2 ^ 53) (he : -1074 ≤ e)
    (h : 2 ^ 52 ≤ m ∨ e = -1074) :
    roundF64 ((m : ℚ) * (2 : ℚ) ^ e) = (m : ℚ) * (2 : ℚ) ^ e := by
  have two_ne : (2 : ℚ) ≠ 0 := by norm_num
  have hmq : (0 : ℚ) < m := by exact_mod_cast hm
  have hr : (0 : ℚ) < (m : ℚ) * (2 : ℚ) ^ e := mul_pos hmq (two_zpow_pos e)
  obtain ⟨rn, rd, rq⟩ := pos_num_den _ hr
  have hm2q : (m : ℚ) ≤ 2 ^ 53 := by exact_mod_cast hm2
  rw [roundF64_pos _ hr]
  set r := (m : ℚ) * (2 : ℚ) ^ e with hrdef
  -- the exponent of the last place of `r`, in the three cases
  have hcase : (ulpExp r.num.natAbs r.den = e) ∨
      (ulpExp r.num.natAbs r.den = e + 1 ∧ m = 2 ^ 53) := by
    rcases lt_or_eq_of_le hm2 with hlt | heq
    · left
      rcases le_or_lt ((2 : ℤ) ^ 52) m with hbig | hsmall
      · have hbigq : (2 : ℚ) ^ 52 ≤ m := by exact_mod_cast hbig
        have hltq : (m : ℚ) < 2 ^ 53 := by exact_mod_cast hlt
        have hb : binade r.num.natAbs r.den = e + 52 := by
          apply binade_unique _ _ rn rd
          · rw [rq, hrdef]
            calc (2 : ℚ) ^ (e + 52) = 2 ^ 52 * (2 : ℚ) ^ e := by
                  rw [zpow_add₀ two_ne]; norm_num; ring
              _ ≤ (m : ℚ) * (2 : ℚ) ^ e := mul_le_mul_of_nonneg_right hbigq (two_zpow_pos _).le
          · rw [rq, hrdef]
            calc (m : ℚ) * (2 : ℚ) ^ e < 2 ^ 53 * (2 : ℚ) ^ e :=
                  mul_lt_mul_of_pos_right hltq (two_zpow_pos _)
              _ = (2 : ℚ) ^ (e + 52 + 1) := by
                  rw [show e + 52 + 1 = 53 + e by ring, zpow_add₀ two_ne]; norm_num
        rcases ulpExp_cases r.num.natAbs r.den with ⟨h1, h2⟩ | ⟨h1, h2⟩ <;> omega
      · have he2 : e = -1074 := by
          rcases h with h | h
          · omega
          · exact h
        have hsq : (m : ℚ) < 2 ^ 52 := by exact_mod_cast hsmall
        obtain ⟨b1, -⟩ := binade_spec _ _ rn rd
        rw [rq] at b1
        have hlt2 : (2 : ℚ) ^ binade r.num.natAbs r.den < (2 : ℚ) ^ (52 + e) := by
          calc (2 : ℚ) ^ binade r.num.natAbs r.den ≤ r := b1
            _ < 2 ^ 52 * (2 : ℚ) ^ e := mul_lt_mul_of_pos_right hsq (two_zpow_pos _)
            _ = (2 : ℚ) ^ (52 + e) := by rw [zpow_add₀ two_ne]; norm_num
        have := two_zpow_lt_imp hlt2
        rcases ulpExp_cases r.num.natAbs r.den with ⟨h1, h2⟩ | ⟨h1, h2⟩ <;> omega
    · right
      refine ⟨?_, heq⟩
      have hmq2 : (m : ℚ) = 2 ^ 53 := by exact_mod_cast heq
      have hb : binade r.num.natAbs r.den = e + 53 := by
        apply binade_unique _ _ rn rd
        · rw [rq, hrdef, hmq2]
          rw [show e + 53 = 53 + e by ring, zpow_add₀ two_ne]; norm_num
        · rw [rq, hrdef, hmq2]
          calc (2 : ℚ) ^ 53 * (2 : ℚ) ^ e = (2 : ℚ) ^ (53 + e) := by
                rw [zpow_add₀ two_ne]; norm_num
            _ < (2 : ℚ) ^ (e + 53 + 1) := by
                apply zpow_lt_zpow_right₀ (by norm_num); omega
      rcases ulpExp_cases r.num.natAbs r.den with ⟨h1, h2⟩ | ⟨h1, h2⟩ <;> omega
  rcases hcase with h1 | ⟨h1, h2⟩
  · rw [h1]
    have : r / (2 : ℚ) ^ e = ((m : ℤ) : ℚ) := by
      rw [hrdef]; field_simp
    rw [this, roundHalfEven_intCast]
  · rw [h1]
    have hmq2 : (m : ℚ) = 2 ^ 53 := by exact_mod_cast h2
    have : r / (2 : ℚ) ^ (e + 1) = (((2 : ℤ) ^ 52 : ℤ) : ℚ) := by
      rw [hrdef, hmq2, zpow_add₀ two_ne]
      field_simp
      norm_num
      ring
    rw [this, roundHalfEven_intCast, hrdef, hmq2, zpow_add₀ two_ne]
    push_cast
    ring

/-- Rounding a `float64` gives it back. -/
theorem roundF64_idem (q : ℚ) : roundF64 (roundF64 q) = roundF64 q := by
  have key : ∀ a : ℚ, 0 < a → roundF64 (roundF64 a) = roundF64 a := by
    intro a ha
    obtain ⟨an, ad, aq⟩ := pos_num_den a ha
    have hb := scaled_bounds _ _ an ad
    rw [aq] at hb
    have hge := ulpExp_ge a.num.natAbs a.den
    rw [roundF64_pos a ha]
    set e := ulpExp a.num.natAbs a.den
    set m := roundHalfEven (a / (2 : ℚ) ^ e)
    have hm0 : 0 ≤ m := roundHalfEven_ge (by
      simp only [Int.cast_zero]
      exact div_nonneg ha.le (two_zpow_pos _).le)
    have hm2 : m ≤ 2 ^ 53 := roundHalfEven_le (by push_cast; exact hb.1.le)
    rcases eq_or_lt_of_le hm0 with hz | hpos
    · rw [← hz]
      simp [roundF64_zero]
    · apply roundF64_of_float m e hpos hm2 hge
      by_cases he : e = -1074
      · right; exact he
      · left
        exact roundHalfEven_ge (by push_cast; exact hb.2 (by omega))
  rcases lt_trichotomy 0 q with h | h | h
  · exact key q h
  · subst h
    rw [roundF64_zero, roundF64_zero]
  · have := key (-q) (by linarith)
    rw [roundF64_neg, roundF64_neg] at this
    linarith

theorem two_zpow_le_imp {a b : ℤ} (h : (2 : ℚ) ^ a ≤ (2 : ℚ) ^ b) : a ≤ b := by
  by_contra hn
  have : (2 : ℚ) ^ b < (2 : ℚ) ^ a := zpow_lt_zpow_right₀ (by norm_num) (not_le.mp hn)
  exact absurd h (not_le.mpr this)

/-- A natural number up to `2 ^ 53` is a `float64`. -/
theorem roundF64_natCast (n : ℕ) (h : n ≤ 2 ^ 53) : roundF64 (n : ℚ) = n := by
  have two_ne : (2 : ℚ) ≠ 0 := by norm_num
  rcases Nat.eq_zero_or_pos n with rfl | hn
  · simpa using roundF64_zero
  · obtain ⟨b1, b2⟩ := binade_spec n 1 hn one_pos
    simp only [Nat.cast_one, div_one] at b1 b2
    have hnq : (1 : ℚ) ≤ n := by exact_mod_cast hn
    have hE0 : 0 ≤ binade n 1 := by
      have : (2 : ℚ) ^ (0 : ℤ) < (2 : ℚ) ^ (binade n 1 + 1) := by
        rw [zpow_zero]; exact lt_of_le_of_lt hnq b2
      have := two_zpow_lt_imp this
      omega
    obtain ⟨t, ht⟩ := Int.eq_ofNat_of_zero_le hE0
    rw [ht] at b1 b2
    have c1 : 2 ^ t ≤ n := by
      rw [zpow_natCast] at b1
      exact_mod_cast b1
    have c2 : n < 2 ^ (t + 1) := by
      rw [show ((t : ℤ) + 1) = ((t + 1 : ℕ) : ℤ) by push_cast; ring, zpow_natCast] at b2
      exact_mod_cast b2
    have ht53 : t ≤ 53 := by
      by_contra hlt
      have : 2 ^ 54 ≤ 2 ^ t := Nat.pow_le_pow_right (by norm_num) (by omega)
      omega
    rcases Nat.lt_or_ge t 53 with htlt | htge
    · have e52 : t + (52 - t) = 52 := by omega
      have m1 : 2 ^ 52 ≤ n * 2 ^ (52 - t) := by
        calc 2 ^ 52 = 2 ^ t * 2 ^ (52 - t) := by rw [← pow_add, e52]
          _ ≤ n * 2 ^ (52 - t) := Nat.mul_le_mul_right _ c1
      have m2 : n * 2 ^ (52 - t) < 2 ^ 53 := by
        calc n * 2 ^ (52 - t) < 2 ^ (t + 1) * 2 ^ (52 - t) :=
              Nat.mul_lt_mul_of_pos_right c2 (by positivity)
          _ = 2 ^ 53 := by rw [← pow_add]; congr 1; omega
      have key := roundF64_of_float ((n * 2 ^ (52 - t) : ℕ) : ℤ) ((t : ℤ) - 52)
        (by positivity) (by exact_mod_cast m2.le) (by omega) (Or.inl (by exact_mod_cast m1))
      have hval : (((n * 2 ^ (52 - t) : ℕ) : ℤ) : ℚ) * (2 : ℚ) ^ ((t : ℤ) - 52) = n := by
        push_cast
        rw [mul_assoc, ← zpow_natCast, ← zpow_add₀ two_ne]
        rw [show (((52 - t : ℕ) : ℤ)) + ((t : ℤ) - 52) = 0 by omega]
        simp
      rw [hval] at key
      exact key
    · have ht' : t = 53 := by omega
      subst ht'
      have hn' : n = 2 ^ 53 := by omega
      have key := roundF64_of_float ((n : ℕ) : ℤ) 0 (by positivity) (by exact_mod_cast h)
        (by norm_num) (Or.inl (by rw [hn']; norm_num))
      simpa using key

/-! ## The ladder across ticks -/

theorem goCopy_self {α : Type} (l : List α) : goCopy l l = l := by
  simp [goCopy]

theorem Trade_long (atanDeg : F64 → F64) (gw : Gateway) (src cp : List Tier) (cfg : Config)
    (row : AccountRow) (h : gw.account = some row) (hq : 0 < row.positionAmt) :
    Trade atanDeg gw src cp cfg =
      tradeHeld gw src cp cfg ⟨.LONG, row.positionAmt, row.entryPrice⟩ .LONG
        [(Site.positions, Call.account true)] := by
  simp [Trade, binanceOpenedPositions, h, hq, tag]

theorem Trade_short (atanDeg : F64 → F64) (gw : Gateway) (src cp : List Tier) (cfg : Config)
    (row : AccountRow) (h : gw.account = some row) (hq : row.positionAmt < 0) :
    Trade atanDeg gw src cp cfg =
      tradeHeld gw src cp cfg ⟨.SHORT, row.positionAmt, row.entryPrice⟩ .SHORT
        [(Site.positions, Call.account true)] := by
  simp [Trade, binanceOpenedPositions, h, hq, not_lt.mpr hq.le, tag]

theorem Trade_flat (atanDeg : F64 → F64) (gw : Gateway) (src cp : List Tier) (cfg : Config)
    (row : AccountRow) (h : gw.account = some row) (hq : row.positionAmt = 0) :
    Trade atanDeg gw src cp cfg =
      tradeFlat atanDeg gw src cp cfg [(Site.positions, Call.account true)] := by
  simp [Trade, binanceOpenedPositions, h, hq, tag]

theorem Trade_down (atanDeg : F64 → F64) (gw : Gateway) (src cp : List Tier) (cfg : Config)
    (h : gw.account = none) :
    Trade atanDeg gw src cp cfg =
      ⟨.error (.error .account), [(Site.positions, Call.account false)], cp, [cp], cp⟩ := by
  simp [Trade, binanceOpenedPositions, h, tag]

/-- Ladders of the loop are suffixes. -/
theorem profitLoop_ladders (gw : Gateway) (cfg : Config) (position : TradingPosition)
    (entryPrice currentPrice : ℚ) (rest : List Tier) :
    ∀ (i k : ℕ) (cp : List Tier),
      (profitLoop gw cfg position entryPrice currentPrice rest i k cp).cpProfitArr <:+ cp ∧
      ∀ l ∈ (profitLoop gw cfg position entryPrice currentPrice rest i k cp).ladders, l <:+ cp := by
  induction rest with
  | nil => intro i k cp; simp [profitLoop]
  | cons t rest ih =>
    intro i k cp
    by_cases hit : tierHit position entryPrice currentPrice t = true
    · rcases h : binanceClosePosition gw (k + 1) k position
        (tierQuantity cfg t) with ⟨res, calls⟩
      cases res with
      | error f => simp [profitLoop, hit, h]
      | ok u =>
        cases cp with
        | nil => simp [profitLoop, hit, h]
        | cons hd tail =>
          have h2 := ih (i + 1) (k + 1) tail
          have hs : tail <:+ hd :: tail := List.suffix_cons hd tail
          simp only [profitLoop, hit, h, if_true, List.mem_cons, forall_eq_or_imp]
          exact ⟨h2.1.trans hs, hs, fun l hl => (h2.2 l hl).trans hs⟩
    · simp only [profitLoop, hit]
      exact ih (i + 1) k cp

theorem tradeHeld_ladders (gw : Gateway) (src : List Tier) (cfg : Config)
    (pos : OpenedPosition) (position : TradingPosition) (before : List (Site × Call)) :
    (tradeHeld gw src src cfg pos position before).cpProfits = src ∧
    ∀ l ∈ (tradeHeld gw src src cfg pos position before).ladders, l <:+ src := by
  unfold tradeHeld
  simp only
  split
  · rcases h : binanceClosePosition gw 1 0 position |pos.Amount| with ⟨res, calls⟩
    cases res <;> simp [goCopy_self]
  · refine ⟨rfl, ?_⟩
    intro l hl
    simp only [List.mem_cons] at hl
    rcases hl with rfl | hl
    · exact List.suffix_refl _
    · exact (profitLoop_ladders gw cfg position _ _ src 0 0 src).2 l hl

theorem tradeFlat_ladders (atanDeg : F64 → F64) (gw : Gateway) (src : List Tier) (cfg : Config)
    (before : List (Site × Call)) :
    (tradeFlat atanDeg gw src src cfg before).cpProfits = src ∧
    ∀ l ∈ (tradeFlat atanDeg gw src src cfg before).ladders, l <:+ src := by
  unfold tradeFlat
  rcases h1 : binanceCheckAndCloseOrders gw with ⟨r1, c1⟩
  cases r1 with
  | error f => simp
  | ok b =>
    rcases h2 : checkSignalToBuy atanDeg gw 100 with ⟨r2, c2⟩
    cases r2 with
    | error f => simp
    | ok sig => cases sig <;> simp [goCopy_self]

theorem Trade_ladders (atanDeg : F64 → F64) (gw : Gateway) (src : List Tier) (cfg : Config) :
    (Trade atanDeg gw src src cfg).cpProfits = src ∧
    ∀ l ∈ (Trade atanDeg gw src src cfg).ladders, l <:+ src := by
  unfold Trade
  rcases h0 : binanceOpenedPositions gw with ⟨r0, c0⟩
  cases r0 with
  | error f => simp
  | ok pos =>
    simp only
    split
    · exact tradeFlat_ladders atanDeg gw src cfg _
    · exact tradeHeld_ladders gw src cfg pos _ _
    · exact tradeHeld_ladders gw src cfg pos _ _

theorem tradingLoop_ladders (atanDeg : F64 → F64) (profits : List Tier) (cfg : Config)
    (ticks : List Gateway) :
    ∀ (errCounter : ℕ), ∀ p ∈ tradingLoop atanDeg profits cfg ticks errCounter profits,
      p.result.cpProfits = profits ∧ ∀ l ∈ p.result.ladders, l <:+ profits := by
  induction ticks with
  | nil => intro c p hp; simp [tradingLoop] at hp
  | cons gw rest ih =>
    intro c p hp
    have hT := Trade_ladders atanDeg gw profits cfg
    rw [tradingLoop] at hp
    split at hp
    · simp only [List.mem_singleton] at hp
      subst hp
      exact hT
    · split at hp
      · simp only [List.mem_cons] at hp
        rcases hp with rfl | hp
        · exact hT
        · rw [hT.1] at hp
          exact ih _ p hp
      · simp only [List.mem_cons] at hp
        rcases hp with rfl | hp
        · exact hT
        · rw [hT.1] at hp
          exact ih _ p hp
    · split at hp
      · simp only [List.mem_cons] at hp
        rcases hp with rfl | hp
        · exact hT
        · rw [hT.1] at hp
          exact ih _ p hp
      · simp only [List.mem_cons] at hp
        rcases hp with rfl | hp
        · exact hT
        · rw [hT.1] at hp
          exact ih _ p hp

/-- C9: throughout any run of the trading loop started as `main` starts it
(the working ladder being a copy of the configured one), whatever the
exchange answers, the ladder held between ticks and every value the ladder
takes inside a tick are suffixes of the configured ladder. -/
theorem remaining_ladder_is_suffix (atanDeg : F64 → F64) (profits : List Tier) (cfg : Config)
    (ticks : List Gateway) (p : Pass)
    (hp : p ∈ startTrading atanDeg profits profits cfg ticks) :
    p.result.cpProfits <:+ profits ∧ ∀ l ∈ p.result.ladders, l <:+ profits := by
  have h := tradingLoop_ladders atanDeg profits cfg ticks 0 p hp
  exact ⟨h.1 ▸ List.suffix_refl _, h.2⟩

/-- C9 at two ticks on the two-tier ladder: a stop-loss at 94, then two tiers
triggered at 141. -/
theorem remaining_ladder_is_suffix_witness :
    (⟨Trade anyAngle (heldAt 1 100 141) twoTiers twoTiers ⟨1, 1 / 20⟩, some Sleep.minute⟩ : Pass) ∈
        startTrading anyAngle twoTiers twoTiers ⟨1, 1 / 20⟩ [heldAt 1 100 94, heldAt 1 100 141] ∧
      ((Trade anyAngle (heldAt 1 100 141) twoTiers twoTiers ⟨1, 1 / 20⟩).cpProfits <:+ twoTiers ∧
        ∀ l ∈ (Trade anyAngle (heldAt 1 100 141) twoTiers twoTiers ⟨1, 1 / 20⟩).ladders,
          l <:+ twoTiers) :=
  ⟨by decide!, remaining_ladder_is_suffix anyAngle twoTiers ⟨1, 1 / 20⟩
    [heldAt 1 100 94, heldAt 1 100 141]
    ⟨Trade anyAngle (heldAt 1 100 141) twoTiers twoTiers ⟨1, 1 / 20⟩, some Sleep.minute⟩
    (by decide!)⟩

/-- C1, at the input of the spec (ladder `[(20,1),(40,1)]`, long position
entered at 100, price 121): inside the tick the local ladder becomes
`[(40,1)]`, but the ladder of the caller is still `[(20,1),(40,1)]` when the
tick is over, and a second tick at the same price starts from the full ladder
and submits the order of the first tier again. -/
theorem next_tick_starts_from_full_ladder :
    (Trade anyAngle (heldAt 1 100 121) twoTiers twoTiers ⟨1, 1 / 20⟩).cpProfitArr = [⟨40, 1⟩] ∧
    (Trade anyAngle (heldAt 1 100 121) twoTiers twoTiers ⟨1, 1 / 20⟩).cpProfits =
      [⟨20, 1⟩, ⟨40, 1⟩] ∧
    (startTrading anyAngle twoTiers twoTiers ⟨1, 1 / 20⟩
        [heldAt 1 100 121, heldAt 1 100 121]).map
      (fun p => (p.result.ladders.head?, p.result.orders.map (·.1))) =
      [(some [⟨20, 1⟩, ⟨40, 1⟩], [Site.takeProfit 0]),
       (some [⟨20, 1⟩, ⟨40, 1⟩], [Site.takeProfit 0])] := by
  decide!

theorem binanceClosePosition_accepted (gw : Gateway) (k j : ℕ) (position : TradingPosition)
    (q : ℚ) (hpos : position ≠ .empty) (hok : gw.orderOk j = true) :
    ∃ calls, binanceClosePosition gw k j position q = (.ok (), calls) := by
  cases position with
  | empty => exact absurd rfl hpos
  | LONG => simp [binanceClosePosition, hok]
  | SHORT => simp [binanceClosePosition, hok]

theorem profitLoop_drop (gw : Gateway) (cfg : Config) (position : TradingPosition)
    (entryPrice currentPrice : ℚ) (hpos : position ≠ .empty)
    (hok : ∀ j, gw.orderOk j = true) (rest : List Tier) :
    ∀ (i k : ℕ) (cp : List Tier),
      rest.countP (tierHit position entryPrice currentPrice) ≤ cp.length →
      (profitLoop gw cfg position entryPrice currentPrice rest i k cp).cpProfitArr =
        cp.drop (rest.countP (tierHit position entryPrice currentPrice)) := by
  induction rest with
  | nil => intro i k cp _; simp [profitLoop]
  | cons t rest ih =>
    intro i k cp hlen
    by_cases hit : tierHit position entryPrice currentPrice t = true
    · obtain ⟨calls, h⟩ := binanceClosePosition_accepted gw (k + 1) k position
        (tierQuantity cfg t) hpos (hok k)
      rw [List.countP_cons_of_pos _ _ hit] at hlen ⊢
      cases cp with
      | nil => simp at hlen
      | cons hd tail =>
        simp only [List.length_cons, Nat.add_le_add_iff_right] at hlen
        simp only [profitLoop, hit, h, if_true, List.drop_succ_cons]
        exact ih (i + 1) (k + 1) tail hlen
    · rw [List.countP_cons_of_neg _ _ hit] at hlen ⊢
      simp only [profitLoop, hit]
      exact ih (i + 1) k cp hlen

/-- C2 fails as stated: with the ladder `[(20,1),(40,1)]`, a long position
entered at 100 and the price 141, the stop-loss does not fire, both tiers
trigger, and the tick removes both of them, not the head alone. -/
theorem two_hits_remove_two_tiers :
    stopHit ⟨1, 1 / 20⟩ .LONG 100 141 = false ∧
    twoTiers.countP (tierHit .LONG 100 141) = 2 ∧
    (Trade anyAngle (heldAt 1 100 141) twoTiers twoTiers ⟨1, 1 / 20⟩).cpProfitArr = [] ∧
    (Trade anyAngle (heldAt 1 100 141) twoTiers twoTiers ⟨1, 1 / 20⟩).cpProfitArr ≠
      twoTiers.drop 1 := by
  decide!

/-- C2, amended: on a held position, when the stop-loss does not fire and the
exchange accepts every order, a tick in which `k` tiers of the ladder trigger
removes the first `k` tiers from its ladder, one head for each triggered
tier. -/
theorem ladder_loses_one_head_per_hit (atanDeg : F64 → F64) (gw : Gateway)
    (src cp : List Tier) (cfg : Config) (row : AccountRow)
    (hrow : gw.account = some row) (hheld : row.positionAmt ≠ 0)
    (hok : ∀ j, gw.orderOk j = true)
    (hstop : stopHit cfg (if 0 < row.positionAmt then .LONG else .SHORT) row.entryPrice
      ((gw.price 0).getD 0) = false) :
    (Trade atanDeg gw src cp cfg).cpProfitArr =
      cp.drop (cp.countP (tierHit (if 0 < row.positionAmt then .LONG else .SHORT)
        row.entryPrice ((gw.price 0).getD 0))) := by
  have hprice : (binanceCryptoPairPrice gw 0).1 = (gw.price 0).getD 0 := by
    unfold binanceCryptoPairPrice; cases gw.price 0 <;> rfl
  rcases lt_or_gt_of_ne hheld with hneg | hposv
  · rw [Trade_short atanDeg gw src cp cfg row hrow hneg]
    rw [if_neg (not_lt.mpr hneg.le)] at hstop ⊢
    unfold tradeHeld
    simp only [hprice, hstop]
    exact profitLoop_drop gw cfg .SHORT _ _ (by decide) hok cp 0 0 cp (List.countP_le_length _)
  · rw [Trade_long atanDeg gw src cp cfg row hrow hposv]
    rw [if_pos hposv] at hstop ⊢
    unfold tradeHeld
    simp only [hprice, hstop]
    exact profitLoop_drop gw cfg .LONG _ _ (by decide) hok cp 0 0 cp (List.countP_le_length _)

/-- C2 (amended) at the two-tier ladder, entry 100 and price 141. -/
theorem ladder_loses_one_head_per_hit_witness :
    (heldAt 1 100 141).account = some ⟨1, 100⟩ ∧ (1 : ℚ) ≠ 0 ∧
    (∀ j, (heldAt 1 100 141).orderOk j = true) ∧
    (Trade anyAngle (heldAt 1 100 141) twoTiers twoTiers ⟨1, 1 / 20⟩).cpProfitArr =
      twoTiers.drop (twoTiers.countP (tierHit (if (0 : ℚ) < 1 then .LONG else .SHORT)
        100 (((heldAt 1 100 141).price 0).getD 0))) :=
  ⟨rfl, by norm_num, fun _ => rfl,
    ladder_loses_one_head_per_hit anyAngle (heldAt 1 100 141) twoTiers twoTiers ⟨1, 1 / 20⟩
      ⟨1, 100⟩ rfl (by norm_num) (fun _ => rfl) (by decide!)⟩

/-! ## The orders of a tick -/

theorem mem_orders (r : TradeResult) (s : Site) (o : Order) :
    (s, o) ∈ r.orders ↔ ∃ ok, (s, Call.order o ok) ∈ r.calls := by
  unfold TradeResult.orders
  rw [List.mem_filterMap]
  constructor
  · rintro ⟨⟨s', c⟩, hx, hm⟩
    cases c <;> simp at hm
    obtain ⟨rfl, rfl⟩ := hm
    exact ⟨_, hx⟩
  · rintro ⟨ok, hx⟩
    exact ⟨_, hx, rfl⟩

theorem binanceCryptoPairPrice_fst (gw : Gateway) (k : ℕ) :
    (binanceCryptoPairPrice gw k).1 = (gw.price k).getD 0 := by
  unfold binanceCryptoPairPrice; cases gw.price k <;> rfl

theorem binanceClosePosition_calls (gw : Gateway) (k j : ℕ) (position : TradingPosition)
    (q : ℚ) (hpos : position ≠ .empty) :
    ∃ o, (binanceClosePosition gw k j position q) =
        (if gw.orderOk j then .ok () else .error (.error .order),
          [Call.listPrices (gw.price k).isSome, Call.order o (gw.orderOk j)]) ∧
      o.quantity = quantityText q ∧
      o.side = (if position = .LONG then SideType.sell else SideType.buy) := by
  cases position with
  | empty => exact absurd rfl hpos
  | LONG =>
    cases hp : gw.price k <;> cases ho : gw.orderOk j <;>
      simp [binanceClosePosition, binanceCryptoPairPrice, hp, ho]
  | SHORT =>
    cases hp : gw.price k <;> cases ho : gw.orderOk j <;>
      simp [binanceClosePosition, binanceCryptoPairPrice, hp, ho]

theorem profitLoop_sites (gw : Gateway) (cfg : Config) (position : TradingPosition)
    (entryPrice currentPrice : ℚ) (rest : List Tier) :
    ∀ (i k : ℕ) (cp : List Tier),
      ∀ x ∈ (profitLoop gw cfg position entryPrice currentPrice rest i k cp).calls,
        ∃ j, x.1 = Site.takeProfit j := by
  induction rest with
  | nil => intro i k cp x hx; simp [profitLoop] at hx
  | cons t rest ih =>
    intro i k cp x hx
    by_cases hit : tierHit position entryPrice currentPrice t = true
    · rcases h : binanceClosePosition gw (k + 1) k position
        (tierQuantity cfg t) with ⟨res, calls⟩
      cases res with
      | error f =>
        simp only [profitLoop, hit, h, if_true, tag, List.mem_map] at hx
        obtain ⟨c, _, rfl⟩ := hx
        exact ⟨i, rfl⟩
      | ok u =>
        cases cp with
        | nil =>
          simp only [profitLoop, hit, h, if_true, tag, List.mem_map] at hx
          obtain ⟨c, _, rfl⟩ := hx
          exact ⟨i, rfl⟩
        | cons hd tail =>
          simp only [profitLoop, hit, h, if_true, tag, List.mem_append, List.mem_map] at hx
          rcases hx with ⟨c, _, rfl⟩ | hx
          · exact ⟨i, rfl⟩
          · exact ih (i + 1) (k + 1) tail x hx
    · simp only [profitLoop, hit] at hx
      exact ih (i + 1) k cp x hx

theorem tradeHeld_stop (gw : Gateway) (src cp : List Tier) (cfg : Config)
    (pos : OpenedPosition) (position : TradingPosition) (hpos : position ≠ .empty)
    (hs : stopHit cfg position pos.EntryPrice ((gw.price 0).getD 0) = true) :
    ∃ o, (tradeHeld gw src cp cfg pos position
        [(Site.positions, Call.account true)]).orders = [(Site.stopLoss, o)] ∧
      o.quantity = quantityText |pos.Amount| ∧
      o.side = (if position = .LONG then SideType.sell else SideType.buy) := by
  obtain ⟨o, h, hq, hside⟩ := binanceClosePosition_calls gw 1 0 position |pos.Amount| hpos
  refine ⟨o, ?_, hq, hside⟩
  unfold tradeHeld
  simp only [binanceCryptoPairPrice_fst, hs, if_true, h]
  cases gw.orderOk 0 <;> cases hp : gw.price 0 <;>
    simp [TradeResult.orders, tag, binanceCryptoPairPrice, hp, List.filterMap_cons]

theorem tradeHeld_no_stop (gw : Gateway) (src cp : List Tier) (cfg : Config)
    (pos : OpenedPosition) (position : TradingPosition)
    (hs : stopHit cfg position pos.EntryPrice ((gw.price 0).getD 0) = false) (o : Order) :
    (Site.stopLoss, o) ∉ (tradeHeld gw src cp cfg pos position
        [(Site.positions, Call.account true)]).orders := by
  rw [mem_orders]
  rintro ⟨ok, hx⟩
  unfold tradeHeld at hx
  simp only [binanceCryptoPairPrice_fst, hs, Bool.false_eq_true, if_false] at hx
  simp only [List.mem_append, List.mem_cons, List.mem_singleton, Prod.mk.injEq,
    List.not_mem_nil, or_false] at hx
  rcases hx with (⟨h, _⟩ | ⟨h, _⟩) | hx
  · cases h
  · cases h
  · obtain ⟨j, hj⟩ := profitLoop_sites gw cfg position _ _ cp 0 0 cp _ hx
    cases hj

/-- The stop-loss test on a long position entered at 2.47 with `StopPercent`
0.05: the stop price is the `float64` 2.3465000000000003, so that the price
2.3465 fires the stop-loss, although `2.47 * (1 - 0.05) = 2.3465` in exact
arithmetic. -/
theorem stop_price_is_rounded :
    roundF64 (roundF64 (247 / 100) * roundF64 (1 - roundF64 (1 / 20))) =
      5283848262812435 / 2251799813685248 ∧
    roundF64 (23465 / 10000) = 2641924131406217 / 1125899906842624 ∧
    stopHit ⟨1, 1 / 20⟩ .LONG (247 / 100) (23465 / 10000) = true ∧
    (23465 / 10000 : ℚ) = 247 / 100 * (1 - 1 / 20) := by
  decide!

/-- C3: on a held position the stop-loss order is submitted exactly when the
price seen by the tick is below the stop price `entryPrice * (1 - StopPercent)`
for a long position, or above the stop price `entryPrice * (1 + StopPercent)`
for a short one, the prices and `StopPercent` being the `float64` values that
the program holds and the stop price being computed as the program computes
it, in `float64`; the tick then submits that order only, a sell for a long
position and a buy for a short one, of quantity `|positionAmt|` (the `float64`
amount, as `%f` prints it), whatever the ladder is. -/
theorem stop_loss_fires_iff (atanDeg : F64 → F64) (gw : Gateway) (src cp : List Tier)
    (cfg : Config) (row : AccountRow) (hrow : gw.account = some row)
    (hheld : row.positionAmt ≠ 0) :
    ((∃ o, (Site.stopLoss, o) ∈ (Trade atanDeg gw src cp cfg).orders) ↔
      ((0 < row.positionAmt ∧
          roundF64 ((gw.price 0).getD 0) <
            roundF64 (roundF64 row.entryPrice * roundF64 (1 - roundF64 cfg.StopPercent))) ∨
        (row.positionAmt < 0 ∧
          roundF64 ((gw.price 0).getD 0) >
            roundF64 (roundF64 row.entryPrice * roundF64 (1 + roundF64 cfg.StopPercent))))) ∧
    (((0 < row.positionAmt ∧
          roundF64 ((gw.price 0).getD 0) <
            roundF64 (roundF64 row.entryPrice * roundF64 (1 - roundF64 cfg.StopPercent))) ∨
        (row.positionAmt < 0 ∧
          roundF64 ((gw.price 0).getD 0) >
            roundF64 (roundF64 row.entryPrice * roundF64 (1 + roundF64 cfg.StopPercent)))) →
      ∃ o, (Trade atanDeg gw src cp cfg).orders = [(Site.stopLoss, o)] ∧
        o.quantity = quantityText |row.positionAmt| ∧
        o.side = (if 0 < row.positionAmt then SideType.sell else SideType.buy)) := by
  rcases lt_or_gt_of_ne hheld with hneg | hposv
  · rw [Trade_short atanDeg gw src cp cfg row hrow hneg]
    have hn : ¬ 0 < row.positionAmt := not_lt.mpr hneg.le
    simp only [hn, hneg, false_and, true_and, false_or, if_false]
    by_cases hs : stopHit cfg .SHORT row.entryPrice ((gw.price 0).getD 0) = true
    · have hc : roundF64 ((gw.price 0).getD 0) >
          roundF64 (roundF64 row.entryPrice * roundF64 (1 + roundF64 cfg.StopPercent)) := by
        simpa [stopHit] using hs
      obtain ⟨o, ho, hq, hside⟩ := tradeHeld_stop gw src cp cfg
        ⟨.SHORT, row.positionAmt, row.entryPrice⟩ .SHORT (by decide) hs
      refine ⟨⟨fun _ => hc, fun _ => ⟨o, by rw [ho]; simp⟩⟩, fun _ => ⟨o, ho, hq, ?_⟩⟩
      simpa using hside
    · have hs' : stopHit cfg .SHORT row.entryPrice ((gw.price 0).getD 0) = false := by
        simpa using hs
      have hc : ¬ roundF64 ((gw.price 0).getD 0) >
          roundF64 (roundF64 row.entryPrice * roundF64 (1 + roundF64 cfg.StopPercent)) := by
        simpa [stopHit] using hs'
      refine ⟨⟨?_, fun h => absurd h hc⟩, fun h => absurd h hc⟩
      rintro ⟨o, ho⟩
      exact absurd ho (tradeHeld_no_stop gw src cp cfg
        ⟨.SHORT, row.positionAmt, row.entryPrice⟩ .SHORT hs' o)
  · rw [Trade_long atanDeg gw src cp cfg row hrow hposv]
    have hn : ¬ row.positionAmt < 0 := not_lt.mpr hposv.le
    simp only [hn, hposv, false_and, true_and, or_false, if_true]
    by_cases hs : stopHit cfg .LONG row.entryPrice ((gw.price 0).getD 0) = true
    · have hc : roundF64 ((gw.price 0).getD 0) <
          roundF64 (roundF64 row.entryPrice * roundF64 (1 - roundF64 cfg.StopPercent)) := by
        simpa [stopHit] using hs
      obtain ⟨o, ho, hq, hside⟩ := tradeHeld_stop gw src cp cfg
        ⟨.LONG, row.positionAmt, row.entryPrice⟩ .LONG (by decide) hs
      refine ⟨⟨fun _ => hc, fun _ => ⟨o, by rw [ho]; simp⟩⟩, fun _ => ⟨o, ho, hq, ?_⟩⟩
      simpa using hside
    · have hs' : stopHit cfg .LONG row.entryPrice ((gw.price 0).getD 0) = false := by
        simpa using hs
      have hc : ¬ roundF64 ((gw.price 0).getD 0) <
          roundF64 (roundF64 row.entryPrice * roundF64 (1 - roundF64 cfg.StopPercent)) := by
        simpa [stopHit] using hs'
      refine ⟨⟨?_, fun h => absurd h hc⟩, fun h => absurd h hc⟩
      rintro ⟨o, ho⟩
      exact absurd ho (tradeHeld_no_stop gw src cp cfg
        ⟨.LONG, row.positionAmt, row.entryPrice⟩ .LONG hs' o)

/-- C3 at a long position of 1 entered at 2.47, the price being 2.3465 and
`StopPercent` 0.05 (the input of `stop_price_is_rounded`, on which the
stop-loss fires). -/
theorem stop_loss_fires_iff_witness :
    (heldAt 1 (247 / 100) (23465 / 10000)).account = some ⟨1, 247 / 100⟩ ∧ (1 : ℚ) ≠ 0 ∧
    (((∃ o, (Site.stopLoss, o) ∈
        (Trade anyAngle (heldAt 1 (247 / 100) (23465 / 10000)) twoTiers twoTiers
          ⟨1, 1 / 20⟩).orders) ↔
      (((0 : ℚ) < 1 ∧
          roundF64 (((heldAt 1 (247 / 100) (23465 / 10000)).price 0).getD 0) <
            roundF64 (roundF64 (247 / 100) * roundF64 (1 - roundF64 (1 / 20)))) ∨
        ((1 : ℚ) < 0 ∧
          roundF64 (((heldAt 1 (247 / 100) (23465 / 10000)).price 0).getD 0) >
            roundF64 (roundF64 (247 / 100) * roundF64 (1 + roundF64 (1 / 20)))))) ∧
    ((((0 : ℚ) < 1 ∧
          roundF64 (((heldAt 1 (247 / 100) (23465 / 10000)).price 0).getD 0) <
            roundF64 (roundF64 (247 / 100) * roundF64 (1 - roundF64 (1 / 20)))) ∨
        ((1 : ℚ) < 0 ∧
          roundF64 (((heldAt 1 (247 / 100) (23465 / 10000)).price 0).getD 0) >
            roundF64 (roundF64 (247 / 100) * roundF64 (1 + roundF64 (1 / 20))))) →
      ∃ o, (Trade anyAngle (heldAt 1 (247 / 100) (23465 / 10000)) twoTiers twoTiers
          ⟨1, 1 / 20⟩).orders = [(Site.stopLoss, o)] ∧
        o.quantity = quantityText |(1 : ℚ)| ∧
        o.side = (if (0 : ℚ) < 1 then SideType.sell else SideType.buy))) :=
  ⟨rfl, by norm_num,
    stop_loss_fires_iff anyAngle (heldAt 1 (247 / 100) (23465 / 10000)) twoTiers twoTiers
      ⟨1, 1 / 20⟩ ⟨1, 247 / 100⟩ rfl (by norm_num)⟩

/-! ## Failed calls -/

theorem stopsAtFatal_of_harmless (a : List (Site × Call)) (o : Except Fault Unit)
    (ha : ∀ x ∈ a, x.2.fatal = false) : StopsAtFatal a o := by
  intro pre x post h hx
  have : x ∈ a := by rw [h]; simp
  rw [ha x this] at hx
  cases hx

theorem stopsAtFatal_append (a b : List (Site × Call)) (o : Except Fault Unit)
    (ha : ∀ x ∈ a, x.2.fatal = false) (hb : StopsAtFatal b o) : StopsAtFatal (a ++ b) o := by
  intro pre x post h hx
  rcases List.append_eq_append_iff.mp h with ⟨a', rfl, hb'⟩ | ⟨c', hpre, hc⟩
  · exact hb a' x post hb' hx
  · cases c' with
    | nil =>
      simp only [List.nil_append] at hc
      exact hb [] x post (by simpa using hc.symm) hx
    | cons y c'' =>
      simp only [List.cons_append, List.cons.injEq] at hc
      have : x ∈ a := by rw [hpre, ← hc.1]; simp
      rw [ha x this] at hx
      cases hx

theorem stopsAtFatal_last (a : List (Site × Call)) (y : Site × Call) (e : Err)
    (ha : ∀ x ∈ a, x.2.fatal = false) : StopsAtFatal (a ++ [y]) (.error (.error e)) := by
  apply stopsAtFatal_append a [y] _ ha
  intro pre x post h _
  cases pre with
  | nil =>
    simp only [List.nil_append, List.cons.injEq] at h
    exact ⟨h.2.symm, e, rfl⟩
  | cons z pre' =>
    simp only [List.cons_append, List.cons.injEq] at h
    exact absurd h.2 (by simp)

theorem binanceClosePosition_trace (gw : Gateway) (k j : ℕ) (position : TradingPosition)
    (q : ℚ) (s : Site) (hpos : position ≠ .empty) :
    (∃ calls, binanceClosePosition gw k j position q = (.ok (), calls) ∧
        ∀ x ∈ tag s calls, x.2.fatal = false) ∨
    (∃ calls, binanceClosePosition gw k j position q = (.error (.error .order), calls) ∧
        StopsAtFatal (tag s calls) (.error (.error .order))) := by
  obtain ⟨o, h, -, -⟩ := binanceClosePosition_calls gw k j position q hpos
  cases ho : gw.orderOk j
  · right
    refine ⟨_, by rw [h, ho]; rfl, ?_⟩
    exact stopsAtFatal_last [(s, Call.listPrices (gw.price k).isSome)] (s, Call.order o false)
      .order (by simp [Call.fatal])
  · left
    refine ⟨_, by rw [h, ho]; rfl, ?_⟩
    simp [tag, Call.fatal]

theorem binanceOpenPosition_trace (gw : Gateway) (k j : ℕ) (position : TradingPosition)
    (q : ℚ) (s : Site) (hpos : position ≠ .empty) :
    (∃ calls, binanceOpenPosition gw k j position q = (.ok (), calls) ∧
        ∀ x ∈ tag s calls, x.2.fatal = false) ∨
    (∃ calls, binanceOpenPosition gw k j position q = (.error (.error .order), calls) ∧
        StopsAtFatal (tag s calls) (.error (.error .order))) := by
  cases position with
  | empty => exact absurd rfl hpos
  | LONG =>
    cases ho : gw.orderOk j
    · right
      refine ⟨_, by simp [binanceOpenPosition, ho]; rfl, ?_⟩
      exact stopsAtFatal_last [(s, (binanceCryptoPairPrice gw k).2)] _ .order
        (by unfold binanceCryptoPairPrice; cases gw.price k <;> simp [Call.fatal])
    · left
      refine ⟨_, by simp [binanceOpenPosition, ho]; rfl, ?_⟩
      unfold binanceCryptoPairPrice; cases gw.price k <;> simp [tag, Call.fatal]
  | SHORT =>
    cases ho : gw.orderOk j
    · right
      refine ⟨_, by simp [binanceOpenPosition, ho]; rfl, ?_⟩
      exact stopsAtFatal_last [(s, (binanceCryptoPairPrice gw k).2)] _ .order
        (by unfold binanceCryptoPairPrice; cases gw.price k <;> simp [Call.fatal])
    · left
      refine ⟨_, by simp [binanceOpenPosition, ho]; rfl, ?_⟩
      unfold binanceCryptoPairPrice; cases gw.price k <;> simp [tag, Call.fatal]

theorem tierHit_ne_empty (position : TradingPosition) (e c : ℚ) (t : Tier)
    (h : tierHit position e c t = true) : position ≠ .empty := by
  rintro rfl
  simp [tierHit] at h

theorem profitLoop_stops (gw : Gateway) (cfg : Config) (position : TradingPosition)
    (entryPrice currentPrice : ℚ) (rest : List Tier) :
    ∀ (i k : ℕ) (cp : List Tier),
      StopsAtFatal (profitLoop gw cfg position entryPrice currentPrice rest i k cp).calls
        (profitLoop gw cfg position entryPrice currentPrice rest i k cp).outcome := by
  induction rest with
  | nil =>
    intro i k cp
    simp only [profitLoop]
    exact stopsAtFatal_of_harmless _ _ (by simp)
  | cons t rest ih =>
    intro i k cp
    by_cases hit : tierHit position entryPrice currentPrice t = true
    · rcases binanceClosePosition_trace gw (k + 1) k position
          (tierQuantity cfg t) (.takeProfit i)
          (tierHit_ne_empty _ _ _ _ hit) with ⟨calls, h, hc⟩ | ⟨calls, h, hc⟩
      · cases cp with
        | nil =>
          simp only [profitLoop, hit, h, if_true]
          exact stopsAtFatal_of_harmless _ _ hc
        | cons hd tail =>
          simp only [profitLoop, hit, h, if_true]
          exact stopsAtFatal_append _ _ _ hc (ih (i + 1) (k + 1) tail)
      · simp only [profitLoop, hit, h, if_true]
        exact hc
    · simp only [profitLoop, hit]
      exact ih (i + 1) k cp

theorem tradeHeld_stops (gw : Gateway) (src cp : List Tier) (cfg : Config)
    (pos : OpenedPosition) (position : TradingPosition) (hpos : position ≠ .empty)
    (before : List (Site × Call)) (hb : ∀ x ∈ before, x.2.fatal = false) :
    StopsAtFatal (tradeHeld gw src cp cfg pos position before).calls
      (tradeHeld gw src cp cfg pos position before).outcome := by
  have hseen : ∀ x ∈ before ++ [(Site.currentPrice, (binanceCryptoPairPrice gw 0).2)],
      x.2.fatal = false := by
    intro x hx
    simp only [List.mem_append, List.mem_singleton] at hx
    rcases hx with hx | rfl
    · exact hb x hx
    · unfold binanceCryptoPairPrice; cases gw.price 0 <;> rfl
  unfold tradeHeld
  simp only
  split
  · rcases binanceClosePosition_trace gw 1 0 position |pos.Amount| .stopLoss hpos with
      ⟨calls, h, hc⟩ | ⟨calls, h, hc⟩
    · simp only [h]
      apply stopsAtFatal_of_harmless
      intro x hx
      rcases List.mem_append.mp hx with hx | hx
      · exact hseen x hx
      · exact hc x hx
    · simp only [h]
      exact stopsAtFatal_append _ _ _ hseen hc
  · exact stopsAtFatal_append _ _ _ hseen (profitLoop_stops gw cfg position _ _ cp 0 0 cp)

theorem tradeFlat_stops (atanDeg : F64 → F64) (gw : Gateway) (src cp : List Tier)
    (cfg : Config) (before : List (Site × Call)) (hb : ∀ x ∈ before, x.2.fatal = false) :
    StopsAtFatal (tradeFlat atanDeg gw src cp cfg before).calls
      (tradeFlat atanDeg gw src cp cfg before).outcome := by
  unfold tradeFlat
  rcases h1 : binanceCheckAndCloseOrders gw with ⟨r1, c1⟩
  have h1' : (∃ b, r1 = .ok b ∧ ∀ x ∈ tag .strayOrders c1, x.2.fatal = false) ∨
      (r1 = .error (.error .cancelAll) ∧
        StopsAtFatal (tag .strayOrders c1) (.error (.error .cancelAll))) := by
    unfold binanceCheckAndCloseOrders at h1
    cases hoo : gw.openOrders with
    | none =>
      simp only [hoo, Prod.mk.injEq] at h1
      obtain ⟨rfl, rfl⟩ := h1
      left; exact ⟨_, rfl, by simp [tag, Call.fatal]⟩
    | some n =>
      simp only [hoo] at h1
      by_cases hn : n > 0
      · cases hc : gw.cancelOk
        · simp only [hn, hc, if_true, Bool.false_eq_true, if_false, Prod.mk.injEq] at h1
          obtain ⟨rfl, rfl⟩ := h1
          right
          exact ⟨rfl, stopsAtFatal_last [(Site.strayOrders, Call.listOpenOrders true)]
            (Site.strayOrders, Call.cancelAll false) .cancelAll (by simp [Call.fatal])⟩
        · simp only [hn, hc, if_true, Prod.mk.injEq] at h1
          obtain ⟨rfl, rfl⟩ := h1
          left; exact ⟨_, rfl, by simp [tag, Call.fatal]⟩
      · simp only [hn, if_false, Prod.mk.injEq] at h1
        obtain ⟨rfl, rfl⟩ := h1
        left; exact ⟨_, rfl, by simp [tag, Call.fatal]⟩
  rcases h1' with ⟨b, rfl, hc1⟩ | ⟨rfl, hc1⟩
  · simp only
    rcases h2 : checkSignalToBuy atanDeg gw 100 with ⟨r2, c2⟩
    have h2' : (∀ x ∈ tag .signal c2, x.2.fatal = false) ∨
        (∃ e, r2 = .error (.error e) ∧ StopsAtFatal (tag .signal c2) (.error (.error e))) := by
      unfold checkSignalToBuy binanceKlinesFuturesDataframe at h2
      cases hk : gw.klines with
      | none =>
        simp [hk] at h2
        obtain ⟨rfl, rfl⟩ := h2
        right
        exact ⟨_, rfl, stopsAtFatal_last [] (Site.signal, Call.klines false) .klines (by simp)⟩
      | some ks =>
        cases hcsv : gw.csvOk <;> simp [hk, hcsv] at h2 <;> obtain ⟨-, rfl⟩ := h2 <;>
          exact Or.inl (by simp [tag, Call.fatal])
    have hpre : ∀ x ∈ before ++ tag .strayOrders c1, x.2.fatal = false := by
      intro x hx
      rcases List.mem_append.mp hx with hx | hx
      · exact hb x hx
      · exact hc1 x hx
    rcases h2' with hc2 | ⟨e, rfl, hc2⟩
    · have hseen : ∀ x ∈ before ++ tag .strayOrders c1 ++ tag .signal c2,
          x.2.fatal = false := by
        intro x hx
        rcases List.mem_append.mp hx with hx | hx
        · exact hpre x hx
        · exact hc2 x hx
      cases r2 with
      | error f => exact stopsAtFatal_of_harmless _ _ hseen
      | ok sig =>
        cases sig with
        | empty => exact stopsAtFatal_of_harmless _ _ hseen
        | LONG =>
          simp only
          rcases binanceOpenPosition_trace gw 0 0 .LONG cfg.MaxPositionAmount .entry
            (by decide) with ⟨calls, h, hc⟩ | ⟨calls, h, hc⟩
          · rw [h]
            apply stopsAtFatal_of_harmless
            intro x hx
            rcases List.mem_append.mp hx with hx | hx
            · exact hseen x hx
            · exact hc x hx
          · rw [h]
            exact stopsAtFatal_append _ _ _ hseen hc
        | SHORT =>
          simp only
          rcases binanceOpenPosition_trace gw 0 0 .SHORT cfg.MaxPositionAmount .entry
            (by decide) with ⟨calls, h, hc⟩ | ⟨calls, h, hc⟩
          · rw [h]
            apply stopsAtFatal_of_harmless
            intro x hx
            rcases List.mem_append.mp hx with hx | hx
            · exact hseen x hx
            · exact hc x hx
          · rw [h]
            exact stopsAtFatal_append _ _ _ hseen hc
    · simp only [List.append_assoc]
      rw [← List.append_assoc]
      exact stopsAtFatal_append _ _ _ hpre hc2
  · exact stopsAtFatal_append _ _ _ hb hc1

theorem Trade_stops (atanDeg : F64 → F64) (gw : Gateway) (src cp : List Tier) (cfg : Config) :
    StopsAtFatal (Trade atanDeg gw src cp cfg).calls (Trade atanDeg gw src cp cfg).outcome := by
  cases hacc : gw.account with
  | none =>
    rw [Trade_down atanDeg gw src cp cfg hacc]
    exact stopsAtFatal_last [] (Site.positions, Call.account false) .account (by simp)
  | some row =>
    have hb : ∀ x ∈ [(Site.positions, Call.account true)], x.2.fatal = false := by
      simp [Call.fatal]
    rcases lt_trichotomy row.positionAmt 0 with h | h | h
    · rw [Trade_short atanDeg gw src cp cfg row hacc h]
      exact tradeHeld_stops gw src cp cfg _ .SHORT (by decide) _ hb
    · rw [Trade_flat atanDeg gw src cp cfg row hacc h]
      exact tradeFlat_stops atanDeg gw src cp cfg _ hb
    · rw [Trade_long atanDeg gw src cp cfg row hacc h]
      exact tradeHeld_stops gw src cp cfg _ .LONG (by decide) _ hb

/-- C7 fails as stated: a long position of 1 entered at 100, the first price
query of the tick failing.  The error is dropped, the price is taken to be 0,
the stop-loss fires, its order is submitted after the failed call, and `Trade`
returns no error. -/
theorem dropped_price_error_lets_order_through :
    (Trade anyAngle (priceDownOnce 1 100 100) twoTiers twoTiers ⟨1, 1 / 20⟩).outcome = .ok () ∧
    (Trade anyAngle (priceDownOnce 1 100 100) twoTiers twoTiers ⟨1, 1 / 20⟩).calls =
      [(Site.positions, Call.account true),
       (Site.currentPrice, Call.listPrices false),
       (Site.stopLoss, Call.listPrices true),
       (Site.stopLoss, Call.order ⟨SideType.sell, 1, 99⟩ true)] ∧
    (Call.listPrices false).failed = true := by
  decide!

theorem answered_tag (st : Site) (cs : List Call) :
    (tag st cs).map (fun x => (x.1, x.2.answered)) = tag st (cs.map Call.answered) := by
  simp [tag]

theorem forgiving_price (gw : Gateway) (k : ℕ) :
    binanceCryptoPairPrice gw.forgiving k =
      ((binanceCryptoPairPrice gw k).1, (binanceCryptoPairPrice gw k).2.answered) := by
  cases h : gw.price k <;>
    simp [binanceCryptoPairPrice, Gateway.forgiving, h, Call.answered]

theorem forgiving_close (gw : Gateway) (k j : ℕ) (position : TradingPosition) (q : ℚ) :
    binanceClosePosition gw.forgiving k j position q =
      ((binanceClosePosition gw k j position q).1,
        (binanceClosePosition gw k j position q).2.map Call.answered) := by
  unfold binanceClosePosition
  rw [forgiving_price]
  have ho : gw.forgiving.orderOk j = gw.orderOk j := rfl
  cases position <;> cases hp : gw.price k <;> cases hj : gw.orderOk j <;>
    simp [binanceCryptoPairPrice, hp, hj, ho, Call.answered]

theorem forgiving_open (gw : Gateway) (k j : ℕ) (position : TradingPosition) (q : ℚ) :
    binanceOpenPosition gw.forgiving k j position q =
      ((binanceOpenPosition gw k j position q).1,
        (binanceOpenPosition gw k j position q).2.map Call.answered) := by
  unfold binanceOpenPosition
  rw [forgiving_price]
  have ho : gw.forgiving.orderOk j = gw.orderOk j := rfl
  cases position <;> cases hp : gw.price k <;> cases hj : gw.orderOk j <;>
    simp [binanceCryptoPairPrice, hp, hj, ho, Call.answered]

theorem forgiving_listing (gw : Gateway) :
    binanceCheckAndCloseOrders gw.forgiving =
      ((binanceCheckAndCloseOrders gw).1, (binanceCheckAndCloseOrders gw).2.map Call.answered) := by
  unfold binanceCheckAndCloseOrders Gateway.forgiving
  cases gw.openOrders with
  | none => simp [Call.answered]
  | some n =>
    by_cases hn : n > 0 <;> cases hc : gw.cancelOk <;> simp [hn, hc, Call.answered]

theorem forgiving_signal (atanDeg : F64 → F64) (gw : Gateway) (limit : ℤ) :
    checkSignalToBuy atanDeg gw.forgiving limit = checkSignalToBuy atanDeg gw limit ∧
    (checkSignalToBuy atanDeg gw limit).2.map Call.answered =
      (checkSignalToBuy atanDeg gw limit).2 := by
  refine ⟨rfl, ?_⟩
  by_cases hg : wrapInt64 (limit - 2) ≤ 0
  · simp [checkSignalToBuy, hg]
  · cases hk : gw.klines with
    | none => simp [checkSignalToBuy, binanceKlinesFuturesDataframe, hg, hk, Call.answered]
    | some ks =>
      cases hc : gw.csvOk <;>
        simp [checkSignalToBuy, binanceKlinesFuturesDataframe, hg, hk, hc, Call.answered]

theorem forgiving_loop (gw : Gateway) (cfg : Config) (position : TradingPosition)
    (entryPrice currentPrice : ℚ) (rest : List Tier) :
    ∀ (i k : ℕ) (cp : List Tier),
      profitLoop gw.forgiving cfg position entryPrice currentPrice rest i k cp =
        ⟨(profitLoop gw cfg position entryPrice currentPrice rest i k cp).outcome,
          (profitLoop gw cfg position entryPrice currentPrice rest i k cp).calls.map
            (fun x => (x.1, x.2.answered)),
          (profitLoop gw cfg position entryPrice currentPrice rest i k cp).cpProfitArr,
          (profitLoop gw cfg position entryPrice currentPrice rest i k cp).ladders⟩ := by
  induction rest with
  | nil => intro i k cp; rfl
  | cons t rest ih =>
    intro i k cp
    by_cases hit : tierHit position entryPrice currentPrice t = true
    · rcases h : binanceClosePosition gw (k + 1) k position (tierQuantity cfg t) with
        ⟨res, calls⟩
      have h2 := forgiving_close gw (k + 1) k position (tierQuantity cfg t)
      rw [h] at h2
      cases res with
      | error f => simp only [profitLoop, hit, h, h2, if_true, answered_tag]
      | ok u =>
        cases cp with
        | nil => simp only [profitLoop, hit, h, h2, if_true, answered_tag]
        | cons hd tail =>
          simp only [profitLoop, hit, h, h2, if_true, answered_tag, ih (i + 1) (k + 1) tail,
            List.map_append]
    · simp only [profitLoop, hit, ih (i + 1) k cp]
      rfl

theorem forgiving_held (gw : Gateway) (src cp : List Tier) (cfg : Config)
    (pos : OpenedPosition) (position : TradingPosition) (before : List (Site × Call)) :
    tradeHeld gw.forgiving src cp cfg pos position
        (before.map fun x => (x.1, x.2.answered)) =
      (tradeHeld gw src cp cfg pos position before).answered := by
  unfold tradeHeld
  rw [forgiving_price]
  simp only
  by_cases hs : stopHit cfg position pos.EntryPrice (binanceCryptoPairPrice gw 0).1 = true
  · rcases h : binanceClosePosition gw 1 0 position |pos.Amount| with ⟨res, calls⟩
    have h2 := forgiving_close gw 1 0 position |pos.Amount|
    rw [h] at h2
    cases res <;>
      simp [hs, h, h2, TradeResult.answered, answered_tag]
  · simp [hs, forgiving_loop, TradeResult.answered]

theorem forgiving_flat (atanDeg : F64 → F64) (gw : Gateway) (src cp : List Tier)
    (cfg : Config) (before : List (Site × Call)) :
    tradeFlat atanDeg gw.forgiving src cp cfg (before.map fun x => (x.1, x.2.answered)) =
      (tradeFlat atanDeg gw src cp cfg before).answered := by
  unfold tradeFlat
  rw [forgiving_listing, (forgiving_signal atanDeg gw 100).1]
  rcases h1 : binanceCheckAndCloseOrders gw with ⟨r1, c1⟩
  cases r1 with
  | error f => simp [TradeResult.answered, answered_tag]
  | ok b =>
    have hs := (forgiving_signal atanDeg gw 100).2
    rcases h2 : checkSignalToBuy atanDeg gw 100 with ⟨r2, c2⟩
    rw [h2] at hs
    simp only at hs
    cases r2 with
    | error f => simp [TradeResult.answered, answered_tag, hs]
    | ok sig =>
      cases sig with
      | empty => simp [TradeResult.answered, answered_tag, hs]
      | LONG =>
        rcases h3 : binanceOpenPosition gw 0 0 .LONG cfg.MaxPositionAmount with ⟨r3, c3⟩
        simp [TradeResult.answered, answered_tag, hs, forgiving_open, h3]
      | SHORT =>
        rcases h3 : binanceOpenPosition gw 0 0 .SHORT cfg.MaxPositionAmount with ⟨r3, c3⟩
        simp [TradeResult.answered, answered_tag, hs, forgiving_open, h3]

theorem forgiving_trade (atanDeg : F64 → F64) (gw : Gateway) (src cp : List Tier)
    (cfg : Config) :
    (Trade atanDeg gw src cp cfg).answered = Trade atanDeg gw.forgiving src cp cfg := by
  cases hacc : gw.account with
  | none =>
    rw [Trade_down atanDeg gw src cp cfg hacc, Trade_down atanDeg gw.forgiving src cp cfg hacc]
    rfl
  | some row =>
    have hacc2 : gw.forgiving.account = some row := hacc
    have hb : ([(Site.positions, Call.account true)] : List (Site × Call)) =
        [(Site.positions, Call.account true)].map fun x => (x.1, x.2.answered) := rfl
    rcases lt_trichotomy row.positionAmt 0 with h | h | h
    · rw [Trade_short atanDeg gw src cp cfg row hacc h,
        Trade_short atanDeg gw.forgiving src cp cfg row hacc2 h]
      nth_rewrite 2 [hb]
      rw [forgiving_held]
    · rw [Trade_flat atanDeg gw src cp cfg row hacc h,
        Trade_flat atanDeg gw.forgiving src cp cfg row hacc2 h]
      nth_rewrite 2 [hb]
      rw [forgiving_flat]
    · rw [Trade_long atanDeg gw src cp cfg row hacc h,
        Trade_long atanDeg gw.forgiving src cp cfg row hacc2 h]
      nth_rewrite 2 [hb]
      rw [forgiving_held]

theorem forgiving_no_dropped (atanDeg : F64 → F64) (gw : Gateway) (src cp : List Tier)
    (cfg : Config) :
    ∀ x ∈ (Trade atanDeg gw.forgiving src cp cfg).calls, x.2.failed = true →
      x.2.fatal = true := by
  intro x hx hf
  rw [← forgiving_trade] at hx
  simp only [TradeResult.answered, List.mem_map] at hx
  obtain ⟨y, -, rfl⟩ := hx
  rcases y with ⟨st, c⟩
  cases c <;> simp_all [Call.answered, Call.failed, Call.fatal]

/-- The failure of the listing of the open orders is dropped: with no open
position, a listing that fails and a LONG signal (the window
`hundredCandles`), the tick goes on to the signal and to the entry order, and
`Trade` returns no error. -/
theorem dropped_listing_error_lets_tick_go_on :
    (Trade anyAngle ⟨some ⟨0, 0⟩, none, true, some hundredCandles, true, fun _ => some 50000,
        fun _ => true⟩ twoTiers twoTiers ⟨1 / 100, 1 / 20⟩).outcome = .ok () ∧
    (Trade anyAngle ⟨some ⟨0, 0⟩, none, true, some hundredCandles, true, fun _ => some 50000,
        fun _ => true⟩ twoTiers twoTiers ⟨1 / 100, 1 / 20⟩).calls =
      [(Site.positions, Call.account true),
       (Site.strayOrders, Call.listOpenOrders false),
       (Site.signal, Call.klines true),
       (Site.entry, Call.listPrices true),
       (Site.entry, Call.order ⟨SideType.buy, 1 / 100, 50500⟩ true)] := by
  decide!

/-- C7, amended: in every tick, a failed call other than the listing of the
open orders and the price query (that is: the account query, the cancellation
of the open orders, the candle fetch, an order request that returns an error)
is the last call of the tick, and `Trade` then returns an error; a failure of
the listing of the open orders or of a price query is dropped and the tick
goes on: it returns what it returns, makes the calls it makes and leaves the
ladder it leaves when the exchange answers these calls with no open order and
with the price 0. -/
theorem fatal_failure_ends_tick (atanDeg : F64 → F64) (gw : Gateway) (src cp : List Tier)
    (cfg : Config) :
    (∀ pre x post, (Trade atanDeg gw src cp cfg).calls = pre ++ x :: post →
      x.2.fatal = true →
      post = [] ∧ ∃ e, (Trade atanDeg gw src cp cfg).outcome = .error (.error e)) ∧
    (Trade atanDeg gw src cp cfg).answered = Trade atanDeg gw.forgiving src cp cfg ∧
    (∀ x ∈ (Trade atanDeg gw.forgiving src cp cfg).calls, x.2.failed = true →
      x.2.fatal = true) :=
  ⟨Trade_stops atanDeg gw src cp cfg, forgiving_trade atanDeg gw src cp cfg,
    forgiving_no_dropped atanDeg gw src cp cfg⟩

/-- C7 (amended) at a tick whose first price query fails, on a long position
of 1 entered at 100: the tick is the tick at the price 0, in which the
stop-loss order is submitted. -/
theorem fatal_failure_ends_tick_witness :
    (Trade anyAngle (priceDownOnce 1 100 100) twoTiers twoTiers ⟨1, 1 / 20⟩).answered.calls =
      [(Site.positions, Call.account true),
       (Site.currentPrice, Call.listPrices true),
       (Site.stopLoss, Call.listPrices true),
       (Site.stopLoss, Call.order ⟨SideType.sell, 1, 99⟩ true)] ∧
    ((∀ pre x post,
      (Trade anyAngle (priceDownOnce 1 100 100) twoTiers twoTiers ⟨1, 1 / 20⟩).calls =
        pre ++ x :: post →
      x.2.fatal = true →
      post = [] ∧ ∃ e,
        (Trade anyAngle (priceDownOnce 1 100 100) twoTiers twoTiers ⟨1, 1 / 20⟩).outcome =
          .error (.error e)) ∧
    (Trade anyAngle (priceDownOnce 1 100 100) twoTiers twoTiers ⟨1, 1 / 20⟩).answered =
      Trade anyAngle (priceDownOnce 1 100 100).forgiving twoTiers twoTiers ⟨1, 1 / 20⟩ ∧
    (∀ x ∈ (Trade anyAngle (priceDownOnce 1 100 100).forgiving twoTiers twoTiers
        ⟨1, 1 / 20⟩).calls, x.2.failed = true → x.2.fatal = true)) :=
  ⟨by decide!,
    fatal_failure_ends_tick anyAngle (priceDownOnce 1 100 100) twoTiers twoTiers ⟨1, 1 / 20⟩⟩

theorem profitLoop_quantity (gw : Gateway) (cfg : Config) (position : TradingPosition)
    (entryPrice currentPrice : ℚ) (rest : List Tier) :
    ∀ (i k : ℕ) (cp : List Tier) (j : ℕ) (o : Order) (ok : Bool),
      (Site.takeProfit j, Call.order o ok) ∈
        (profitLoop gw cfg position entryPrice currentPrice rest i k cp).calls →
      i ≤ j ∧ ∃ t, rest[j - i]? = some t ∧
        tierHit position entryPrice currentPrice t = true ∧
        o.quantity = quantityText (tierQuantity cfg t) := by
  induction rest with
  | nil => intro i k cp j o ok hx; simp [profitLoop] at hx
  | cons t rest ih =>
    intro i k cp j o ok hx
    have step : ∀ (k' : ℕ) (cp' : List Tier), (Site.takeProfit j, Call.order o ok) ∈
        (profitLoop gw cfg position entryPrice currentPrice rest (i + 1) k' cp').calls →
        i ≤ j ∧ ∃ t', (t :: rest)[j - i]? = some t' ∧
          tierHit position entryPrice currentPrice t' = true ∧
          o.quantity = quantityText (tierQuantity cfg t') := by
      intro k' cp' h
      obtain ⟨hij, t', ht', hhit, hq⟩ := ih (i + 1) k' cp' j o ok h
      refine ⟨by omega, t', ?_, hhit, hq⟩
      have : j - i = (j - (i + 1)) + 1 := by omega
      rw [this, List.getElem?_cons_succ]
      exact ht'
    by_cases hit : tierHit position entryPrice currentPrice t = true
    · obtain ⟨o', h, hq, -⟩ := binanceClosePosition_calls gw (k + 1) k position
          (tierQuantity cfg t) (tierHit_ne_empty _ _ _ _ hit)
      have here : (Site.takeProfit j, Call.order o ok) ∈
          tag (Site.takeProfit i) [Call.listPrices (gw.price (k + 1)).isSome,
            Call.order o' (gw.orderOk k)] →
          i ≤ j ∧ ∃ t', (t :: rest)[j - i]? = some t' ∧
            tierHit position entryPrice currentPrice t' = true ∧
            o.quantity = quantityText (tierQuantity cfg t') := by
        intro hm
        simp only [tag, List.map_cons, List.map_nil, List.mem_cons, Prod.mk.injEq,
          Site.takeProfit.injEq, Call.order.injEq, List.not_mem_nil, or_false] at hm
        rcases hm with ⟨_, hm⟩ | ⟨rfl, rfl, _⟩
        · cases hm
        · exact ⟨le_refl _, t, by simp, hit, hq⟩
      cases ho : gw.orderOk k
      · simp only [profitLoop, hit, h, ho, if_true, Bool.false_eq_true, if_false] at hx
        exact here (by rw [ho]; exact hx)
      · cases cp with
        | nil =>
          simp only [profitLoop, hit, h, ho, if_true] at hx
          exact here (by rw [ho]; exact hx)
        | cons hd tail =>
          simp only [profitLoop, hit, h, ho, if_true, List.mem_append] at hx
          rcases hx with hx | hx
          · exact here (by rw [ho]; exact hx)
          · exact step (k + 1) tail hx
    · simp only [profitLoop, hit] at hx
      exact step k cp hx

theorem tradeHeld_quantity (gw : Gateway) (src cp : List Tier) (cfg : Config)
    (pos : OpenedPosition) (position : TradingPosition) (j : ℕ) (o : Order)
    (h : (Site.takeProfit j, o) ∈
      (tradeHeld gw src cp cfg pos position [(Site.positions, Call.account true)]).orders) :
    ∃ t, cp[j]? = some t ∧
      tierHit position pos.EntryPrice ((gw.price 0).getD 0) t = true ∧
      o.quantity = quantityText (tierQuantity cfg t) := by
  rw [mem_orders] at h
  obtain ⟨ok, hx⟩ := h
  unfold tradeHeld at hx
  simp only [binanceCryptoPairPrice_fst] at hx
  split at hx
  · rcases hc : binanceClosePosition gw 1 0 position |pos.Amount| with ⟨res, calls⟩
    rw [hc] at hx
    cases res <;>
      simp [tag] at hx
  · simp only [List.mem_append, List.mem_cons, List.mem_singleton, Prod.mk.injEq,
      List.not_mem_nil, or_false] at hx
    rcases hx with (⟨h, _⟩ | ⟨h, _⟩) | hx
    · cases h
    · cases h
    · obtain ⟨-, t, ht, hhit, hq⟩ := profitLoop_quantity gw cfg position _ _ cp 0 0 cp j o ok hx
      exact ⟨t, by simpa using ht, hhit, hq⟩

/-- C8 fails as stated: for the tier `(20, 1)` and `MaxPositionAmount = 1`
(long position entered at 100, price 121) the order of the triggered tier has
quantity `1/10`, not `1 * 1`. -/
theorem partial_close_is_a_tenth_per_contract :
    (Trade anyAngle (heldAt 1 100 121) twoTiers twoTiers ⟨1, 1 / 20⟩).orders =
      [(Site.takeProfit 0, ⟨SideType.sell, 1 / 10, 121 * (1 - 1 / 100)⟩)] ∧
    (1 / 10 : ℚ) ≠ 1 * 1 := by
  decide!

/-- C8, amended: on a held position, the order submitted for the tier
`(delta, contracts)` at index `i` of the ladder is submitted only if that tier
triggers, and its quantity is `|MaxPositionAmount * (contracts / 10)|`, as the
program computes it in `float64` (`tierQuantity`) and prints it with `%f`
(`quantityText`); for `MaxPositionAmount = 1` and one contract that is `1/10`. -/
theorem partial_close_quantity (atanDeg : F64 → F64) (gw : Gateway) (src cp : List Tier)
    (cfg : Config) (row : AccountRow) (i : ℕ) (o : Order)
    (hrow : gw.account = some row) (hheld : row.positionAmt ≠ 0)
    (ho : (Site.takeProfit i, o) ∈ (Trade atanDeg gw src cp cfg).orders) :
    ∃ t, cp[i]? = some t ∧
      tierHit (if 0 < row.positionAmt then .LONG else .SHORT) row.entryPrice
        ((gw.price 0).getD 0) t = true ∧
      o.quantity = quantityText (tierQuantity cfg t) := by
  rcases lt_or_gt_of_ne hheld with hneg | hposv
  · rw [Trade_short atanDeg gw src cp cfg row hrow hneg] at ho
    rw [if_neg (not_lt.mpr hneg.le)]
    exact tradeHeld_quantity gw src cp cfg ⟨.SHORT, row.positionAmt, row.entryPrice⟩ .SHORT
      i o ho
  · rw [Trade_long atanDeg gw src cp cfg row hrow hposv] at ho
    rw [if_pos hposv]
    exact tradeHeld_quantity gw src cp cfg ⟨.LONG, row.positionAmt, row.entryPrice⟩ .LONG
      i o ho

/-- C8 (amended) at the two-tier ladder, entry 100 and price 121. -/
theorem partial_close_quantity_witness :
    (heldAt 1 100 121).account = some ⟨1, 100⟩ ∧ (1 : ℚ) ≠ 0 ∧
    (Site.takeProfit 0, (⟨SideType.sell, 1 / 10, 121 * (1 - 1 / 100)⟩ : Order)) ∈
      (Trade anyAngle (heldAt 1 100 121) twoTiers twoTiers ⟨1, 1 / 20⟩).orders ∧
    ∃ t, twoTiers[0]? = some t ∧
      tierHit (if (0 : ℚ) < 1 then .LONG else .SHORT) 100
        (((heldAt 1 100 121).price 0).getD 0) t = true ∧
      (⟨SideType.sell, 1 / 10, 121 * (1 - 1 / 100)⟩ : Order).quantity =
        quantityText (tierQuantity ⟨1, 1 / 20⟩ t) :=
  ⟨rfl, by norm_num, by decide!,
    partial_close_quantity anyAngle (heldAt 1 100 121) twoTiers twoTiers ⟨1, 1 / 20⟩ ⟨1, 100⟩ 0
      ⟨SideType.sell, 1 / 10, 121 * (1 - 1 / 100)⟩ rfl (by norm_num) (by decide!)⟩

/-! ## The failure counter -/

theorem tradingLoop_backoff (atanDeg : F64 → F64) (profits : List Tier) (cfg : Config)
    (ticks : List Gateway) :
    ∀ (c : ℕ) (cp : List Tier), c < 5 → ∀ (i : ℕ) (p : Pass),
      (tradingLoop atanDeg profits cfg ticks c cp)[i]? = some p →
      (p.sleep = some Sleep.fourMinutes ↔
        (p.result.failed = true ∧
          5 ∣ c + ((tradingLoop atanDeg profits cfg ticks c cp).take (i + 1)).countP
            (fun q => q.result.failed))) := by
  induction ticks with
  | nil => intro c cp _ i p hp; simp [tradingLoop] at hp
  | cons gw rest ih =>
    intro c cp hc i p hp
    rw [tradingLoop] at hp ⊢
    generalize hr : Trade atanDeg gw profits cp cfg = r at hp ⊢
    cases hout : r.outcome with
    | error f =>
      cases f with
      | panic =>
        simp only [hout] at hp ⊢
        cases i with
        | zero =>
          simp only [List.getElem?_cons_zero, Option.some.injEq] at hp
          subst hp
          simp [TradeResult.failed, hout]
        | succ n => simp at hp
      | error e =>
        have hf : r.failed = true := by simp [TradeResult.failed, hout]
        simp only [hout] at hp ⊢
        by_cases h5 : c + 1 = 5
        · simp only [h5, if_true] at hp ⊢
          cases i with
          | zero =>
            simp only [List.getElem?_cons_zero, Option.some.injEq] at hp
            subst hp
            simp [hf, List.countP_cons, h5]
          | succ n =>
            simp only [List.getElem?_cons_succ] at hp
            rw [ih 0 r.cpProfits (by omega) n p hp]
            simp only [List.take_succ_cons, List.countP_cons, hf, if_true]
            constructor
            · rintro ⟨h1, h2⟩; exact ⟨h1, by omega⟩
            · rintro ⟨h1, h2⟩; exact ⟨h1, by omega⟩
        · simp only [h5, if_false] at hp ⊢
          cases i with
          | zero =>
            simp only [List.getElem?_cons_zero, Option.some.injEq] at hp
            subst hp
            simp only [List.take_succ_cons, List.take_zero, List.countP_cons, hf, if_true,
              List.countP_nil, zero_add]
            constructor
            · intro h; cases h
            · rintro ⟨_, h⟩; omega
          | succ n =>
            simp only [List.getElem?_cons_succ] at hp
            rw [ih (c + 1) r.cpProfits (by omega) n p hp]
            simp only [List.take_succ_cons, List.countP_cons, hf, if_true]
            constructor
            · rintro ⟨h1, h2⟩; exact ⟨h1, by omega⟩
            · rintro ⟨h1, h2⟩; exact ⟨h1, by omega⟩
    | ok u =>
      have hf : r.failed = false := by simp [TradeResult.failed, hout]
      have h5 : ¬ c = 5 := by omega
      simp only [hout, h5, if_false] at hp ⊢
      cases i with
      | zero =>
        simp only [List.getElem?_cons_zero, Option.some.injEq] at hp
        subst hp
        simp [hf]
      | succ n =>
        simp only [List.getElem?_cons_succ] at hp
        rw [ih c r.cpProfits hc n p hp]
        simp [List.take_succ_cons, List.countP_cons, hf]

/-- C6 fails as stated: nine ticks that fail and succeed in turn (failure
first).  No two failures are consecutive, yet the four-minute backoff is taken
after the ninth tick, the fifth failure. -/
theorem backoff_without_five_in_a_row :
    (startTrading anyAngle twoTiers twoTiers ⟨1, 1 / 20⟩
        [accountDown, heldAt 1 100 100, accountDown, heldAt 1 100 100, accountDown,
          heldAt 1 100 100, accountDown, heldAt 1 100 100, accountDown]).map
      (fun p => (p.result.failed, p.sleep)) =
      [(true, some Sleep.minute), (false, some Sleep.minute),
       (true, some Sleep.minute), (false, some Sleep.minute),
       (true, some Sleep.minute), (false, some Sleep.minute),
       (true, some Sleep.minute), (false, some Sleep.minute),
       (true, some Sleep.fourMinutes)] := by
  decide!

/-- C6, amended: the failure counter counts the failed ticks since the last
four-minute backoff, a successful tick leaving it as it is; the four-minute
backoff is taken after a tick exactly when that tick failed and the number of
failed ticks so far, that one included, is a multiple of 5. -/
theorem extended_backoff_iff (atanDeg : F64 → F64) (profits cpProfits : List Tier)
    (cfg : Config) (ticks : List Gateway) (i : ℕ) (p : Pass)
    (hp : (startTrading atanDeg profits cpProfits cfg ticks)[i]? = some p) :
    p.sleep = some Sleep.fourMinutes ↔
      (p.result.failed = true ∧
        5 ∣ ((startTrading atanDeg profits cpProfits cfg ticks).take (i + 1)).countP
          (fun q => q.result.failed)) := by
  have h := tradingLoop_backoff atanDeg profits cfg ticks 0 cpProfits (by norm_num) i p hp
  simpa [startTrading] using h

/-- C6 (amended) at five failed ticks, after the fifth of them. -/
theorem extended_backoff_iff_witness :
    (startTrading anyAngle twoTiers twoTiers ⟨1, 1 / 20⟩
        [accountDown, accountDown, accountDown, accountDown, accountDown])[4]? =
      some ⟨Trade anyAngle accountDown twoTiers twoTiers ⟨1, 1 / 20⟩, some Sleep.fourMinutes⟩ ∧
    ((⟨Trade anyAngle accountDown twoTiers twoTiers ⟨1, 1 / 20⟩,
        some Sleep.fourMinutes⟩ : Pass).sleep = some Sleep.fourMinutes ↔
      ((⟨Trade anyAngle accountDown twoTiers twoTiers ⟨1, 1 / 20⟩,
          some Sleep.fourMinutes⟩ : Pass).result.failed = true ∧
        5 ∣ ((startTrading anyAngle twoTiers twoTiers ⟨1, 1 / 20⟩
            [accountDown, accountDown, accountDown, accountDown, accountDown]).take
              (4 + 1)).countP (fun q => q.result.failed))) :=
  ⟨by decide!,
    extended_backoff_iff anyAngle twoTiers twoTiers ⟨1, 1 / 20⟩
      [accountDown, accountDown, accountDown, accountDown, accountDown] 4 _ (by decide!)⟩

/-! ## The candle frame and the slope -/

theorem sortByDateDesc_sorted (ks : List Kline) :
    List.Sorted (fun a b : Kline => b.OpenTime ≤ a.OpenTime) (sortByDateDesc ks) := by
  haveI : IsTotal Kline (fun a b : Kline => b.OpenTime ≤ a.OpenTime) :=
    ⟨fun a b => le_total b.OpenTime a.OpenTime⟩
  haveI : IsTrans Kline (fun a b : Kline => b.OpenTime ≤ a.OpenTime) :=
    ⟨fun a b c hab hbc => le_trans hbc hab⟩
  exact List.sorted_insertionSort _ ks

theorem sortByDateDesc_length (ks : List Kline) : (sortByDateDesc ks).length = ks.length :=
  List.length_insertionSort _ ks

/-- C5, at three candles received in ascending order of open time (1, 2, 3):
the frame handed to the indicator pipeline holds them in descending order
(3, 2, 1), so that its last row is the oldest candle and its first row the
newest one. -/
theorem frame_is_newest_first :
    (binanceKlinesFuturesDataframe (flatWith [candle 1 10, candle 2 11, candle 3 12])).1 =
      .ok [candle 3 12, candle 2 11, candle 1 10] ∧
    (checkSignalToBuy anyAngle (flatWith [candle 1 10, candle 2 11, candle 3 12]) 3).1 =
      signalOnFrame anyAngle 3 [candle 3 12, candle 2 11, candle 1 10] := by
  decide!

theorem arraySl_length (series : List ℚ) (n : ℕ) : (arraySl series n).length = series.length := by
  simp [arraySl]

theorem arraySl_warmup (series : List ℚ) (n i : ℕ) (hi : i + 1 < n) (hlen : i < series.length) :
    (arraySl series n)[i]? = some (F64.fin 0) := by
  have h : ¬ n ≤ i + 1 := by omega
  simp [arraySl, hlen, h]

/-- C10 fails as stated: for the closes `0, 1, 2, 3, 4` and `n = 5`, the
angle at index `4 < 5` is that of the first full window, 45 degrees, not 0
(the angle of a finite slope `q` being `arctan q * (180 / π)`). -/
theorem slope_defined_at_first_full_window :
    IndicateSlope (F64.mapFin fun q => Real.arctan (q : ℝ) * (180 / Real.pi)) [0, 1, 2, 3, 4] 5 =
      .ok [some 0, some 0, some 0, some 0, some 45] ∧ (45 : ℝ) ≠ 0 := by
  have h : arraySl [0, 1, 2, 3, 4] 5 =
      [F64.fin 0, F64.fin 0, F64.fin 0, F64.fin 0, F64.fin 1] := by decide!
  refine ⟨?_, by norm_num⟩
  have hpi : Real.pi ≠ 0 := Real.pi_ne_zero
  simp only [IndicateSlope, h, F64.mapFin, List.map_cons, List.map_nil, Rat.cast_zero,
    Rat.cast_one, Real.arctan_zero, Real.arctan_one, zero_mul]
  have : Real.pi / 4 * (180 / Real.pi) = 45 := by field_simp; ring
  simp [this]

/-- C10, amended: for every close series and slope window `n`, `IndicateSlope`
reports the angle of the slope 0 (which is `zero`) at every index `i < n - 1`;
index `n - 1` already holds the angle of the first full window. -/
theorem slope_zero_before_first_window {β : Type} (atanDeg : F64 → β) (zero : β)
    (series : List ℚ) (n i : ℕ) (h0 : atanDeg (F64.fin 0) = zero)
    (hi : i + 1 < n) (hlen : i < series.length) :
    ∃ l, IndicateSlope atanDeg series n = .ok l ∧ l[i]? = some zero := by
  have hn : n ≠ 0 := by omega
  refine ⟨(arraySl series n).map atanDeg, by simp [IndicateSlope, hn], ?_⟩
  rw [List.getElem?_map, arraySl_warmup series n i hi hlen]
  simp [h0]

/-- C10 (amended) at the closes `0, 1, 2, 3, 4`, `n = 5` and index 3. -/
theorem slope_zero_before_first_window_witness :
    (F64.mapFin fun q => Real.arctan (q : ℝ) * (180 / Real.pi)) (F64.fin 0) = some 0 ∧
    3 + 1 < 5 ∧ 3 < ([0, 1, 2, 3, 4] : List ℚ).length ∧
    ∃ l, IndicateSlope (F64.mapFin fun q => Real.arctan (q : ℝ) * (180 / Real.pi))
        [0, 1, 2, 3, 4] 5 = .ok l ∧ l[3]? = some (some 0) :=
  ⟨by simp [F64.mapFin], by norm_num, by simp,
    slope_zero_before_first_window _ (some 0) [0, 1, 2, 3, 4] 5 3 (by simp [F64.mapFin])
      (by norm_num) (by simp)⟩

/-! ## The entry signal -/

theorem Value_at (s : List ℚ) (n : ℕ) (h : n < s.length) :
    Value s (n : ℤ) = .ok (s.getD n 0) := by
  have h1 : ¬ ((n : ℤ) < 0) := by omega
  simp [Value, h1, List.getD_eq_getElem?_getD, List.getElem?_eq_getElem h]

theorem ValueF_at (s : List F64) (n : ℕ) (h : s.getD n F64.nan ≠ F64.nan) :
    ValueF s (n : ℤ) = .ok (some (s.getD n F64.nan)) := by
  have h1 : ¬ ((n : ℤ) < 0) := by omega
  cases hs : s[n]? with
  | none => simp [List.getD_eq_getElem?_getD, hs] at h
  | some v =>
    simp only [List.getD_eq_getElem?_getD, hs, Option.getD_some] at h ⊢
    simp [ValueF, h1, hs, h]

theorem ValueFloat_at (s : List F64) (n : ℕ) (h : s.getD n F64.nan ≠ F64.nan) :
    ValueFloat s (n : ℤ) = .ok (s.getD n F64.nan) := by
  simp [ValueFloat, ValueF_at s n h]

theorem ValueF_nan (s : List F64) (n : ℕ) (hn : n < s.length)
    (h : s.getD n F64.nan = F64.nan) : ValueF s (n : ℤ) = .ok none := by
  have h1 : ¬ ((n : ℤ) < 0) := by omega
  have hs : s[n]? = some s[n] := List.getElem?_eq_getElem hn
  simp only [List.getD_eq_getElem?_getD, hs, Option.getD_some] at h
  simp [ValueF, h1, hs, h]

theorem ValueFloat_nan (s : List F64) (n : ℕ) (hn : n < s.length)
    (h : s.getD n F64.nan = F64.nan) : ValueFloat s (n : ℤ) = .error .panic := by
  simp [ValueFloat, ValueF_nan s n hn h]

theorem lt_nan_left (x : F64) : F64.lt F64.nan x = false := by
  cases x <;> rfl

theorem lt_nan_right (x : F64) : F64.lt x F64.nan = false := by
  cases x <;> rfl

theorem isLocalMinimumIdx_at (c : List ℚ) (i : ℕ) (h1 : 1 ≤ i) (h2 : i + 1 < c.length) :
    isLocalMinimumIdx c (i : ℤ) = .ok (if localLow c i then (i : ℤ) - 1 else 0) := by
  have e1 : (i : ℤ) + 1 = ((i + 1 : ℕ) : ℤ) := by push_cast; ring
  have e2 : (i : ℤ) - 1 = ((i - 1 : ℕ) : ℤ) := by omega
  unfold isLocalMinimumIdx
  rw [e1, e2, Value_at c i (by omega), Value_at c (i + 1) h2, Value_at c (i - 1) (by omega)]
  simp only [localLow, bind, Except.bind, pure, Except.pure]
  split_ifs <;> first | rfl | (exfalso; tauto)

theorem isLocalMaximumIdx_at (c : List ℚ) (i : ℕ) (h1 : 1 ≤ i) (h2 : i + 1 < c.length) :
    isLocalMaximumIdx c (i : ℤ) = .ok (if localHigh c i then (i : ℤ) else 0) := by
  have e1 : (i : ℤ) + 1 = ((i + 1 : ℕ) : ℤ) := by push_cast; ring
  have e2 : (i : ℤ) - 1 = ((i - 1 : ℕ) : ℤ) := by omega
  unfold isLocalMaximumIdx
  rw [e1, e2, Value_at c i (by omega), Value_at c (i + 1) h2, Value_at c (i - 1) (by omega)]
  simp only [localHigh, bind, Except.bind, pure, Except.pure, ge_iff_le, gt_iff_lt]
  split_ifs <;> first | rfl | (exfalso; tauto)

theorem mapM_ok {α β : Type} (f : α → Except Fault β) (l : List α)
    (h : ∀ a ∈ l, ∃ b, f a = .ok b) : ∃ bs, l.mapM f = .ok bs := by
  induction l with
  | nil => exact ⟨[], rfl⟩
  | cons a l ih =>
    obtain ⟨b, hb⟩ := h a (by simp)
    obtain ⟨bs, hbs⟩ := ih (fun x hx => h x (by simp [hx]))
    refine ⟨b :: bs, ?_⟩
    rw [List.mapM_cons, hb, hbs]
    rfl

theorem extremumColumn_min_ok (closes : List ℚ) :
    ∃ col, extremumColumn isLocalMinimumIdx closes = .ok col := by
  unfold extremumColumn
  apply mapM_ok
  intro i _
  by_cases hi : 4 ≤ i ∧ i + 1 < closes.length
  · rw [if_pos hi, isLocalMinimumIdx_at closes i (by omega) hi.2, Value_at closes i (by omega)]
    simp only [bind, Except.bind, pure, Except.pure]
    split_ifs <;> exact ⟨_, rfl⟩
  · rw [if_neg hi]
    exact ⟨_, rfl⟩

theorem extremumColumn_max_ok (closes : List ℚ) :
    ∃ col, extremumColumn isLocalMaximumIdx closes = .ok col := by
  unfold extremumColumn
  apply mapM_ok
  intro i _
  by_cases hi : 4 ≤ i ∧ i + 1 < closes.length
  · rw [if_pos hi, isLocalMaximumIdx_at closes i (by omega) hi.2, Value_at closes i (by omega)]
    simp only [bind, Except.bind, pure, Except.pure]
    split_ifs <;> exact ⟨_, rfl⟩
  · rw [if_neg hi]
    exact ⟨_, rfl⟩

/-- `PrepareDataFrame` returns a frame on every list of candles. -/
theorem PrepareDataFrame_total (atanDeg : F64 → F64) (w : List Kline) :
    ∃ df, PrepareDataFrame atanDeg w = .ok df := by
  obtain ⟨hcc, h1⟩ := extremumColumn_max_ok (w.map fun k => roundF64 k.Close)
  obtain ⟨lcc, h2⟩ := extremumColumn_min_ok (w.map fun k => roundF64 k.Close)
  unfold PrepareDataFrame
  simp only [IndicateSlope, bind, Except.bind, pure, Except.pure]
  simp [h1, h2]

/-- The columns of the frame that the entry signal reads. -/
theorem PrepareDataFrame_frame (atanDeg : F64 → F64) (w : List Kline) (df : Frame)
    (h : PrepareDataFrame atanDeg w = .ok df) :
    df.close = w.map (fun k => roundF64 k.Close) ∧
    df.slope = (arraySl (w.map fun k => roundF64 k.Close) 5).map atanDeg ∧
    df.chan_max = rollingMax (w.map fun k => roundF64 k.High) 10 ∧
    df.chan_min = rollingMin (w.map fun k => roundF64 k.Low) 10 ∧
    df.pos_in_chan = positionInChannel df.close df.chan_min df.chan_max := by
  obtain ⟨hcc, h1⟩ := extremumColumn_max_ok (w.map fun k => roundF64 k.Close)
  obtain ⟨lcc, h2⟩ := extremumColumn_min_ok (w.map fun k => roundF64 k.Close)
  unfold PrepareDataFrame at h
  simp only [IndicateSlope, bind, Except.bind, pure, Except.pure] at h
  simp [h1, h2] at h
  subst h
  exact ⟨rfl, rfl, rfl, rfl, rfl⟩

theorem PrepareDataFrame_columns (atanDeg : F64 → F64) (w : List Kline) (df : Frame)
    (h : PrepareDataFrame atanDeg w = .ok df) :
    df.close = w.map (fun k => roundF64 k.Close) ∧
    df.slope = (arraySl (w.map fun k => roundF64 k.Close) 5).map atanDeg :=
  ⟨(PrepareDataFrame_frame atanDeg w df h).1, (PrepareDataFrame_frame atanDeg w df h).2.1⟩

theorem length_zipWith3_eq {α β γ δ : Type} (f : α → β → γ → δ) :
    ∀ (a : List α) (b : List β) (l3 : List γ), a.length = b.length → a.length = l3.length →
      (List.zipWith3 f a b l3).length = a.length := by
  intro a
  induction a with
  | nil => intro b l3 _ _; cases b <;> cases l3 <;> simp [List.zipWith3]
  | cons a0 a ih =>
    intro b l3 hb hc
    cases b with
    | nil => simp at hb
    | cons b0 b =>
      cases l3 with
      | nil => simp at hc
      | cons c0 l3 =>
        simp only [List.length_cons, add_left_inj] at hb hc
        simp [List.zipWith3, ih b l3 hb hc]

/-- Every column that the entry signal reads has one row for each candle. -/
theorem PrepareDataFrame_lengths (atanDeg : F64 → F64) (w : List Kline) (df : Frame)
    (h : PrepareDataFrame atanDeg w = .ok df) :
    df.close.length = w.length ∧ df.slope.length = w.length ∧
    df.chan_max.length = w.length ∧ df.chan_min.length = w.length ∧
    df.pos_in_chan.length = w.length := by
  obtain ⟨hc, hs, hmax, hmin, hpos⟩ := PrepareDataFrame_frame atanDeg w df h
  have h1 : df.close.length = w.length := by rw [hc]; simp
  have h2 : df.chan_max.length = w.length := by rw [hmax]; simp [rollingMax]
  have h3 : df.chan_min.length = w.length := by rw [hmin]; simp [rollingMin]
  refine ⟨h1, by rw [hs]; simp [arraySl], h2, h3, ?_⟩
  rw [hpos]
  unfold positionInChannel
  rw [length_zipWith3_eq _ _ _ _ (by rw [h1, h3]) (by rw [h1, h2]), h1]

/-- The local-minimum block at a row inside the frame, case by case. -/
theorem longBlock_eval (df : Frame) (i : ℕ) (h1 : 1 ≤ i) (h2 : i + 1 < df.close.length)
    (hp : i < df.pos_in_chan.length) (hs : i < df.slope.length) :
    longBlock df ((i : ℤ) + 1) =
      if localLow df.close i ∧ 2 ≤ i then
        if df.pos_in_chan.getD i F64.nan = F64.nan then .error .panic
        else if F64.lt (df.pos_in_chan.getD i F64.nan) (F64.fin (1 / 2)) = true then
          if df.slope.getD i F64.nan = F64.nan then .error (.error .slopeInvalid)
          else if F64.lt (df.slope.getD i F64.nan) (F64.fin (-20)) = true then
            .ok TradingPosition.LONG
          else .ok TradingPosition.empty
        else .ok TradingPosition.empty
      else .ok TradingPosition.empty := by
  unfold longBlock
  rw [add_sub_cancel_right, isLocalMinimumIdx_at df.close i h1 h2]
  simp only [bind, Except.bind, pure, Except.pure]
  by_cases hl : localLow df.close i ∧ 2 ≤ i
  · have hm : (i : ℤ) - 1 > 0 := by omega
    rw [if_pos hl]
    simp only [hl.1, if_true, hm]
    by_cases hpn : df.pos_in_chan.getD i F64.nan = F64.nan
    · rw [if_pos hpn, ValueFloat_nan _ i hp hpn]
    · rw [if_neg hpn, ValueFloat_at _ i hpn]
      simp only
      by_cases hlt : F64.lt (df.pos_in_chan.getD i F64.nan) (F64.fin (1 / 2)) = true
      · rw [if_pos hlt]
        simp only [hlt, if_true]
        by_cases hsn : df.slope.getD i F64.nan = F64.nan
        · rw [if_pos hsn, ValueF_nan _ i hs hsn]
          rfl
        · rw [if_neg hsn, ValueF_at _ i hsn]
      · rw [if_neg hlt]
        simp only [hlt]
        rfl
  · rw [if_neg hl]
    by_cases hl1 : localLow df.close i
    · have hm : ¬ ((i : ℤ) - 1 > 0) := by
        intro h
        exact hl ⟨hl1, by omega⟩
      simp [hl1, hm]
    · simp [hl1]

/-- The local-maximum block at a row inside the frame, case by case. -/
theorem shortBlock_eval (df : Frame) (i : ℕ) (sig : TradingPosition) (h1 : 1 ≤ i)
    (h2 : i + 1 < df.close.length)
    (hp : i < df.pos_in_chan.length) (hs : i < df.slope.length) :
    shortBlock df ((i : ℤ) + 1) sig =
      if localHigh df.close i then
        if df.pos_in_chan.getD i F64.nan = F64.nan then .error .panic
        else if F64.lt (F64.fin (1 / 2)) (df.pos_in_chan.getD i F64.nan) = true then
          if df.slope.getD i F64.nan = F64.nan then .error .panic
          else if F64.lt (F64.fin 20) (df.slope.getD i F64.nan) = true then
            .ok TradingPosition.SHORT
          else .ok sig
        else .ok sig
      else .ok sig := by
  unfold shortBlock
  rw [add_sub_cancel_right, isLocalMaximumIdx_at df.close i h1 h2]
  simp only [bind, Except.bind, pure, Except.pure]
  by_cases hl : localHigh df.close i
  · have hm : (i : ℤ) > 0 := by omega
    rw [if_pos hl]
    simp only [hl, if_true, hm]
    by_cases hpn : df.pos_in_chan.getD i F64.nan = F64.nan
    · rw [if_pos hpn, ValueFloat_nan _ i hp hpn]
    · rw [if_neg hpn, ValueFloat_at _ i hpn]
      simp only
      by_cases hlt : F64.lt (F64.fin (1 / 2)) (df.pos_in_chan.getD i F64.nan) = true
      · rw [if_pos hlt]
        simp only [hlt, if_true]
        by_cases hsn : df.slope.getD i F64.nan = F64.nan
        · rw [if_pos hsn, ValueFloat_nan _ i hs hsn]
        · rw [if_neg hsn, ValueFloat_at _ i hsn]
      · rw [if_neg hlt]
        simp only [hlt]
        rfl
  · rw [if_neg hl]
    simp [hl]

theorem localLow_not_localHigh (c : List ℚ) (i : ℕ) (h : localLow c i) : ¬ localHigh c i := by
  intro h'
  exact absurd h.2.2 (not_lt.mpr h'.2.2.le)

theorem slope_warmup_not_steep (atanDeg : F64 → F64) (c : List ℚ) (i : ℕ)
    (h0 : atanDeg (F64.fin 0) = F64.fin 0) (hi : i < 2)
    (h : F64.lt (((arraySl c 5).map atanDeg).getD i F64.nan) (F64.fin (-20)) = true) :
    False := by
  by_cases hlen : i < c.length
  · rw [List.getD_eq_getElem?_getD, List.getElem?_map,
      arraySl_warmup c 5 i (by omega) hlen] at h
    simp [h0, F64.lt] at h
    norm_num at h
  · have : ((arraySl c 5).map atanDeg)[i]? = none := by
      rw [List.getElem?_eq_none_iff]; simp [arraySl_length]; omega
    rw [List.getD_eq_getElem?_getD, this] at h
    simp [F64.lt] at h

theorem wrapInt64_of_range (x : ℤ) (h1 : -2 ^ 63 ≤ x) (h2 : x < 2 ^ 63) : wrapInt64 x = x := by
  unfold wrapInt64
  have h3 : (x + 2 ^ 63) % 2 ^ 64 = x + 2 ^ 63 :=
    Int.emod_eq_of_lt (by omega) (by omega)
  rw [h3]
  ring

/-- The chart is drawn without a fault when the frame has at least `limit`
rows, `limit` being a count that `float64` holds exactly. -/
theorem saveChartAsSVG_ok (df : Frame) (limit : ℕ) (h1 : 1 ≤ limit) (h53 : limit ≤ 2 ^ 53)
    (hmax : limit ≤ df.chan_max.length) (hclose : limit ≤ df.close.length)
    (hmin : limit ≤ df.chan_min.length) :
    saveChartAsSVG df 1 (roundF64 (((limit : ℕ) : ℤ) : ℚ)) = .ok () := by
  have hr : roundF64 (((limit : ℕ) : ℤ) : ℚ) = (limit : ℚ) := by
    rw [Int.cast_natCast]
    exact roundF64_natCast limit h53
  have hx : (if (1 : ℚ) < (limit : ℚ) then ⌊roundF64 ((limit : ℚ) - 1)⌋
      else ⌊roundF64 (1 - (limit : ℚ))⌋) + 1 = (limit : ℤ) := by
    by_cases hl : 1 < limit
    · have hlq : (1 : ℚ) < (limit : ℚ) := by exact_mod_cast hl
      have hsub : (limit : ℚ) - 1 = ((limit - 1 : ℕ) : ℚ) := by
        rw [Nat.cast_sub h1]; simp
      rw [if_pos hlq, hsub, roundF64_natCast _ (by omega)]
      rw [show (((limit - 1 : ℕ) : ℚ)) = (((limit - 1 : ℕ) : ℤ) : ℚ) by simp, Int.floor_intCast]
      omega
    · have h1' : limit = 1 := by omega
      subst h1'
      simp [roundF64_zero]
  unfold saveChartAsSVG
  simp only [hr, hx]
  have : ¬ ((df.chan_max.length : ℤ) < (limit : ℤ) ∨ (df.close.length : ℤ) < (limit : ℤ) ∨
      (df.chan_min.length : ℤ) < (limit : ℤ)) := by omega
  rw [if_neg this]

/-- The result of `checkSignalToBuy` on a window of `limit > 3` candles: the
two blocks at row `limit - 3` of the frame. -/
theorem checkSignalToBuy_blocks (atanDeg : F64 → F64) (gw : Gateway) (ks : List Kline)
    (limit : ℕ) (df : Frame)
    (hk : gw.klines = some ks) (hcsv : gw.csvOk = true) (hlen : ks.length = limit)
    (hlimit : 3 < limit) (h53 : limit ≤ 2 ^ 53)
    (hdf : PrepareDataFrame atanDeg (sortByDateDesc ks) = .ok df) :
    (checkSignalToBuy atanDeg gw limit).1 =
      (longBlock df (((limit - 3 : ℕ) : ℤ) + 1) >>= fun sig =>
        shortBlock df (((limit - 3 : ℕ) : ℤ) + 1) sig) := by
  obtain ⟨hc, hs, hmax, hmin, hpos⟩ := PrepareDataFrame_lengths atanDeg _ df hdf
  rw [sortByDateDesc_length, hlen] at hc hs hmax hmin hpos
  have h53' : (limit : ℤ) ≤ 2 ^ 53 := by exact_mod_cast h53
  have hw : wrapInt64 ((limit : ℤ) - 2) = ((limit - 3 : ℕ) : ℤ) + 1 := by
    rw [wrapInt64_of_range _ (by omega) (by omega)]
    omega
  have hgt : ¬ (((limit - 3 : ℕ) : ℤ) + 1 ≤ 0) := by omega
  have hchart := saveChartAsSVG_ok df limit (by omega) h53 (by omega) (by omega) (by omega)
  unfold checkSignalToBuy binanceKlinesFuturesDataframe
  simp only [hk, hcsv, hw, hgt, if_true, if_false, signalOnFrame, hdf, hchart, bind,
    Except.bind]

/-- C4 fails as stated, at two inputs.  A window of `limit = 3` candles passes
the guard `limit > 2` and the detector panics on the read of row `-1`.  And on
the window of `limit = 7` candles whose closes read `10, 10, 10, 10, 10, 11, 11`
from the newest to the oldest, the order of the frame (high 12 and low 9 on
the first five rows), the local-low test holds at row 4 and
the position in the channel is below 0.5 (the `float64` nearest to `1/3`), but
the slope at row 4 is NaN and the detector returns an error, not "no signal". -/
theorem signal_panics_or_fails :
    (checkSignalToBuy anyAngle (flatWith [candle 1 12, candle 2 11, candle 3 10]) 3).1 =
      .error .panic ∧
    (checkSignalToBuy anyAngle
        (flatWith [candle 1 11, candle 2 11, candle 3 10, candle 4 10, candle 5 10,
          candle 6 10, candle 7 10]) 7).1 = .error (.error .slopeInvalid) := by
  decide!

/-- The position in the channel is the `float64` quotient: on a window of four
candles of close 0.30, high 0.50 and low 0.10 it is `0.49999999999999994`,
below 0.5, although `(0.30 - 0.10) / (0.50 - 0.10) = 0.5` in exact arithmetic. -/
theorem position_in_channel_is_rounded :
    (PrepareDataFrame anyAngle
        [⟨4, 3 / 10, 1 / 2, 1 / 10, 3 / 10, 1⟩, ⟨3, 3 / 10, 1 / 2, 1 / 10, 3 / 10, 1⟩,
          ⟨2, 3 / 10, 1 / 2, 1 / 10, 3 / 10, 1⟩, ⟨1, 3 / 10, 1 / 2, 1 / 10, 3 / 10, 1⟩]).map
      (fun df => df.pos_in_chan.head?) =
      .ok (some (F64.fin (9007199254740991 / 18014398509481984))) ∧
    F64.lt (F64.fin (9007199254740991 / 18014398509481984)) (F64.fin (1 / 2)) = true ∧
    ((3 / 10 - 1 / 10) / (1 / 2 - 1 / 10) : ℚ) = 1 / 2 := by
  decide!

/-- C4, amended: for every candle window of length `limit > 3` (`limit` a
count that `float64` holds exactly), `p` and `s` being the position in the
channel and the slope angle at row `lastClosed - 1 = limit - 3` of the frame
and the angle of a zero slope being 0, `checkSignalToBuy` returns LONG exactly
when the local-low test holds at that row with `p < 0.5` and `s < -20`, SHORT
exactly when the local-high test holds there with `p > 0.5` and `s > 20`; it
returns the error "get slope error" exactly when a local low is found
(`limit > 4`) with `p < 0.5` and `s` is NaN, panics exactly when a local low
or a local high is found and `p` is NaN or a local high is found with
`p > 0.5` and `s` is NaN, and returns no signal in every other case. -/
theorem signal_rule (atanDeg : F64 → F64) (gw : Gateway) (ks : List Kline)
    (limit : ℕ) (df : Frame) (p s : F64)
    (h0 : atanDeg (F64.fin 0) = F64.fin 0)
    (hk : gw.klines = some ks) (hcsv : gw.csvOk = true) (hlen : ks.length = limit)
    (hlimit : 3 < limit) (h53 : limit ≤ 2 ^ 53)
    (hdf : PrepareDataFrame atanDeg (sortByDateDesc ks) = .ok df)
    (hp : p = df.pos_in_chan.getD (limit - 3) F64.nan)
    (hs : s = df.slope.getD (limit - 3) F64.nan) :
    ((checkSignalToBuy atanDeg gw limit).1 = .ok TradingPosition.LONG ↔
      (localLow df.close (limit - 3) ∧ F64.lt p (F64.fin (1 / 2)) = true ∧
        F64.lt s (F64.fin (-20)) = true)) ∧
    ((checkSignalToBuy atanDeg gw limit).1 = .ok TradingPosition.SHORT ↔
      (localHigh df.close (limit - 3) ∧ F64.lt (F64.fin (1 / 2)) p = true ∧
        F64.lt (F64.fin 20) s = true)) ∧
    ((checkSignalToBuy atanDeg gw limit).1 = .error (.error .slopeInvalid) ↔
      (localLow df.close (limit - 3) ∧ 4 < limit ∧ F64.lt p (F64.fin (1 / 2)) = true ∧
        s = F64.nan)) ∧
    ((checkSignalToBuy atanDeg gw limit).1 = .error .panic ↔
      ((((localLow df.close (limit - 3) ∧ 4 < limit) ∨ localHigh df.close (limit - 3)) ∧
          p = F64.nan) ∨
        (localHigh df.close (limit - 3) ∧ F64.lt (F64.fin (1 / 2)) p = true ∧
          s = F64.nan))) ∧
    (¬ (localLow df.close (limit - 3) ∧ F64.lt p (F64.fin (1 / 2)) = true ∧
        F64.lt s (F64.fin (-20)) = true) →
      ¬ (localHigh df.close (limit - 3) ∧ F64.lt (F64.fin (1 / 2)) p = true ∧
        F64.lt (F64.fin 20) s = true) →
      ¬ (localLow df.close (limit - 3) ∧ 4 < limit ∧ F64.lt p (F64.fin (1 / 2)) = true ∧
        s = F64.nan) →
      ¬ ((((localLow df.close (limit - 3) ∧ 4 < limit) ∨ localHigh df.close (limit - 3)) ∧
          p = F64.nan) ∨
        (localHigh df.close (limit - 3) ∧ F64.lt (F64.fin (1 / 2)) p = true ∧
          s = F64.nan)) →
      (checkSignalToBuy atanDeg gw limit).1 = .ok TradingPosition.empty) := by
  obtain ⟨hc, hsl, -, -, hpos⟩ := PrepareDataFrame_lengths atanDeg _ df hdf
  rw [sortByDateDesc_length, hlen] at hc hsl hpos
  obtain ⟨-, hslope⟩ := PrepareDataFrame_columns atanDeg _ df hdf
  rw [checkSignalToBuy_blocks atanDeg gw ks limit df hk hcsv hlen hlimit h53 hdf,
    longBlock_eval df (limit - 3) (by omega) (by omega) (by omega) (by omega)]
  have hshort := fun sig => shortBlock_eval df (limit - 3) sig (by omega) (by omega)
    (by omega) (by omega)
  have hsteep : F64.lt s (F64.fin (-20)) = true → 2 ≤ limit - 3 := by
    intro h
    by_contra hlt
    rw [hs, hslope] at h
    exact slope_warmup_not_steep atanDeg _ (limit - 3) h0 (by omega) h
  have h4 : 4 < limit ↔ 2 ≤ limit - 3 := by omega
  simp only [hshort, ← hp, ← hs, h4]
  have hpl : p = F64.nan → F64.lt p (F64.fin (1 / 2)) = false := by
    rintro rfl; exact lt_nan_left _
  have hpr : p = F64.nan → F64.lt (F64.fin (1 / 2)) p = false := by
    rintro rfl; exact lt_nan_right _
  have hsl2 : s = F64.nan → F64.lt s (F64.fin (-20)) = false := by
    rintro rfl; exact lt_nan_left _
  have hsr : s = F64.nan → F64.lt (F64.fin 20) s = false := by
    rintro rfl; exact lt_nan_right _
  have hLH := localLow_not_localHigh df.close (limit - 3)
  clear hshort hp hs hslope hdf hk hcsv h0 h4
  generalize F64.lt p (F64.fin (1 / 2)) = a at *
  generalize F64.lt s (F64.fin (-20)) = b at *
  generalize F64.lt (F64.fin (1 / 2)) p = c at *
  generalize F64.lt (F64.fin 20) s = d at *
  by_cases hL : localLow df.close (limit - 3)
  · have hH : ¬ localHigh df.close (limit - 3) := hLH hL
    by_cases h2 : 2 ≤ limit - 3
    · by_cases hpn : p = F64.nan
      · have ha := hpl hpn
        subst ha
        simp [hL, hH, h2, hpn, bind, Except.bind]
      · by_cases hsn : s = F64.nan
        · have hb := hsl2 hsn
          subst hb
          cases a <;> simp [hL, hH, h2, hpn, hsn, bind, Except.bind]
        · cases a <;> cases b <;> simp [hL, hH, h2, hpn, hsn, bind, Except.bind]
    · have hb : b = false := by
        cases b
        · rfl
        · exact absurd (hsteep rfl) h2
      subst hb
      simp [hL, hH, h2, bind, Except.bind]
  · by_cases hH : localHigh df.close (limit - 3)
    · by_cases hpn : p = F64.nan
      · have hc' := hpr hpn
        subst hc'
        simp [hL, hH, hpn, bind, Except.bind]
      · by_cases hsn : s = F64.nan
        · have hd := hsr hsn
          subst hd
          cases c <;> simp [hL, hH, hpn, hsn, bind, Except.bind]
        · cases c <;> cases d <;> simp [hL, hH, hpn, hsn, bind, Except.bind]
    · simp [hL, hH, bind, Except.bind]

/-- C4 (amended) at the window `sevenCandles`, on which the signal is LONG. -/
theorem signal_rule_witness :
    anyAngle (F64.fin 0) = F64.fin 0 ∧
    (flatWith sevenCandles).klines = some sevenCandles ∧
    (flatWith sevenCandles).csvOk = true ∧ sevenCandles.length = 7 ∧ 3 < 7 ∧ 7 ≤ 2 ^ 53 ∧
    PrepareDataFrame anyAngle (sortByDateDesc sevenCandles) = .ok sevenFrame ∧
    F64.fin (roundF64 (1 / 7)) = sevenFrame.pos_in_chan.getD (7 - 3) F64.nan ∧
    F64.fin (-45) = sevenFrame.slope.getD (7 - 3) F64.nan ∧
    (((checkSignalToBuy anyAngle (flatWith sevenCandles) (7 : ℕ)).1 = .ok TradingPosition.LONG ↔
      (localLow sevenFrame.close (7 - 3) ∧
        F64.lt (F64.fin (roundF64 (1 / 7))) (F64.fin (1 / 2)) = true ∧
        F64.lt (F64.fin (-45)) (F64.fin (-20)) = true)) ∧
    ((checkSignalToBuy anyAngle (flatWith sevenCandles) (7 : ℕ)).1 = .ok TradingPosition.SHORT ↔
      (localHigh sevenFrame.close (7 - 3) ∧
        F64.lt (F64.fin (1 / 2)) (F64.fin (roundF64 (1 / 7))) = true ∧
        F64.lt (F64.fin 20) (F64.fin (-45)) = true)) ∧
    ((checkSignalToBuy anyAngle (flatWith sevenCandles) (7 : ℕ)).1 =
        .error (.error .slopeInvalid) ↔
      (localLow sevenFrame.close (7 - 3) ∧ 4 < 7 ∧
        F64.lt (F64.fin (roundF64 (1 / 7))) (F64.fin (1 / 2)) = true ∧
        F64.fin (-45) = F64.nan)) ∧
    ((checkSignalToBuy anyAngle (flatWith sevenCandles) (7 : ℕ)).1 = .error .panic ↔
      ((((localLow sevenFrame.close (7 - 3) ∧ 4 < 7) ∨ localHigh sevenFrame.close (7 - 3)) ∧
          F64.fin (roundF64 (1 / 7)) = F64.nan) ∨
        (localHigh sevenFrame.close (7 - 3) ∧
          F64.lt (F64.fin (1 / 2)) (F64.fin (roundF64 (1 / 7))) = true ∧
          F64.fin (-45) = F64.nan))) ∧
    (¬ (localLow sevenFrame.close (7 - 3) ∧
        F64.lt (F64.fin (roundF64 (1 / 7))) (F64.fin (1 / 2)) = true ∧
        F64.lt (F64.fin (-45)) (F64.fin (-20)) = true) →
      ¬ (localHigh sevenFrame.close (7 - 3) ∧
        F64.lt (F64.fin (1 / 2)) (F64.fin (roundF64 (1 / 7))) = true ∧
        F64.lt (F64.fin 20) (F64.fin (-45)) = true) →
      ¬ (localLow sevenFrame.close (7 - 3) ∧ 4 < 7 ∧
        F64.lt (F64.fin (roundF64 (1 / 7))) (F64.fin (1 / 2)) = true ∧
        F64.fin (-45) = F64.nan) →
      ¬ ((((localLow sevenFrame.close (7 - 3) ∧ 4 < 7) ∨ localHigh sevenFrame.close (7 - 3)) ∧
          F64.fin (roundF64 (1 / 7)) = F64.nan) ∨
        (localHigh sevenFrame.close (7 - 3) ∧
          F64.lt (F64.fin (1 / 2)) (F64.fin (roundF64 (1 / 7))) = true ∧
          F64.fin (-45) = F64.nan)) →
      (checkSignalToBuy anyAngle (flatWith sevenCandles) (7 : ℕ)).1 =
        .ok TradingPosition.empty)) :=
  ⟨by decide!, rfl, rfl, rfl, by norm_num, by norm_num, by decide!, by decide!, by decide!,
    signal_rule anyAngle (flatWith sevenCandles) sevenCandles 7 sevenFrame
      (F64.fin (roundF64 (1 / 7))) (F64.fin (-45)) (by decide!) rfl rfl rfl (by norm_num)
      (by norm_num) (by decide!) (by decide!) (by decide!)⟩

/-! ## Local extrema -/

/-- C19: for every close series of length `N` and every index `i` with
`0 < i < N - 1`, `isLocalMaximumIdx` returns `i` when `close[i] ≥ close[i+1]`,
`close[i] ≥ close[i-1]` and `close[i-1] > close[i+1]`, and 0 otherwise;
`isLocalMinimumIdx` returns `i - 1` when `close[i] ≤ close[i+1]`,
`close[i] ≤ close[i-1]` and `close[i-1] < close[i+1]`, and 0 otherwise. -/
theorem local_extremum_index (c : List ℚ) (i : ℕ) (h1 : 0 < i) (h2 : i + 1 < c.length) :
    isLocalMaximumIdx c (i : ℤ) =
      .ok (if c.getD i 0 ≥ c.getD (i + 1) 0 ∧ c.getD i 0 ≥ c.getD (i - 1) 0 ∧
            c.getD (i - 1) 0 > c.getD (i + 1) 0 then (i : ℤ) else 0) ∧
    isLocalMinimumIdx c (i : ℤ) =
      .ok (if c.getD i 0 ≤ c.getD (i + 1) 0 ∧ c.getD i 0 ≤ c.getD (i - 1) 0 ∧
            c.getD (i - 1) 0 < c.getD (i + 1) 0 then (i : ℤ) - 1 else 0) := by
  refine ⟨?_, ?_⟩
  · rw [isLocalMaximumIdx_at c i h1 h2]
    simp only [localHigh]
  · rw [isLocalMinimumIdx_at c i h1 h2]
    simp only [localLow]

/-- C19 at the closes `3, 1, 2` and index 1: a local low, reported at index 0. -/
theorem local_extremum_index_witness :
    0 < 1 ∧ 1 + 1 < ([3, 1, 2] : List ℚ).length ∧
    (isLocalMaximumIdx [3, 1, 2] ((1 : ℕ) : ℤ) =
      .ok (if ([3, 1, 2] : List ℚ).getD 1 0 ≥ ([3, 1, 2] : List ℚ).getD (1 + 1) 0 ∧
            ([3, 1, 2] : List ℚ).getD 1 0 ≥ ([3, 1, 2] : List ℚ).getD (1 - 1) 0 ∧
            ([3, 1, 2] : List ℚ).getD (1 - 1) 0 > ([3, 1, 2] : List ℚ).getD (1 + 1) 0
          then ((1 : ℕ) : ℤ) else 0) ∧
    isLocalMinimumIdx [3, 1, 2] ((1 : ℕ) : ℤ) =
      .ok (if ([3, 1, 2] : List ℚ).getD 1 0 ≤ ([3, 1, 2] : List ℚ).getD (1 + 1) 0 ∧
            ([3, 1, 2] : List ℚ).getD 1 0 ≤ ([3, 1, 2] : List ℚ).getD (1 - 1) 0 ∧
            ([3, 1, 2] : List ℚ).getD (1 - 1) 0 < ([3, 1, 2] : List ℚ).getD (1 + 1) 0
          then ((1 : ℕ) : ℤ) - 1 else 0)) :=
  ⟨by norm_num, by simp, local_extremum_index [3, 1, 2] 1 (by norm_num) (by simp)⟩

theorem isLocalMinimumIdx_nonzero (c : List ℚ) (idx m : ℤ)
    (h : isLocalMinimumIdx c idx = .ok m) (hm : m ≠ 0) :
    ∃ a b p, Value c idx = .ok a ∧ Value c (idx + 1) = .ok b ∧ Value c (idx - 1) = .ok p ∧
      a ≤ b ∧ a ≤ p ∧ p < b := by
  unfold isLocalMinimumIdx at h
  cases hA : Value c idx with
  | error f => simp [hA, bind, Except.bind] at h
  | ok a =>
    cases hB : Value c (idx + 1) with
    | error f => simp [hA, hB, bind, Except.bind] at h
    | ok b =>
      simp only [hA, hB, bind, Except.bind, pure, Except.pure] at h
      by_cases h1 : a ≤ b
      · simp only [h1, if_true] at h
        cases hP : Value c (idx - 1) with
        | error f => simp [hP] at h
        | ok p =>
          simp only [hP] at h
          by_cases h2 : a ≤ p
          · by_cases h3 : p < b
            · exact ⟨a, b, p, rfl, rfl, rfl, h1, h2, h3⟩
            · simp [h2, h3] at h; exact absurd h.symm hm
          · simp [h2] at h; exact absurd h.symm hm
      · simp [h1] at h; exact absurd h.symm hm

theorem isLocalMaximumIdx_nonzero (c : List ℚ) (idx m : ℤ)
    (h : isLocalMaximumIdx c idx = .ok m) (hm : m ≠ 0) :
    ∃ a b p, Value c idx = .ok a ∧ Value c (idx + 1) = .ok b ∧ Value c (idx - 1) = .ok p ∧
      a ≥ b ∧ a ≥ p ∧ p > b := by
  unfold isLocalMaximumIdx at h
  cases hA : Value c idx with
  | error f => simp [hA, bind, Except.bind] at h
  | ok a =>
    cases hB : Value c (idx + 1) with
    | error f => simp [hA, hB, bind, Except.bind] at h
    | ok b =>
      simp only [hA, hB, bind, Except.bind, pure, Except.pure] at h
      by_cases h1 : a ≥ b
      · simp only [h1, if_true] at h
        cases hP : Value c (idx - 1) with
        | error f => simp [hP] at h
        | ok p =>
          simp only [hP] at h
          by_cases h2 : a ≥ p
          · by_cases h3 : p > b
            · exact ⟨a, b, p, rfl, rfl, rfl, h1, h2, h3⟩
            · simp [h2, h3] at h; exact absurd h.symm hm
          · simp [h2] at h; exact absurd h.symm hm
      · simp [h1] at h; exact absurd h.symm hm

theorem not_both_extrema (c : List ℚ) (idx m1 m2 : ℤ)
    (h1 : isLocalMaximumIdx c idx = .ok m1) (h2 : isLocalMinimumIdx c idx = .ok m2) :
    m1 = 0 ∨ m2 = 0 := by
  by_contra hne
  push_neg at hne
  obtain ⟨a, b, p, hA, hB, hP, -, -, hpb⟩ := isLocalMaximumIdx_nonzero c idx m1 h1 hne.1
  obtain ⟨a2, b2, p2, hA2, hB2, hP2, -, -, hpb2⟩ := isLocalMinimumIdx_nonzero c idx m2 h2 hne.2
  rw [hB] at hB2; rw [hP] at hP2
  cases hB2; cases hP2
  exact absurd hpb (not_lt.mpr hpb2.le)

theorem Value_fault (s : List ℚ) (i : ℤ) (f : Fault) (h : Value s i = .error f) :
    f = .panic := by
  unfold Value at h
  split at h
  · cases h; rfl
  · split at h
    · cases h
    · cases h; rfl

theorem isLocalMinimumIdx_fault (c : List ℚ) (idx : ℤ) (f : Fault)
    (h : isLocalMinimumIdx c idx = .error f) : f = .panic := by
  unfold isLocalMinimumIdx at h
  cases hA : Value c idx with
  | error g => simp [hA, bind, Except.bind] at h; exact h ▸ Value_fault _ _ _ hA
  | ok a =>
    cases hB : Value c (idx + 1) with
    | error g => simp [hA, hB, bind, Except.bind] at h; exact h ▸ Value_fault _ _ _ hB
    | ok b =>
      cases hP : Value c (idx - 1) with
      | error g =>
        simp only [hA, hB, hP, bind, Except.bind, pure, Except.pure] at h
        split_ifs at h
        · cases h; exact Value_fault _ _ _ hP
      | ok p =>
        simp only [hA, hB, hP, bind, Except.bind, pure, Except.pure] at h
        split_ifs at h

theorem isLocalMaximumIdx_fault (c : List ℚ) (idx : ℤ) (f : Fault)
    (h : isLocalMaximumIdx c idx = .error f) : f = .panic := by
  unfold isLocalMaximumIdx at h
  cases hA : Value c idx with
  | error g => simp [hA, bind, Except.bind] at h; exact h ▸ Value_fault _ _ _ hA
  | ok a =>
    cases hB : Value c (idx + 1) with
    | error g => simp [hA, hB, bind, Except.bind] at h; exact h ▸ Value_fault _ _ _ hB
    | ok b =>
      cases hP : Value c (idx - 1) with
      | error g =>
        simp only [hA, hB, hP, bind, Except.bind, pure, Except.pure] at h
        split_ifs at h
        · cases h; exact Value_fault _ _ _ hP
      | ok p =>
        simp only [hA, hB, hP, bind, Except.bind, pure, Except.pure] at h
        split_ifs at h

theorem isLocalMinimumIdx_of_values (c : List ℚ) (idx : ℤ) (a b p : ℚ)
    (hA : Value c idx = .ok a) (hB : Value c (idx + 1) = .ok b)
    (hP : Value c (idx - 1) = .ok p) : ∃ m, isLocalMinimumIdx c idx = .ok m := by
  unfold isLocalMinimumIdx
  simp only [hA, hB, hP, bind, Except.bind, pure, Except.pure]
  split_ifs <;> exact ⟨_, rfl⟩

theorem isLocalMaximumIdx_of_values (c : List ℚ) (idx : ℤ) (a b p : ℚ)
    (hA : Value c idx = .ok a) (hB : Value c (idx + 1) = .ok b)
    (hP : Value c (idx - 1) = .ok p) : ∃ m, isLocalMaximumIdx c idx = .ok m := by
  unfold isLocalMaximumIdx
  simp only [hA, hB, hP, bind, Except.bind, pure, Except.pure]
  split_ifs <;> exact ⟨_, rfl⟩

theorem longBlockFrom_empty (df : Frame) (lc : ℤ) :
    longBlockFrom df lc .empty = longBlock df lc := rfl

theorem longBlockFrom_skip (df : Frame) (lc m : ℤ) (sig : TradingPosition)
    (h : isLocalMinimumIdx df.close (lc - 1) = .ok m) (hm : ¬ m > 0) :
    longBlockFrom df lc sig = .ok sig := by
  unfold longBlockFrom
  simp [h, hm, bind, Except.bind, pure, Except.pure]

theorem longBlockFrom_fault (df : Frame) (lc : ℤ) (f : Fault) (sig : TradingPosition)
    (h : isLocalMinimumIdx df.close (lc - 1) = .error f) :
    longBlockFrom df lc sig = .error f := by
  unfold longBlockFrom
  simp [h, bind, Except.bind]

theorem shortBlock_skip (df : Frame) (lc m : ℤ) (sig : TradingPosition)
    (h : isLocalMaximumIdx df.close (lc - 1) = .ok m) (hm : ¬ m > 0) :
    shortBlock df lc sig = .ok sig := by
  unfold shortBlock
  simp [h, hm, bind, Except.bind, pure, Except.pure]

theorem shortBlock_fault (df : Frame) (lc : ℤ) (f : Fault) (sig : TradingPosition)
    (h : isLocalMaximumIdx df.close (lc - 1) = .error f) :
    shortBlock df lc sig = .error f := by
  unfold shortBlock
  simp [h, bind, Except.bind]

theorem bind_ok_self {α : Type} (r : Except Fault α) :
    (r >>= fun a => Except.ok a) = r := by
  cases r <;> rfl

theorem checks_commute (df : Frame) (lc : ℤ) :
    checksInOtherOrder df lc = checksInOrder df lc := by
  unfold checksInOtherOrder checksInOrder
  cases hmin : isLocalMinimumIdx df.close (lc - 1) with
  | error f =>
    have hf := isLocalMinimumIdx_fault _ _ _ hmin
    subst hf
    rw [← longBlockFrom_empty, longBlockFrom_fault df lc _ _ hmin]
    cases hmax : isLocalMaximumIdx df.close (lc - 1) with
    | error g =>
      have hg := isLocalMaximumIdx_fault _ _ _ hmax
      subst hg
      rw [shortBlock_fault df lc _ _ hmax]
      rfl
    | ok m1 =>
      have hm1 : ¬ m1 > 0 := by
        intro hpos
        obtain ⟨a, b, p, hA, hB, hP, -⟩ :=
          isLocalMaximumIdx_nonzero _ _ _ hmax (by omega)
        obtain ⟨m, hm⟩ := isLocalMinimumIdx_of_values _ _ a b p hA hB hP
        rw [hm] at hmin
        cases hmin
      rw [shortBlock_skip df lc m1 _ hmax hm1]
      simp only [bind, Except.bind]
      rw [longBlockFrom_fault df lc _ _ hmin]
  | ok m2 =>
    by_cases hm2 : m2 > 0
    · have hmax : isLocalMaximumIdx df.close (lc - 1) = .ok 0 := by
        obtain ⟨a, b, p, hA, hB, hP, -⟩ :=
          isLocalMinimumIdx_nonzero _ _ _ hmin (by omega)
        obtain ⟨m, hm⟩ := isLocalMaximumIdx_of_values _ _ a b p hA hB hP
        rcases not_both_extrema _ _ _ _ hm hmin with h | h
        · rw [hm, h]
        · omega
      have hskip : ∀ sig, shortBlock df lc sig = .ok sig :=
        fun sig => shortBlock_skip df lc 0 sig hmax (by norm_num)
      rw [hskip]
      simp only [hskip]
      rw [bind_ok_self]
      simp only [bind, Except.bind]
      exact longBlockFrom_empty df lc
    · have hskip : ∀ sig, longBlockFrom df lc sig = .ok sig :=
        fun sig => longBlockFrom_skip df lc m2 sig hmin hm2
      rw [← longBlockFrom_empty, hskip]
      simp only [hskip]
      rw [bind_ok_self]
      rfl

theorem short_keeps_long (df : Frame) (lc : ℤ)
    (h : longBlock df lc = .ok TradingPosition.LONG) :
    shortBlock df lc TradingPosition.LONG = .ok TradingPosition.LONG := by
  cases hmin : isLocalMinimumIdx df.close (lc - 1) with
  | error f =>
    rw [← longBlockFrom_empty, longBlockFrom_fault df lc _ _ hmin] at h
    cases h
  | ok m2 =>
    by_cases hm2 : m2 > 0
    · obtain ⟨a, b, p, hA, hB, hP, -⟩ := isLocalMinimumIdx_nonzero _ _ _ hmin (by omega)
      obtain ⟨m, hm⟩ := isLocalMaximumIdx_of_values _ _ a b p hA hB hP
      rcases not_both_extrema _ _ _ _ hm hmin with h0 | h0
      · exact shortBlock_skip df lc m _ hm (by omega)
      · omega
    · rw [← longBlockFrom_empty, longBlockFrom_skip df lc m2 _ hmin hm2] at h
      cases h

/-- C20: for every close series and index, `isLocalMaximumIdx` and
`isLocalMinimumIdx` are never both non-zero; so, in `checkSignalToBuy`, the
local-maximum block leaves a LONG decision as it is, and running the two
blocks in the other order gives the same result on every frame. -/
theorem extrema_are_exclusive (c : List ℚ) (idx : ℤ) (df : Frame) (lastCandle : ℤ) :
    (∀ m1 m2, isLocalMaximumIdx c idx = .ok m1 → isLocalMinimumIdx c idx = .ok m2 →
      m1 = 0 ∨ m2 = 0) ∧
    (longBlock df lastCandle = .ok TradingPosition.LONG →
      shortBlock df lastCandle TradingPosition.LONG = .ok TradingPosition.LONG) ∧
    checksInOtherOrder df lastCandle = checksInOrder df lastCandle ∧
    (∀ atanDeg limit ohlc, signalOnFrame atanDeg limit ohlc =
      PrepareDataFrame atanDeg ohlc >>= fun fr =>
        saveChartAsSVG fr 1 (roundF64 (limit : ℚ)) >>= fun _ =>
          checksInOrder fr (wrapInt64 (limit - 2))) :=
  ⟨fun m1 m2 h1 h2 => not_both_extrema c idx m1 m2 h1 h2, short_keeps_long df lastCandle,
    checks_commute df lastCandle, fun _ _ _ => rfl⟩

/-! ## The guard on the window size -/

theorem ValueF_fault (s : List F64) (i : ℤ) (f : Fault) (h : ValueF s i = .error f) :
    f = .panic := by
  unfold ValueF at h
  split at h
  · cases h; rfl
  · split at h
    · cases h
    · cases h; rfl

theorem ValueFloat_fault (s : List F64) (i : ℤ) (f : Fault) (h : ValueFloat s i = .error f) :
    f = .panic := by
  unfold ValueFloat at h
  split at h
  · cases h
  · cases h; rfl
  · rename_i g hg
    cases h
    exact ValueF_fault s i _ hg

theorem longBlock_fault (df : Frame) (lc : ℤ) (f : Fault) (h : longBlock df lc = .error f) :
    f = .panic ∨ f = .error .slopeInvalid := by
  unfold longBlock at h
  cases hmin : isLocalMinimumIdx df.close (lc - 1) with
  | error g =>
    simp [hmin, bind, Except.bind] at h
    exact Or.inl (h ▸ isLocalMinimumIdx_fault _ _ _ hmin)
  | ok m =>
    simp only [hmin, bind, Except.bind, pure, Except.pure] at h
    split_ifs at h
    cases hp : ValueFloat df.pos_in_chan (lc - 1) with
    | error g =>
      simp [hp] at h
      exact Or.inl (h ▸ ValueFloat_fault _ _ _ hp)
    | ok p =>
      simp only [hp] at h
      split_ifs at h
      cases hs : ValueF df.slope (lc - 1) with
      | error g =>
        simp [hs] at h
        exact Or.inl (h ▸ ValueF_fault _ _ _ hs)
      | ok v =>
        cases v with
        | none =>
          simp [hs, throw, throwThe, MonadExceptOf.throw] at h
          exact Or.inr h.symm
        | some slope =>
          simp only [hs] at h
          split_ifs at h

theorem shortBlock_fault_kind (df : Frame) (lc : ℤ) (sig : TradingPosition) (f : Fault)
    (h : shortBlock df lc sig = .error f) : f = .panic := by
  unfold shortBlock at h
  cases hmax : isLocalMaximumIdx df.close (lc - 1) with
  | error g =>
    simp [hmax, bind, Except.bind] at h
    exact h ▸ isLocalMaximumIdx_fault _ _ _ hmax
  | ok m =>
    simp only [hmax, bind, Except.bind, pure, Except.pure] at h
    split_ifs at h
    cases hp : ValueFloat df.pos_in_chan (lc - 1) with
    | error g =>
      simp [hp] at h
      exact h ▸ ValueFloat_fault _ _ _ hp
    | ok p =>
      simp only [hp] at h
      split_ifs at h
      cases hs : ValueFloat df.slope (lc - 1) with
      | error g =>
        simp [hs] at h
        exact h ▸ ValueFloat_fault _ _ _ hs
      | ok v =>
        simp only [hs] at h
        split_ifs at h

theorem saveChartAsSVG_fault (df : Frame) (min max : ℚ) (f : Fault)
    (h : saveChartAsSVG df min max = .error f) : f = .panic := by
  unfold saveChartAsSVG at h
  simp only at h
  split_ifs at h <;> cases h <;> rfl

theorem signalOnFrame_fault (atanDeg : F64 → F64) (limit : ℤ) (w : List Kline) (f : Fault)
    (h : signalOnFrame atanDeg limit w = .error f) :
    f = .panic ∨ f = .error .slopeInvalid := by
  obtain ⟨df, hdf⟩ := PrepareDataFrame_total atanDeg w
  unfold signalOnFrame at h
  simp only [hdf, bind, Except.bind] at h
  cases hch : saveChartAsSVG df 1 (roundF64 (limit : ℚ)) with
  | error g =>
    simp only [hch] at h
    cases h
    exact Or.inl (saveChartAsSVG_fault df _ _ _ hch)
  | ok u =>
    simp only [hch] at h
    cases hl : longBlock df (wrapInt64 (limit - 2)) with
    | error g =>
      simp only [hl] at h
      cases h
      exact longBlock_fault df _ _ hl
    | ok sig =>
      simp only [hl] at h
      exact Or.inl (shortBlock_fault_kind df _ sig f h)

theorem checkSignalToBuy_past_guard (atanDeg : F64 → F64) (gw : Gateway) (limit : ℤ)
    (h : 0 < wrapInt64 (limit - 2)) :
    (checkSignalToBuy atanDeg gw limit).2 = (binanceKlinesFuturesDataframe gw).2 ∧
    (checkSignalToBuy atanDeg gw limit).1 ≠ .error (.error .limitTooSmall) := by
  have h2 : ¬ wrapInt64 (limit - 2) ≤ 0 := by omega
  unfold checkSignalToBuy binanceKlinesFuturesDataframe
  simp only [h2, if_false]
  cases gw.klines with
  | none => simp
  | some ks =>
    cases gw.csvOk with
    | false => simp
    | true =>
      simp only [if_true]
      refine ⟨trivial, ?_⟩
      intro hc
      rcases signalOnFrame_fault atanDeg limit _ _ hc with h3 | h3 <;> cases h3

/-- C13, as the code has it: `limit` being a Go `int` (64 bits), for every
`limit ≤ 2` other than the two least values `checkSignalToBuy` returns the
error "limit must be greater than 2" and makes no call (no candle is fetched),
and for every `limit > 2` it does not return that error; at the two least
values, `-2^63` and `-2^63 + 1`, the difference `limit - 2` wraps around to a
positive number, the guard does not fire, the candles are requested and the
error is not returned. -/
theorem limit_guard (atanDeg : F64 → F64) (gw : Gateway) (limit : ℤ) :
    (-2 ^ 63 + 2 ≤ limit → limit ≤ 2 →
      checkSignalToBuy atanDeg gw limit = (.error (.error .limitTooSmall), [])) ∧
    (2 < limit → limit < 2 ^ 63 →
      (checkSignalToBuy atanDeg gw limit).1 ≠ .error (.error .limitTooSmall)) ∧
    (limit = -2 ^ 63 ∨ limit = -2 ^ 63 + 1 →
      (checkSignalToBuy atanDeg gw limit).2 = (binanceKlinesFuturesDataframe gw).2 ∧
      (checkSignalToBuy atanDeg gw limit).1 ≠ .error (.error .limitTooSmall)) := by
  refine ⟨?_, ?_, ?_⟩
  · intro h0 h
    have h2 : wrapInt64 (limit - 2) ≤ 0 := by
      rw [wrapInt64_of_range _ (by omega) (by omega)]
      omega
    simp [checkSignalToBuy, h2]
  · intro h h1
    refine (checkSignalToBuy_past_guard atanDeg gw limit ?_).2
    rw [wrapInt64_of_range _ (by omega) (by omega)]
    omega
  · intro h
    refine checkSignalToBuy_past_guard atanDeg gw limit ?_
    rcases h with h | h <;> subst h <;> decide

/-! ## Resets of the ladder, entries and partial closes -/

theorem goCopy_same_length {α : Type} (dst src : List α) (h : dst.length = src.length) :
    goCopy dst src = src := by
  simp [goCopy, h]

/-- C15: from every state in which the working ladder has the length of the
configured ladder (as it has in every reachable state), after a tick in which
the stop-loss order is accepted, and after a tick that finds no open position
and evaluates the entry signal, the ladder (the local one and the one of the
caller) is the configured ladder. -/
theorem ladder_is_reset (atanDeg : F64 → F64) (gw : Gateway) (src cp : List Tier)
    (cfg : Config) (row : AccountRow) (hrow : gw.account = some row)
    (hlen : cp.length = src.length) :
    (row.positionAmt ≠ 0 →
      stopHit cfg (if 0 < row.positionAmt then .LONG else .SHORT) row.entryPrice
        ((gw.price 0).getD 0) = true →
      gw.orderOk 0 = true →
      (Trade atanDeg gw src cp cfg).cpProfitArr = src ∧
        (Trade atanDeg gw src cp cfg).cpProfits = src) ∧
    (row.positionAmt = 0 →
      ∀ b c1 sig c2, binanceCheckAndCloseOrders gw = (.ok b, c1) →
        checkSignalToBuy atanDeg gw 100 = (.ok sig, c2) →
        (Trade atanDeg gw src cp cfg).cpProfitArr = src ∧
          (Trade atanDeg gw src cp cfg).cpProfits = src) := by
  have hcopy := goCopy_same_length cp src hlen
  constructor
  · intro hheld hstop hok
    rcases lt_or_gt_of_ne hheld with hneg | hposv
    · rw [Trade_short atanDeg gw src cp cfg row hrow hneg]
      rw [if_neg (not_lt.mpr hneg.le)] at hstop
      obtain ⟨calls, h⟩ := binanceClosePosition_accepted gw 1 0 .SHORT |row.positionAmt|
        (by decide) hok
      unfold tradeHeld
      simp only [binanceCryptoPairPrice_fst, hstop, if_true, h, hcopy, and_self]
    · rw [Trade_long atanDeg gw src cp cfg row hrow hposv]
      rw [if_pos hposv] at hstop
      obtain ⟨calls, h⟩ := binanceClosePosition_accepted gw 1 0 .LONG |row.positionAmt|
        (by decide) hok
      unfold tradeHeld
      simp only [binanceCryptoPairPrice_fst, hstop, if_true, h, hcopy, and_self]
  · intro hflat b c1 sig c2 h1 h2
    rw [Trade_flat atanDeg gw src cp cfg row hrow hflat]
    unfold tradeFlat
    simp only [h1, h2]
    cases sig <;> simp [hcopy]

/-- C15 at the two-tier ladder, a long position entered at 100, `StopPercent`
0.05 and the price 94. -/
theorem ladder_is_reset_witness :
    (heldAt 1 100 94).account = some ⟨1, 100⟩ ∧
    twoTiers.length = twoTiers.length ∧
    (((1 : ℚ) ≠ 0 →
      stopHit ⟨1, 1 / 20⟩ (if (0 : ℚ) < 1 then .LONG else .SHORT) 100
        (((heldAt 1 100 94).price 0).getD 0) = true →
      (heldAt 1 100 94).orderOk 0 = true →
      (Trade anyAngle (heldAt 1 100 94) twoTiers twoTiers ⟨1, 1 / 20⟩).cpProfitArr =
          twoTiers ∧
        (Trade anyAngle (heldAt 1 100 94) twoTiers twoTiers ⟨1, 1 / 20⟩).cpProfits =
          twoTiers) ∧
    ((1 : ℚ) = 0 →
      ∀ b c1 sig c2, binanceCheckAndCloseOrders (heldAt 1 100 94) = (.ok b, c1) →
        checkSignalToBuy anyAngle (heldAt 1 100 94) 100 = (.ok sig, c2) →
        (Trade anyAngle (heldAt 1 100 94) twoTiers twoTiers ⟨1, 1 / 20⟩).cpProfitArr =
            twoTiers ∧
          (Trade anyAngle (heldAt 1 100 94) twoTiers twoTiers ⟨1, 1 / 20⟩).cpProfits =
            twoTiers)) :=
  ⟨rfl, rfl, ladder_is_reset anyAngle (heldAt 1 100 94) twoTiers twoTiers ⟨1, 1 / 20⟩
    ⟨1, 100⟩ rfl rfl⟩

theorem orders_eq_ordersIn (r : TradeResult) : r.orders = ordersIn r.calls := rfl

theorem ordersIn_append (a b : List (Site × Call)) :
    ordersIn (a ++ b) = ordersIn a ++ ordersIn b := by
  simp [ordersIn, List.filterMap_append]

theorem ordersIn_close (s : Site) (b : Bool) (o : Order) (ok : Bool) :
    ordersIn (tag s [Call.listPrices b, Call.order o ok]) = [(s, o)] := by
  simp [ordersIn, tag]

theorem profitLoop_order_sites (gw : Gateway) (cfg : Config) (position : TradingPosition)
    (entryPrice currentPrice : ℚ) (hok : ∀ j, gw.orderOk j = true) (rest : List Tier) :
    ∀ (i k : ℕ) (cp : List Tier),
      rest.countP (tierHit position entryPrice currentPrice) ≤ cp.length →
      (ordersIn (profitLoop gw cfg position entryPrice currentPrice rest i k cp).calls).map
          Prod.fst =
        ((rest.enumFrom i).filter fun x => tierHit position entryPrice currentPrice x.2).map
          fun x => Site.takeProfit x.1 := by
  induction rest with
  | nil => intro i k cp _; simp [profitLoop, ordersIn]
  | cons t rest ih =>
    intro i k cp hlen
    by_cases hit : tierHit position entryPrice currentPrice t = true
    · obtain ⟨o, h, -, -⟩ := binanceClosePosition_calls gw (k + 1) k position
        (tierQuantity cfg t) (tierHit_ne_empty _ _ _ _ hit)
      rw [List.countP_cons_of_pos _ _ hit] at hlen
      cases cp with
      | nil => simp at hlen
      | cons hd tail =>
        simp only [List.length_cons, Nat.add_le_add_iff_right] at hlen
        simp only [profitLoop, hit, h, hok k, if_true, ordersIn_append, ordersIn_close,
          List.map_append, List.map_cons, List.map_nil, List.enumFrom_cons, List.filter_cons,
          List.singleton_append, List.cons.injEq, true_and]
        exact ih (i + 1) (k + 1) tail hlen
    · rw [List.countP_cons_of_neg _ _ hit] at hlen
      simp only [profitLoop, hit, List.enumFrom_cons, List.filter_cons]
      exact ih (i + 1) k cp hlen

theorem tradeHeld_order_sites (gw : Gateway) (src cp : List Tier) (cfg : Config)
    (pos : OpenedPosition) (position : TradingPosition)
    (hok : ∀ j, gw.orderOk j = true)
    (hs : stopHit cfg position pos.EntryPrice ((gw.price 0).getD 0) = false) :
    (tradeHeld gw src cp cfg pos position [(Site.positions, Call.account true)]).orders.map
        Prod.fst =
      (cp.enum.filter fun x =>
          tierHit position pos.EntryPrice ((gw.price 0).getD 0) x.2).map
        fun x => Site.takeProfit x.1 := by
  rw [orders_eq_ordersIn]
  unfold tradeHeld
  simp only [binanceCryptoPairPrice_fst, hs, Bool.false_eq_true, if_false, ordersIn_append]
  have h0 : ordersIn ([(Site.positions, Call.account true)] ++
      [(Site.currentPrice, (binanceCryptoPairPrice gw 0).2)]) = [] := by
    unfold binanceCryptoPairPrice
    cases gw.price 0 <;> simp [ordersIn]
  rw [← ordersIn_append, h0, List.nil_append]
  exact profitLoop_order_sites gw cfg position _ _ hok cp 0 0 cp (List.countP_le_length _)

/-- The threshold of a tier is a `float64` sum: for a long position entered at
2.01 and the tier of delta 20 it is the `float64` 22.009999999999998, below
the `float64` that the price 22.01 parses to, so that the tier triggers at the
price 22.01, although `2.01 + 20 = 22.01` in exact arithmetic. -/
theorem tier_threshold_is_rounded :
    roundF64 (roundF64 (201 / 100) + roundF64 ((20 : ℤ) : ℚ)) < roundF64 (2201 / 100) ∧
    tierHit .LONG (201 / 100) (2201 / 100) ⟨20, 1⟩ = true ∧
    (2201 / 100 : ℚ) = 201 / 100 + 20 := by
  decide!

/-- C16: on a held position, when the stop-loss does not fire and the
exchange accepts every order, the orders of the tick are the partial closes of
the tiers of the ladder snapshot that satisfy `currentPrice > entryPrice + delta`
(long) or `currentPrice < entryPrice - delta` (short), one for each such tier,
in ladder order, and no other order; a tier with
`currentPrice = entryPrice + delta` (long) or `currentPrice = entryPrice - delta`
(short) gets no order.  The prices are the `float64` values that the program
holds, `delta` is converted to `float64`, and the sum and the difference are
computed as the program computes them, in `float64`. -/
theorem partial_closes_follow_ladder (atanDeg : F64 → F64) (gw : Gateway)
    (src cp : List Tier) (cfg : Config) (row : AccountRow)
    (hrow : gw.account = some row) (hheld : row.positionAmt ≠ 0)
    (hok : ∀ j, gw.orderOk j = true)
    (hstop : stopHit cfg (if 0 < row.positionAmt then .LONG else .SHORT) row.entryPrice
      ((gw.price 0).getD 0) = false) :
    ((Trade atanDeg gw src cp cfg).orders.map Prod.fst =
      (cp.enum.filter fun x =>
          if 0 < row.positionAmt then
            roundF64 ((gw.price 0).getD 0) >
              roundF64 (roundF64 row.entryPrice + roundF64 (x.2.delta : ℚ))
          else
            roundF64 ((gw.price 0).getD 0) <
              roundF64 (roundF64 row.entryPrice - roundF64 (x.2.delta : ℚ))).map
        fun x => Site.takeProfit x.1) ∧
    (∀ i t o, cp[i]? = some t →
      (if 0 < row.positionAmt then
          roundF64 ((gw.price 0).getD 0) =
            roundF64 (roundF64 row.entryPrice + roundF64 (t.delta : ℚ))
        else
          roundF64 ((gw.price 0).getD 0) =
            roundF64 (roundF64 row.entryPrice - roundF64 (t.delta : ℚ))) →
      (Site.takeProfit i, o) ∉ (Trade atanDeg gw src cp cfg).orders) := by
  rcases lt_or_gt_of_ne hheld with hneg | hposv
  · have hn : ¬ 0 < row.positionAmt := not_lt.mpr hneg.le
    rw [Trade_short atanDeg gw src cp cfg row hrow hneg]
    simp only [hn, if_false] at hstop ⊢
    constructor
    · rw [tradeHeld_order_sites gw src cp cfg ⟨.SHORT, row.positionAmt, row.entryPrice⟩
        .SHORT hok hstop]
      simp only [tierHit]
    · intro i t o hi heq hmem
      obtain ⟨t2, ht2, hhit, -⟩ := tradeHeld_quantity gw src cp cfg
        ⟨.SHORT, row.positionAmt, row.entryPrice⟩ .SHORT i o hmem
      rw [hi] at ht2
      cases ht2
      simp only [tierHit, decide_eq_true_eq] at hhit
      exact absurd heq (ne_of_lt hhit)
  · rw [Trade_long atanDeg gw src cp cfg row hrow hposv]
    simp only [hposv, if_true] at hstop ⊢
    constructor
    · rw [tradeHeld_order_sites gw src cp cfg ⟨.LONG, row.positionAmt, row.entryPrice⟩
        .LONG hok hstop]
      simp only [tierHit]
    · intro i t o hi heq hmem
      obtain ⟨t2, ht2, hhit, -⟩ := tradeHeld_quantity gw src cp cfg
        ⟨.LONG, row.positionAmt, row.entryPrice⟩ .LONG i o hmem
      rw [hi] at ht2
      cases ht2
      simp only [tierHit, decide_eq_true_eq] at hhit
      exact absurd heq (ne_of_gt hhit)

/-- C16 at the two-tier ladder, a long position entered at 2.01 and the price
22.01 (the input of `tier_threshold_is_rounded`): the tier of delta 20 gets
its order, the tier of delta 40 gets none. -/
theorem partial_closes_follow_ladder_witness :
    (heldAt 1 (201 / 100) (2201 / 100)).account = some ⟨1, 201 / 100⟩ ∧ (1 : ℚ) ≠ 0 ∧
    (∀ j, (heldAt 1 (201 / 100) (2201 / 100)).orderOk j = true) ∧
    stopHit ⟨1, 1 / 20⟩ (if (0 : ℚ) < 1 then .LONG else .SHORT) (201 / 100)
      (((heldAt 1 (201 / 100) (2201 / 100)).price 0).getD 0) = false ∧
    (Trade anyAngle (heldAt 1 (201 / 100) (2201 / 100)) twoTiers twoTiers
        ⟨1, 1 / 20⟩).orders.map Prod.fst = [Site.takeProfit 0] ∧
    (((Trade anyAngle (heldAt 1 (201 / 100) (2201 / 100)) twoTiers twoTiers
        ⟨1, 1 / 20⟩).orders.map Prod.fst =
      (twoTiers.enum.filter fun x =>
          if (0 : ℚ) < 1 then
            roundF64 (((heldAt 1 (201 / 100) (2201 / 100)).price 0).getD 0) >
              roundF64 (roundF64 (201 / 100) + roundF64 (x.2.delta : ℚ))
          else
            roundF64 (((heldAt 1 (201 / 100) (2201 / 100)).price 0).getD 0) <
              roundF64 (roundF64 (201 / 100) - roundF64 (x.2.delta : ℚ))).map
        fun x => Site.takeProfit x.1) ∧
    (∀ i t o, twoTiers[i]? = some t →
      (if (0 : ℚ) < 1 then
          roundF64 (((heldAt 1 (201 / 100) (2201 / 100)).price 0).getD 0) =
            roundF64 (roundF64 (201 / 100) + roundF64 (t.delta : ℚ))
        else
          roundF64 (((heldAt 1 (201 / 100) (2201 / 100)).price 0).getD 0) =
            roundF64 (roundF64 (201 / 100) - roundF64 (t.delta : ℚ))) →
      (Site.takeProfit i, o) ∉
        (Trade anyAngle (heldAt 1 (201 / 100) (2201 / 100)) twoTiers twoTiers
          ⟨1, 1 / 20⟩).orders)) :=
  ⟨rfl, by norm_num, fun _ => rfl, by decide!, by decide!,
    partial_closes_follow_ladder anyAngle (heldAt 1 (201 / 100) (2201 / 100)) twoTiers
      twoTiers ⟨1, 1 / 20⟩ ⟨1, 201 / 100⟩ rfl (by norm_num) (fun _ => rfl) (by decide!)⟩

theorem twoDecimals_spec (x : ℚ) :
    (∃ k : ℤ, twoDecimals x = (k : ℚ) / 100) ∧ |twoDecimals x - x| ≤ 1 / 200 := by
  have h1 : ((⌊x * 100⌋ : ℤ) : ℚ) ≤ x * 100 := Int.floor_le _
  have h2 : x * 100 < ((⌊x * 100⌋ : ℤ) : ℚ) + 1 := Int.lt_floor_add_one _
  unfold twoDecimals
  simp only
  split_ifs with ha hb hc
  · exact ⟨⟨⌊x * 100⌋, rfl⟩, by rw [abs_le]; constructor <;> linarith⟩
  · exact ⟨⟨⌊x * 100⌋ + 1, by push_cast; ring⟩, by rw [abs_le]; constructor <;> linarith⟩
  · exact ⟨⟨⌊x * 100⌋, rfl⟩, by rw [abs_le]; constructor <;> linarith⟩
  · exact ⟨⟨⌊x * 100⌋ + 1, by push_cast; ring⟩, by rw [abs_le]; constructor <;> linarith⟩

/-- The price of an order is printed from the `float64` product: at the mark
price 0.5 the product `0.5 * 1.01` is the `float64` 0.505000000000000004..,
which `%.2f` prints as 0.51, although the nearest multiple of 1/100 to
`0.5 * 1.01 = 0.505` with ties to even is 0.50; at the mark price 50000 the
price is 50500.00, and the quantity 0.01 is printed as 0.010000. -/
theorem order_price_is_printed_from_float :
    closePrice (1 / 2) (1 + 1 / 100) = 51 / 100 ∧
    twoDecimals (1 / 2 * (1 + 1 / 100)) = 50 / 100 ∧
    closePrice 50000 (1 + 1 / 100) = 50500 ∧ quantityText (1 / 100) = 1 / 100 := by
  decide!

/-- With fewer than 100 candles in the answer the tick ends in the chart
(`saveChartAsSVG`), which pairs 100 x values with the rows of the frame, and
no signal is returned. -/
theorem short_window_panics (atanDeg : F64 → F64) (gw : Gateway) (ks : List Kline)
    (hk : gw.klines = some ks) (hcsv : gw.csvOk = true) (hlen : ks.length < 100) :
    (checkSignalToBuy atanDeg gw 100).1 = .error .panic := by
  obtain ⟨df, hdf⟩ := PrepareDataFrame_total atanDeg (sortByDateDesc ks)
  obtain ⟨hc, -, -, -, -⟩ := PrepareDataFrame_lengths atanDeg _ df hdf
  rw [sortByDateDesc_length] at hc
  have hw : ¬ (wrapInt64 ((100 : ℤ) - 2) ≤ 0) := by decide
  have hx : (if (1 : ℚ) < roundF64 ((100 : ℤ) : ℚ) then ⌊roundF64 (roundF64 ((100 : ℤ) : ℚ) - 1)⌋
      else ⌊roundF64 (1 - roundF64 ((100 : ℤ) : ℚ))⌋) + 1 = 100 := by
    decide!
  have hshort : (df.chan_max.length : ℤ) < 100 ∨ (df.close.length : ℤ) < 100 ∨
      (df.chan_min.length : ℤ) < 100 := Or.inr (Or.inl (by omega))
  unfold checkSignalToBuy binanceKlinesFuturesDataframe
  simp only [hw, if_false, hk, hcsv, if_true, signalOnFrame, hdf, bind, Except.bind,
    saveChartAsSVG, hx, hshort]

/-- C14: in a tick that finds no open position and in which every call
succeeds, a LONG signal gives exactly one order, a buy of quantity
`MaxPositionAmount` at `markPrice * (1 + 0.01)`; a SHORT signal gives exactly
one order, a sell of quantity `MaxPositionAmount` at `markPrice * (1 - 0.01)`;
no signal gives no order.  The quantity and the price are the numbers that the
request carries: `MaxPositionAmount` as `%f` prints it (`quantityText`), and
the product, computed in `float64` from the parsed mark price and the constant
`1.01` or `0.99`, as `%.2f` prints it (`closePrice`), a multiple of 1/100. -/
theorem entry_order (atanDeg : F64 → F64) (gw : Gateway) (src cp : List Tier)
    (cfg : Config) (row : AccountRow) (n : ℕ) (markPrice : ℚ) (sig : TradingPosition)
    (c2 : List Call)
    (hrow : gw.account = some row) (hflat : row.positionAmt = 0)
    (hlist : gw.openOrders = some n) (hcancel : gw.cancelOk = true)
    (hsig : checkSignalToBuy atanDeg gw 100 = (.ok sig, c2))
    (hprice : gw.price 0 = some markPrice) (hord : gw.orderOk 0 = true) :
    (Trade atanDeg gw src cp cfg).outcome = .ok () ∧
    (Trade atanDeg gw src cp cfg).orders =
      (match sig with
        | .LONG => [(Site.entry,
            ⟨SideType.buy, quantityText cfg.MaxPositionAmount,
              twoDecimals (roundF64 (roundF64 markPrice * roundF64 (1 + 1 / 100)))⟩)]
        | .SHORT => [(Site.entry,
            ⟨SideType.sell, quantityText cfg.MaxPositionAmount,
              twoDecimals (roundF64 (roundF64 markPrice * roundF64 (1 - 1 / 100)))⟩)]
        | .empty => []) ∧
    (∀ x ∈ (Trade atanDeg gw src cp cfg).orders, ∃ k : ℤ, x.2.price = (k : ℚ) / 100) := by
  have horders : (Trade atanDeg gw src cp cfg).orders =
      (match sig with
        | .LONG => [(Site.entry,
            ⟨SideType.buy, quantityText cfg.MaxPositionAmount,
              twoDecimals (roundF64 (roundF64 markPrice * roundF64 (1 + 1 / 100)))⟩)]
        | .SHORT => [(Site.entry,
            ⟨SideType.sell, quantityText cfg.MaxPositionAmount,
              twoDecimals (roundF64 (roundF64 markPrice * roundF64 (1 - 1 / 100)))⟩)]
        | .empty => []) := by
    rw [Trade_flat atanDeg gw src cp cfg row hrow hflat, orders_eq_ordersIn]
    have hw : ¬ (wrapInt64 ((100 : ℤ) - 2) ≤ 0) := by decide
    have hc2 : c2 = [Call.klines true] := by
      unfold checkSignalToBuy binanceKlinesFuturesDataframe at hsig
      simp only [hw, if_false] at hsig
      cases hk : gw.klines with
      | none => simp [hk] at hsig
      | some ks =>
        cases hcsv : gw.csvOk <;> simp [hk, hcsv] at hsig
        exact hsig.2.symm
    subst hc2
    unfold tradeFlat binanceCheckAndCloseOrders
    by_cases hn : n > 0 <;> cases sig <;>
      simp [hlist, hcancel, hn, hsig, binanceOpenPosition, binanceCryptoPairPrice, hprice, hord,
        ordersIn, tag, closePrice]
  refine ⟨?_, horders, ?_⟩
  · rw [Trade_flat atanDeg gw src cp cfg row hrow hflat]
    unfold tradeFlat binanceCheckAndCloseOrders
    by_cases hn : n > 0 <;> cases sig <;>
      simp [hlist, hcancel, hn, hsig, binanceOpenPosition, binanceCryptoPairPrice, hprice, hord]
  · intro x hx
    rw [horders] at hx
    cases sig with
    | empty => simp at hx
    | LONG =>
      simp only [List.mem_singleton] at hx
      subst hx
      exact (twoDecimals_spec _).1
    | SHORT =>
      simp only [List.mem_singleton] at hx
      subst hx
      exact (twoDecimals_spec _).1

/-- C14 at the input of the spec: mark price 50000, `MaxPositionAmount` 0.01
and a LONG signal (the window `hundredCandles`) give one order, a buy of 0.01
at 50500.00. -/
theorem entry_order_witness :
    (flatAtPrice hundredCandles 50000).account = some ⟨0, 0⟩ ∧ (0 : ℚ) = 0 ∧
    (flatAtPrice hundredCandles 50000).openOrders = some 0 ∧
    (flatAtPrice hundredCandles 50000).cancelOk = true ∧
    checkSignalToBuy anyAngle (flatAtPrice hundredCandles 50000) 100 =
      (.ok TradingPosition.LONG, [Call.klines true]) ∧
    (flatAtPrice hundredCandles 50000).price 0 = some 50000 ∧
    (flatAtPrice hundredCandles 50000).orderOk 0 = true ∧
    (Trade anyAngle (flatAtPrice hundredCandles 50000) twoTiers twoTiers
        ⟨1 / 100, 1 / 20⟩).orders = [(Site.entry, ⟨SideType.buy, 1 / 100, 50500⟩)] ∧
    ((Trade anyAngle (flatAtPrice hundredCandles 50000) twoTiers twoTiers
        ⟨1 / 100, 1 / 20⟩).outcome = .ok () ∧
    (Trade anyAngle (flatAtPrice hundredCandles 50000) twoTiers twoTiers
        ⟨1 / 100, 1 / 20⟩).orders =
      (match TradingPosition.LONG with
        | .LONG => [(Site.entry,
            ⟨SideType.buy, quantityText (1 / 100),
              twoDecimals (roundF64 (roundF64 50000 * roundF64 (1 + 1 / 100)))⟩)]
        | .SHORT => [(Site.entry,
            ⟨SideType.sell, quantityText (1 / 100),
              twoDecimals (roundF64 (roundF64 50000 * roundF64 (1 - 1 / 100)))⟩)]
        | .empty => []) ∧
    (∀ x ∈ (Trade anyAngle (flatAtPrice hundredCandles 50000) twoTiers twoTiers
        ⟨1 / 100, 1 / 20⟩).orders, ∃ k : ℤ, x.2.price = (k : ℚ) / 100)) :=
  ⟨rfl, rfl, rfl, rfl, by decide!, rfl, rfl, by decide!,
    entry_order anyAngle (flatAtPrice hundredCandles 50000) twoTiers twoTiers ⟨1 / 100, 1 / 20⟩
      ⟨0, 0⟩ 0 50000 .LONG [Call.klines true] rfl rfl rfl rfl (by decide!) rfl rfl⟩

/-! ## Rolling channel -/

theorem foldl_max_ge_init (w : List ℚ) : ∀ a : ℚ, a ≤ w.foldl max a := by
  induction w with
  | nil => intro a; exact le_refl a
  | cons v w ih => intro a; exact le_trans (le_max_left a v) (ih (max a v))

theorem foldl_max_ge_mem (w : List ℚ) : ∀ (a x : ℚ), x ∈ w → x ≤ w.foldl max a := by
  induction w with
  | nil => intro a x hx; simp at hx
  | cons v w ih =>
    intro a x hx
    rcases List.mem_cons.mp hx with rfl | hx
    · exact le_trans (le_max_right a x) (foldl_max_ge_init w (max a x))
    · exact ih (max a v) x hx

theorem foldl_max_mem (w : List ℚ) : ∀ a : ℚ, w.foldl max a = a ∨ w.foldl max a ∈ w := by
  induction w with
  | nil => intro a; exact Or.inl rfl
  | cons v w ih =>
    intro a
    rcases ih (max a v) with h | h
    · rcases max_choice a v with h2 | h2
      · left; rw [List.foldl_cons, h, h2]
      · right; rw [List.foldl_cons, h, h2]; exact List.mem_cons_self v w
    · right; exact List.mem_cons_of_mem v h

theorem foldl_min_le_init (w : List ℚ) : ∀ a : ℚ, w.foldl min a ≤ a := by
  induction w with
  | nil => intro a; exact le_refl a
  | cons v w ih => intro a; exact le_trans (ih (min a v)) (min_le_left a v)

theorem foldl_min_le_mem (w : List ℚ) : ∀ (a x : ℚ), x ∈ w → w.foldl min a ≤ x := by
  induction w with
  | nil => intro a x hx; simp at hx
  | cons v w ih =>
    intro a x hx
    rcases List.mem_cons.mp hx with rfl | hx
    · exact le_trans (foldl_min_le_init w (min a x)) (min_le_right a x)
    · exact ih (min a v) x hx

theorem foldl_min_mem (w : List ℚ) : ∀ a : ℚ, w.foldl min a = a ∨ w.foldl min a ∈ w := by
  induction w with
  | nil => intro a; exact Or.inl rfl
  | cons v w ih =>
    intro a
    rcases ih (min a v) with h | h
    · rcases min_choice a v with h2 | h2
      · left; rw [List.foldl_cons, h, h2]
      · right; rw [List.foldl_cons, h, h2]; exact List.mem_cons_self v w
    · right; exact List.mem_cons_of_mem v h

theorem lt_fin_fin (a b : ℚ) : F64.lt (F64.fin a) (F64.fin b) = decide (a < b) := rfl

theorem lt_ninf_fin (b : ℚ) : F64.lt F64.ninf (F64.fin b) = true := rfl

theorem lt_fin_pinf (a : ℚ) : F64.lt (F64.fin a) F64.pinf = true := rfl

theorem runningMax_fin (w : List ℚ) : ∀ a : ℚ,
    w.foldl (fun windowMax val =>
        if F64.lt windowMax (F64.fin val) then F64.fin val else windowMax) (F64.fin a) =
      F64.fin (w.foldl max a) := by
  induction w with
  | nil => intro a; rfl
  | cons v w ih =>
    intro a
    rw [List.foldl_cons, List.foldl_cons]
    by_cases h : a < v
    · simp only [lt_fin_fin, h, decide_True, if_true]
      rw [ih v, max_eq_right h.le]
    · simp only [lt_fin_fin, h, decide_False, Bool.false_eq_true, if_false]
      rw [ih a, max_eq_left (not_lt.mp h)]

theorem runningMin_fin (w : List ℚ) : ∀ a : ℚ,
    w.foldl (fun windowMin val =>
        if F64.lt (F64.fin val) windowMin then F64.fin val else windowMin) (F64.fin a) =
      F64.fin (w.foldl min a) := by
  induction w with
  | nil => intro a; rfl
  | cons v w ih =>
    intro a
    rw [List.foldl_cons, List.foldl_cons]
    by_cases h : v < a
    · simp only [lt_fin_fin, h, decide_True, if_true]
      rw [ih v, min_eq_right h.le]
    · simp only [lt_fin_fin, h, decide_False, Bool.false_eq_true, if_false]
      rw [ih a, min_eq_left (not_lt.mp h)]

/-- The running maximum over a non-empty window is finite, is an element of
the window and is at least every element of it. -/
theorem runningMax_window (w : List ℚ) (hw : w ≠ []) :
    ∃ M, w.foldl (fun windowMax val =>
        if F64.lt windowMax (F64.fin val) then F64.fin val else windowMax) F64.ninf =
      F64.fin M ∧ M ∈ w ∧ ∀ x ∈ w, x ≤ M := by
  cases w with
  | nil => exact absurd rfl hw
  | cons v w =>
    refine ⟨w.foldl max v, ?_, ?_, ?_⟩
    · rw [List.foldl_cons]
      simp only [lt_ninf_fin, if_true]
      exact runningMax_fin w v
    · rcases foldl_max_mem w v with h | h
      · rw [h]; exact List.mem_cons_self v w
      · exact List.mem_cons_of_mem v h
    · intro x hx
      rcases List.mem_cons.mp hx with rfl | hx
      · exact foldl_max_ge_init w x
      · exact foldl_max_ge_mem w v x hx

theorem runningMin_window (w : List ℚ) (hw : w ≠ []) :
    ∃ m, w.foldl (fun windowMin val =>
        if F64.lt (F64.fin val) windowMin then F64.fin val else windowMin) F64.pinf =
      F64.fin m ∧ m ∈ w ∧ ∀ x ∈ w, m ≤ x := by
  cases w with
  | nil => exact absurd rfl hw
  | cons v w =>
    refine ⟨w.foldl min v, ?_, ?_, ?_⟩
    · rw [List.foldl_cons]
      simp only [lt_fin_pinf, if_true]
      exact runningMin_fin w v
    · rcases foldl_min_mem w v with h | h
      · rw [h]; exact List.mem_cons_self v w
      · exact List.mem_cons_of_mem v h
    · intro x hx
      rcases List.mem_cons.mp hx with rfl | hx
      · exact foldl_min_le_init w x
      · exact foldl_min_le_mem w v x hx

theorem mem_window (column : List ℚ) (s i : ℕ) (x : ℚ) :
    x ∈ (column.take (i + 1)).drop s ↔ ∃ j, s ≤ j ∧ j ≤ i ∧ column[j]? = some x := by
  rw [List.mem_iff_getElem?]
  constructor
  · rintro ⟨k, hk⟩
    rw [List.getElem?_drop, List.getElem?_take] at hk
    split at hk
    · exact ⟨s + k, by omega, by omega, hk⟩
    · cases hk
  · rintro ⟨j, hs, hj, hx⟩
    refine ⟨j - s, ?_⟩
    rw [List.getElem?_drop, List.getElem?_take]
    have : s + (j - s) = j := by omega
    rw [this, if_pos (by omega), hx]
theorem rollingMax_at (column : List ℚ) (W i : ℕ) (hW : 1 ≤ W) (hi : i < column.length) :
    ∃ M, (rollingMax column W)[i]? = some (F64.fin M) ∧
      (∃ j, i + 1 - W ≤ j ∧ j ≤ i ∧ column[j]? = some M) ∧
      ∀ j x, i + 1 - W ≤ j → j ≤ i → column[j]? = some x → x ≤ M := by
  have hne : (column.take (i + 1)).drop (i + 1 - W) ≠ [] := by
    intro h
    have : column[i] ∈ (column.take (i + 1)).drop (i + 1 - W) :=
      (mem_window column _ i _).mpr ⟨i, by omega, le_refl i, List.getElem?_eq_getElem hi⟩
    rw [h] at this
    simp at this
  obtain ⟨M, hM, hmem, hle⟩ := runningMax_window _ hne
  refine ⟨M, ?_, (mem_window column _ i M).mp hmem, ?_⟩
  · simp only [rollingMax, List.getElem?_map, List.getElem?_range hi, Option.map_some']
    rw [hM]
  · intro j x h1 h2 hx
    exact hle x ((mem_window column _ i x).mpr ⟨j, h1, h2, hx⟩)

theorem rollingMin_at (column : List ℚ) (W i : ℕ) (hW : 1 ≤ W) (hi : i < column.length) :
    ∃ m, (rollingMin column W)[i]? = some (F64.fin m) ∧
      (∃ j, i + 1 - W ≤ j ∧ j ≤ i ∧ column[j]? = some m) ∧
      ∀ j x, i + 1 - W ≤ j → j ≤ i → column[j]? = some x → m ≤ x := by
  have hne : (column.take (i + 1)).drop (i + 1 - W) ≠ [] := by
    intro h
    have : column[i] ∈ (column.take (i + 1)).drop (i + 1 - W) :=
      (mem_window column _ i _).mpr ⟨i, by omega, le_refl i, List.getElem?_eq_getElem hi⟩
    rw [h] at this
    simp at this
  obtain ⟨m, hm, hmem, hle⟩ := runningMin_window _ hne
  refine ⟨m, ?_, (mem_window column _ i m).mp hmem, ?_⟩
  · simp only [rollingMin, List.getElem?_map, List.getElem?_range hi, Option.map_some']
    rw [hm]
  · intro j x h1 h2 hx
    exact hle x ((mem_window column _ i x).mpr ⟨j, h1, h2, hx⟩)

theorem rollingMax_one (column : List ℚ) : rollingMax column 1 = column.map F64.fin := by
  apply List.ext_getElem?
  intro i
  by_cases hi : i < column.length
  · obtain ⟨M, hM, ⟨j, h1, h2, hj⟩, -⟩ := rollingMax_at column 1 i (le_refl 1) hi
    have : j = i := by omega
    subst this
    rw [hM, List.getElem?_map, hj]
    rfl
  · rw [List.getElem?_eq_none_iff.mpr (by simp [rollingMax]; omega),
      List.getElem?_eq_none_iff.mpr (by simp; omega)]

theorem rollingMin_one (column : List ℚ) : rollingMin column 1 = column.map F64.fin := by
  apply List.ext_getElem?
  intro i
  by_cases hi : i < column.length
  · obtain ⟨m, hm, ⟨j, h1, h2, hj⟩, -⟩ := rollingMin_at column 1 i (le_refl 1) hi
    have : j = i := by omega
    subst this
    rw [hm, List.getElem?_map, hj]
    rfl
  · rw [List.getElem?_eq_none_iff.mpr (by simp [rollingMin]; omega),
      List.getElem?_eq_none_iff.mpr (by simp; omega)]

/-- C18: for every series and window size `W ≥ 1`, entry `i` of `rollingMax`
(of `rollingMin`) is the maximum (the minimum) of the series over the indices
`max 0 (i - W + 1) .. i`, written `i + 1 - W` with the subtraction of natural
numbers: it is the value at one of these indices and bounds the value at each
of them.  With `W = 1` both are the series itself. -/
theorem rolling_extrema (column : List ℚ) (W i : ℕ) (hW : 1 ≤ W) (hi : i < column.length) :
    (∃ M, (rollingMax column W)[i]? = some (F64.fin M) ∧
      (∃ j, i + 1 - W ≤ j ∧ j ≤ i ∧ column[j]? = some M) ∧
      ∀ j x, i + 1 - W ≤ j → j ≤ i → column[j]? = some x → x ≤ M) ∧
    (∃ m, (rollingMin column W)[i]? = some (F64.fin m) ∧
      (∃ j, i + 1 - W ≤ j ∧ j ≤ i ∧ column[j]? = some m) ∧
      ∀ j x, i + 1 - W ≤ j → j ≤ i → column[j]? = some x → m ≤ x) ∧
    rollingMax column 1 = column.map F64.fin ∧
    rollingMin column 1 = column.map F64.fin :=
  ⟨rollingMax_at column W i hW hi, rollingMin_at column W i hW hi, rollingMax_one column,
    rollingMin_one column⟩

/-- C18 at the series `3, 1, 2`, the window size 2 and the index 2. -/
theorem rolling_extrema_witness :
    1 ≤ 2 ∧ 2 < ([3, 1, 2] : List ℚ).length ∧
    ((∃ M, (rollingMax [3, 1, 2] 2)[2]? = some (F64.fin M) ∧
      (∃ j, 2 + 1 - 2 ≤ j ∧ j ≤ 2 ∧ ([3, 1, 2] : List ℚ)[j]? = some M) ∧
      ∀ j x, 2 + 1 - 2 ≤ j → j ≤ 2 → ([3, 1, 2] : List ℚ)[j]? = some x → x ≤ M) ∧
    (∃ m, (rollingMin [3, 1, 2] 2)[2]? = some (F64.fin m) ∧
      (∃ j, 2 + 1 - 2 ≤ j ∧ j ≤ 2 ∧ ([3, 1, 2] : List ℚ)[j]? = some m) ∧
      ∀ j x, 2 + 1 - 2 ≤ j → j ≤ 2 → ([3, 1, 2] : List ℚ)[j]? = some x → m ≤ x) ∧
    rollingMax [3, 1, 2] 1 = ([3, 1, 2] : List ℚ).map F64.fin ∧
    rollingMin [3, 1, 2] 1 = ([3, 1, 2] : List ℚ).map F64.fin) :=
  ⟨by norm_num, by simp, rolling_extrema [3, 1, 2] 2 2 (by norm_num) (by simp)⟩

/-! ## True range and ATR -/

theorem foldl_add_eq_sum (w : List ℚ) : ∀ a : ℚ, w.foldl (· + ·) a = a + w.sum := by
  induction w with
  | nil => intro a; simp
  | cons v w ih => intro a; rw [List.foldl_cons, ih, List.sum_cons]; ring

theorem window_sum (l : List ℚ) (s : ℕ) :
    ∀ k, s + k ≤ l.length →
      ((l.take (s + k)).drop s).sum = ∑ j in Finset.Ico s (s + k), l.getD j 0 := by
  intro k
  induction k with
  | zero =>
    intro _
    have h0 : List.drop s (List.take s l) = [] :=
      List.drop_eq_nil_of_le (by rw [List.length_take]; omega)
    simp [h0]
  | succ k ih =>
    intro h
    have hk : s + k < l.length := by omega
    rw [← Nat.add_assoc, List.take_succ, List.getElem?_eq_getElem hk, Option.toList_some,
      List.drop_append_of_le_length (by rw [List.length_take]; omega), List.sum_append,
      ih (by omega), Finset.sum_Ico_succ_top (by omega)]
    simp [List.getD_eq_getElem?_getD, List.getElem?_eq_getElem hk]

theorem trueRange_length (high low closes : List ℚ) :
    (trueRange high low closes).length = high.length := by
  simp [trueRange]

/-- C17: for every candle window of length `N` and every period `P ≥ 1`,
`IndicateATR` yields `TR[0] = 0`, `TR[i] = max(high[i] - low[i],
|high[i] - close[i-1]|, |low[i] - close[i-1]|)` for `0 < i < N`, `ATR[i] = 0`
for `i < P`, and `ATR[i] = (TR[i-P+1] + .. + TR[i]) / P` for `P ≤ i < N`. -/
theorem atr_values (high low closes : List ℚ) (P i : ℕ) (hP : 1 ≤ P)
    (hi : i < high.length) :
    (IndicateATR high low closes P).1[i]? =
      some (if i = 0 then 0
        else max (high.getD i 0 - low.getD i 0)
          (max |high.getD i 0 - closes.getD (i - 1) 0| |low.getD i 0 - closes.getD (i - 1) 0|)) ∧
    (IndicateATR high low closes P).2[i]? =
      some (F64.fin (if i < P then 0
        else (∑ j in Finset.Icc (i + 1 - P) i,
          (IndicateATR high low closes P).1.getD j 0) / P)) := by
  constructor
  · simp [IndicateATR, trueRange, List.getElem?_range hi]
  · simp only [IndicateATR, List.getElem?_map, List.getElem?_range hi, Option.map_some',
      Option.some.injEq]
    by_cases hlt : i < P
    · simp [hlt, not_le.mpr hlt]
    · have hle : P ≤ i := not_lt.mp hlt
      have hP0 : (P : ℚ) ≠ 0 := by
        have : 0 < P := hP
        exact_mod_cast this.ne'
      simp only [hle, hlt, if_true, if_false]
      rw [foldl_add_eq_sum, zero_add]
      have hs : i + 1 = (i + 1 - P) + P := by omega
      have hw := window_sum (trueRange high low closes) (i + 1 - P) P
        (by rw [trueRange_length]; omega)
      rw [← hs] at hw
      rw [hw]
      have hIco : Finset.Ico (i + 1 - P) (i + 1) = Finset.Icc (i + 1 - P) i := by
        ext j; simp only [Finset.mem_Ico, Finset.mem_Icc]; omega
      rw [hIco]
      simp [F64.div, hP0]

/-- C17 at three candles, the period 2 and the index 2. -/
theorem atr_values_witness :
    1 ≤ 2 ∧ 2 < ([5, 7, 6] : List ℚ).length ∧
    ((IndicateATR [5, 7, 6] [3, 4, 2] [4, 6, 3] 2).1[2]? =
      some (if 2 = 0 then 0
        else max (([5, 7, 6] : List ℚ).getD 2 0 - ([3, 4, 2] : List ℚ).getD 2 0)
          (max |([5, 7, 6] : List ℚ).getD 2 0 - ([4, 6, 3] : List ℚ).getD (2 - 1) 0|
            |([3, 4, 2] : List ℚ).getD 2 0 - ([4, 6, 3] : List ℚ).getD (2 - 1) 0|)) ∧
    (IndicateATR [5, 7, 6] [3, 4, 2] [4, 6, 3] 2).2[2]? =
      some (F64.fin (if 2 < 2 then 0
        else (∑ j in Finset.Icc (2 + 1 - 2) 2,
          (IndicateATR [5, 7, 6] [3, 4, 2] [4, 6, 3] 2).1.getD j 0) / (2 : ℕ)))) :=
  ⟨by norm_num, by simp, atr_values [5, 7, 6] [3, 4, 2] [4, 6, 3] 2 2 (by norm_num) (by simp)⟩
/-! ## Position in the channel -/

theorem zipWith3_at {α β γ δ : Type} (f : α → β → γ → δ) :
    ∀ (a : List α) (b : List β) (l3 : List γ) (i : ℕ) (x : α) (y : β) (z : γ),
      a[i]? = some x → b[i]? = some y → l3[i]? = some z →
      (List.zipWith3 f a b l3)[i]? = some (f x y z) := by
  intro a
  induction a with
  | nil => intro b l3 i x y z ha; simp at ha
  | cons a0 a ih =>
    intro b l3 i x y z ha hb hc
    cases b with
    | nil => simp at hb
    | cons b0 b =>
      cases l3 with
      | nil => simp at hc
      | cons c0 l3 =>
        cases i with
        | zero =>
          simp only [List.getElem?_cons_zero, Option.some.injEq] at ha hb hc
          subst ha hb hc
          simp [List.zipWith3]
        | succ i =>
          simp only [List.getElem?_cons_succ] at ha hb hc
          simp only [List.zipWith3, List.getElem?_cons_succ]
          exact ih b l3 i x y z ha hb hc

theorem sub_fin_fin (a b : ℚ) : F64.sub (F64.fin a) (F64.fin b) = F64.fin (a - b) := by
  simp [F64.sub, F64.neg, F64.add, sub_eq_add_neg]

theorem div_fin_fin (a b : ℚ) (hb : b ≠ 0) :
    F64.div (F64.fin a) (F64.fin b) = F64.fin (a / b) := by
  simp [F64.div, hb]

theorem subR_fin_fin (a b : ℚ) :
    F64.subR (F64.fin a) (F64.fin b) = F64.fin (roundF64 (roundF64 a - roundF64 b)) := by
  simp only [F64.subR, F64.nearest, sub_fin_fin]

theorem divR_fin_fin (a b : ℚ) (hb : roundF64 b ≠ 0) :
    F64.divR (F64.fin a) (F64.fin b) = F64.fin (roundF64 (roundF64 a / roundF64 b)) := by
  simp only [F64.divR, F64.nearest, div_fin_fin _ _ hb]

theorem parsed_at {w : List Kline} (f : Kline → ℚ) (j : ℕ) (x : ℚ)
    (h : (w.map fun k => roundF64 (f k))[j]? = some x) : roundF64 x = x := by
  rw [List.getElem?_map] at h
  cases hw : w[j]? with
  | none => simp [hw] at h
  | some k =>
    simp only [hw, Option.map_some', Option.some.injEq] at h
    rw [← h, roundF64_idem]

/-- C12: in the frame prepared from a candle window whose candles satisfy
`low ≤ close ≤ high`, at every row `i` where `chan_max[i] > chan_min[i]` (the
rolling maximum of the highs and the rolling minimum of the lows over 10
rows), `pos_in_chan[i]` is the finite number
`(close[i] - chan_min[i]) / (chan_max[i] - chan_min[i])`, the two differences
and the quotient being computed in `float64`, and lies in `[0, 1]`. -/
theorem position_in_channel_bounds (atanDeg : F64 → F64) (w : List Kline) (df : Frame)
    (i : ℕ) (hdf : PrepareDataFrame atanDeg w = .ok df)
    (hcandle : ∀ k ∈ w, k.Low ≤ k.Close ∧ k.Close ≤ k.High)
    (hgt : F64.lt (df.chan_min.getD i F64.nan) (df.chan_max.getD i F64.nan) = true) :
    ∃ m M q, df.chan_min[i]? = some (F64.fin m) ∧ df.chan_max[i]? = some (F64.fin M) ∧
      df.pos_in_chan[i]? = some (F64.fin q) ∧
      q = roundF64 (roundF64 (df.close.getD i 0 - m) / roundF64 (M - m)) ∧ 0 ≤ q ∧ q ≤ 1 := by
  obtain ⟨hclose, -, hmax, hmin, hpos⟩ := PrepareDataFrame_frame atanDeg w df hdf
  have hi : i < w.length := by
    by_contra hge
    have hnone : df.chan_min[i]? = none := by
      rw [hmin, List.getElem?_eq_none_iff]
      simp [rollingMin]
      omega
    rw [List.getD_eq_getElem?_getD, hnone] at hgt
    simp [F64.lt] at hgt
  obtain ⟨m, hm, ⟨jm, -, -, hjm⟩, hmle⟩ :=
    rollingMin_at (w.map fun k => roundF64 k.Low) 10 i (by norm_num) (by simpa using hi)
  obtain ⟨M, hM, ⟨jM, -, -, hjM⟩, hMle⟩ :=
    rollingMax_at (w.map fun k => roundF64 k.High) 10 i (by norm_num) (by simpa using hi)
  have hmf : roundF64 m = m := parsed_at (fun k => k.Low) jm m hjm
  have hMf : roundF64 M = M := parsed_at (fun k => k.High) jM M hjM
  rw [← hmin] at hm
  rw [← hmax] at hM
  have hk : w[i] ∈ w := List.getElem_mem hi
  obtain ⟨hlc, hch⟩ := hcandle _ hk
  have hlow : m ≤ roundF64 w[i].Low :=
    hmle i _ (by omega) (le_refl i) (by simp [List.getElem?_eq_getElem hi])
  have hhigh : roundF64 w[i].High ≤ M :=
    hMle i _ (by omega) (le_refl i) (by simp [List.getElem?_eq_getElem hi])
  have hcm : m ≤ roundF64 w[i].Close := le_trans hlow (roundF64_mono hlc)
  have hcM : roundF64 w[i].Close ≤ M := le_trans (roundF64_mono hch) hhigh
  have hlt : m < M := by
    rw [List.getD_eq_getElem?_getD, List.getD_eq_getElem?_getD, hm, hM] at hgt
    simpa [F64.lt] using hgt
  have hc : df.close[i]? = some (roundF64 w[i].Close) := by
    rw [hclose]; simp [List.getElem?_eq_getElem hi]
  have hcf : roundF64 (roundF64 w[i].Close) = roundF64 w[i].Close := roundF64_idem _
  have hden : 0 < roundF64 (M - m) := by
    have := roundF64_sub_pos m M (by rw [hmf, hMf]; exact hlt)
    rwa [hmf, hMf] at this
  have hnum : 0 ≤ roundF64 (roundF64 w[i].Close - m) := roundF64_nonneg (by linarith)
  have hle : roundF64 (roundF64 w[i].Close - m) ≤ roundF64 (M - m) :=
    roundF64_mono (by linarith)
  have hgetD : df.close.getD i 0 = roundF64 w[i].Close := by
    rw [List.getD_eq_getElem?_getD, hc]
    rfl
  refine ⟨m, M, roundF64 (roundF64 (roundF64 w[i].Close - m) / roundF64 (M - m)), hm, hM,
    ?_, ?_, ?_, ?_⟩
  · rw [hpos]
    unfold positionInChannel
    rw [zipWith3_at _ _ _ _ i _ _ _ hc hm hM, subR_fin_fin, subR_fin_fin, hcf, hmf, hMf,
      divR_fin_fin _ _ (by rw [roundF64_idem]; exact hden.ne'), roundF64_idem, roundF64_idem]
  · rw [hgetD]
  · exact roundF64_nonneg (div_nonneg hnum hden.le)
  · have h1 : roundF64 (roundF64 w[i].Close - m) / roundF64 (M - m) ≤ 1 := by
      rw [div_le_one hden]
      exact hle
    have := roundF64_mono h1
    rwa [roundF64_one] at this

/-- C12 at the frame `sevenFrame` and its row 4. -/
theorem position_in_channel_bounds_witness :
    PrepareDataFrame anyAngle (sortByDateDesc sevenCandles) = .ok sevenFrame ∧
    (∀ k ∈ sortByDateDesc sevenCandles, k.Low ≤ k.Close ∧ k.Close ≤ k.High) ∧
    F64.lt (sevenFrame.chan_min.getD 4 F64.nan) (sevenFrame.chan_max.getD 4 F64.nan) = true ∧
    ∃ m M q, sevenFrame.chan_min[4]? = some (F64.fin m) ∧
      sevenFrame.chan_max[4]? = some (F64.fin M) ∧
      sevenFrame.pos_in_chan[4]? = some (F64.fin q) ∧
      q = roundF64 (roundF64 (sevenFrame.close.getD 4 0 - m) / roundF64 (M - m)) ∧
      0 ≤ q ∧ q ≤ 1 :=
  ⟨by decide!, by decide!, by decide!,
    position_in_channel_bounds anyAngle (sortByDateDesc sevenCandles) sevenFrame 4 (by decide!)
      (by decide!) (by decide!)⟩

/-! ## Sign of the slope -/

theorem add_fin_fin (a b : ℚ) : F64.add (F64.fin a) (F64.fin b) = F64.fin (a + b) := rfl

theorem mul_fin_fin (a b : ℚ) : F64.mul (F64.fin a) (F64.fin b) = F64.fin (a * b) := rfl

theorem windowSlope_eq (y x : List ℚ) (n : ℕ) (hn : y.length = n)
    (hx : x = (List.range n).map fun i => (i : ℚ)) :
    windowSlope y =
      (LinearRegression
        (x.map fun v => F64.div (F64.fin (v - vecMin x)) (F64.fin (vecMax x - vecMin x)))
        (y.map fun v => F64.div (F64.fin (v - vecMin y)) (F64.fin (vecMax y - vecMin y)))).2 := by
  subst hx hn
  rfl

theorem windowSlope_five (a b c d e lo hi : ℚ) (hlo : vecMin [a, b, c, d, e] = lo)
    (hhi : vecMax [a, b, c, d, e] = hi) (hne : hi - lo ≠ 0) :
    windowSlope [a, b, c, d, e] =
      F64.fin ((4 * (e - a) + 2 * (d - b)) / (5 * (hi - lo))) := by
  have hx0 : vecMin [(0 : ℚ), 1, 2, 3, 4] = 0 := by decide!
  have hx1 : vecMax [(0 : ℚ), 1, 2, 3, 4] = 4 := by decide!
  have h4 : ((4 : ℚ) - 0) ≠ 0 := by norm_num
  have h5 : (5 : ℚ) ≠ 0 := by norm_num
  have h51 : ((5 : ℚ) - 1) ≠ 0 := by norm_num
  rw [windowSlope_eq [a, b, c, d, e] [0, 1, 2, 3, 4] 5 rfl (by decide!)]
  simp only [hlo, hhi, hx0, hx1, LinearRegression, Mean, F64.sum, List.foldl_cons,
    List.foldl_nil, List.map_cons, List.map_nil, List.zipWith_cons_cons,
    List.zipWith_nil_right, List.length_cons, List.length_nil, div_fin_fin _ _ h4,
    div_fin_fin _ _ hne, div_fin_fin _ _ h5, div_fin_fin _ _ h51,
    add_fin_fin, sub_fin_fin, mul_fin_fin, Nat.cast_ofNat, Nat.reduceAdd,
    zero_add]
  rw [div_fin_fin _ _ (by norm_num)]
  congr 1
  field_simp
  ring
theorem five_heads (l : List ℚ) (h : 5 ≤ l.length) :
    ∃ a b c d e rest, l = a :: b :: c :: d :: e :: rest := by
  match l, h with
  | a :: b :: c :: d :: e :: rest, _ => exact ⟨a, b, c, d, e, rest, rfl⟩

theorem arraySl_window (series : List ℚ) (i : ℕ) (hi : 4 ≤ i) (hlen : i < series.length) :
    (arraySl series 5)[i]? = some (windowSlope ((series.drop (i - 4)).take 5)) := by
  have h : 5 ≤ i + 1 := by omega
  have h2 : i + 1 - 5 = i - 4 := by omega
  have h3 : ¬ i < 4 := by omega
  simp [arraySl, List.getElem?_range hlen, h, h2, h3]

theorem windowSlope_increasing (a b c d e : ℚ) (hab : a < b) (hbc : b < c) (hcd : c < d)
    (hde : d < e) : ∃ q, windowSlope [a, b, c, d, e] = F64.fin q ∧ 0 < q := by
  have hlo : vecMin [a, b, c, d, e] = a := by
    simp only [vecMin, List.foldl_cons, List.foldl_nil]
    rw [min_eq_left hab.le, min_eq_left (hab.trans hbc).le,
      min_eq_left ((hab.trans hbc).trans hcd).le,
      min_eq_left (((hab.trans hbc).trans hcd).trans hde).le]
  have hhi : vecMax [a, b, c, d, e] = e := by
    simp only [vecMax, List.foldl_cons, List.foldl_nil]
    rw [max_eq_right hab.le, max_eq_right hbc.le, max_eq_right hcd.le, max_eq_right hde.le]
  refine ⟨_, windowSlope_five a b c d e a e hlo hhi (by linarith), ?_⟩
  exact div_pos (by linarith) (by linarith)

theorem windowSlope_decreasing (a b c d e : ℚ) (hab : b < a) (hbc : c < b) (hcd : d < c)
    (hde : e < d) : ∃ q, windowSlope [a, b, c, d, e] = F64.fin q ∧ q < 0 := by
  have hlo : vecMin [a, b, c, d, e] = e := by
    simp only [vecMin, List.foldl_cons, List.foldl_nil]
    rw [min_eq_right hab.le, min_eq_right hbc.le, min_eq_right hcd.le, min_eq_right hde.le]
  have hhi : vecMax [a, b, c, d, e] = a := by
    simp only [vecMax, List.foldl_cons, List.foldl_nil]
    rw [max_eq_left hab.le, max_eq_left (hbc.trans hab).le,
      max_eq_left (hcd.trans (hbc.trans hab)).le,
      max_eq_left (hde.trans (hcd.trans (hbc.trans hab))).le]
  refine ⟨_, windowSlope_five a b c d e e a hlo hhi (by linarith), ?_⟩
  exact div_neg_of_neg_of_pos (by linarith) (by linarith)

theorem window_of_sorted (r : ℚ → ℚ → Prop) (series : List ℚ) (i : ℕ) (hi : 4 ≤ i)
    (hlen : i < series.length) (hs : series.Pairwise r) :
    ∃ a b c d e, (series.drop (i - 4)).take 5 = [a, b, c, d, e] ∧
      r a b ∧ r b c ∧ r c d ∧ r d e := by
  obtain ⟨a, b, c, d, e, rest, h⟩ := five_heads (series.drop (i - 4))
    (by rw [List.length_drop]; omega)
  have hp : (series.drop (i - 4)).Pairwise r := hs.sublist (List.drop_sublist _ _)
  rw [h] at hp
  simp only [List.pairwise_cons, List.mem_cons, forall_eq_or_imp] at hp
  exact ⟨a, b, c, d, e, by rw [h]; rfl, hp.1.1, hp.2.1.1, hp.2.2.1.1, hp.2.2.2.1.1⟩

/-- C11: for every strictly increasing close series, the slope angle that
`IndicateSlope` computes with `n = 5` is positive at every index where it is
computed (`4 ≤ i`), and for every strictly decreasing series it is negative
there; `angle` is the function from the regression slope to the angle in
degrees, positive on positive slopes and negative on negative ones. -/
theorem slope_angle_sign {β : Type} [Zero β] [LT β] (angle : ℚ → β) (series : List ℚ)
    (i : ℕ) (hpos : ∀ q, 0 < q → 0 < angle q) (hneg : ∀ q, q < 0 → angle q < 0)
    (hi : 4 ≤ i) (hlen : i < series.length) :
    (series.Pairwise (· < ·) →
      ∃ l a, IndicateSlope (F64.mapFin angle) series 5 = .ok l ∧ l[i]? = some (some a) ∧
        0 < a) ∧
    (series.Pairwise (· > ·) →
      ∃ l a, IndicateSlope (F64.mapFin angle) series 5 = .ok l ∧ l[i]? = some (some a) ∧
        a < 0) := by
  constructor
  · intro hs
    obtain ⟨a, b, c, d, e, hw, hab, hbc, hcd, hde⟩ := window_of_sorted _ series i hi hlen hs
    obtain ⟨q, hq, hq0⟩ := windowSlope_increasing a b c d e hab hbc hcd hde
    refine ⟨(arraySl series 5).map (F64.mapFin angle), angle q, by simp [IndicateSlope], ?_,
      hpos q hq0⟩
    rw [List.getElem?_map, arraySl_window series i hi hlen, hw, hq]
    rfl
  · intro hs
    obtain ⟨a, b, c, d, e, hw, hab, hbc, hcd, hde⟩ := window_of_sorted _ series i hi hlen hs
    obtain ⟨q, hq, hq0⟩ := windowSlope_decreasing a b c d e hab hbc hcd hde
    refine ⟨(arraySl series 5).map (F64.mapFin angle), angle q, by simp [IndicateSlope], ?_,
      hneg q hq0⟩
    rw [List.getElem?_map, arraySl_window series i hi hlen, hw, hq]
    rfl

theorem arctan_degrees_pos (q : ℚ) (h : 0 < q) :
    0 < Real.arctan (q : ℝ) * (180 / Real.pi) := by
  have h1 : 0 < Real.arctan (q : ℝ) := by
    have := Real.arctan_strictMono (show (0 : ℝ) < (q : ℝ) by exact_mod_cast h)
    rwa [Real.arctan_zero] at this
  exact mul_pos h1 (div_pos (by norm_num) Real.pi_pos)

theorem arctan_degrees_neg (q : ℚ) (h : q < 0) :
    Real.arctan (q : ℝ) * (180 / Real.pi) < 0 := by
  have h1 : Real.arctan (q : ℝ) < 0 := by
    have := Real.arctan_strictMono (show (q : ℝ) < (0 : ℝ) by exact_mod_cast h)
    rwa [Real.arctan_zero] at this
  exact mul_neg_of_neg_of_pos h1 (div_pos (by norm_num) Real.pi_pos)

/-- C11 at the closes `1, 2, 3, 4, 5, 6`, the index 4 and the angle
`arctan q * (180 / π)`. -/
theorem slope_angle_sign_witness :
    (∀ q : ℚ, 0 < q → 0 < Real.arctan (q : ℝ) * (180 / Real.pi)) ∧
    (∀ q : ℚ, q < 0 → Real.arctan (q : ℝ) * (180 / Real.pi) < 0) ∧
    4 ≤ 4 ∧ 4 < ([1, 2, 3, 4, 5, 6] : List ℚ).length ∧
    ((([1, 2, 3, 4, 5, 6] : List ℚ).Pairwise (· < ·) →
      ∃ l a, IndicateSlope (F64.mapFin fun q => Real.arctan (q : ℝ) * (180 / Real.pi))
          [1, 2, 3, 4, 5, 6] 5 = .ok l ∧ l[4]? = some (some a) ∧ 0 < a) ∧
    (([1, 2, 3, 4, 5, 6] : List ℚ).Pairwise (· > ·) →
      ∃ l a, IndicateSlope (F64.mapFin fun q => Real.arctan (q : ℝ) * (180 / Real.pi))
          [1, 2, 3, 4, 5, 6] 5 = .ok l ∧ l[4]? = some (some a) ∧ a < 0)) :=
  ⟨arctan_degrees_pos, arctan_degrees_neg, le_refl 4, by simp,
    slope_angle_sign (fun q => Real.arctan (q : ℝ) * (180 / Real.pi)) [1, 2, 3, 4, 5, 6] 4
      arctan_degrees_pos arctan_degrees_neg (le_refl 4) (by simp)⟩

/-! ## Rows read by the entry signal -/

theorem Value_before_first (s : List ℚ) : Value s (-1) = .error .panic := by
  simp [Value]

theorem first_row_minimum (cl : List ℚ) (h : 2 ≤ cl.length) :
    isLocalMinimumIdx cl 0 =
      if cl.getD 0 0 ≤ cl.getD 1 0 then .error .panic else .ok 0 := by
  have h0 := Value_at cl 0 (by omega)
  have h1 := Value_at cl 1 (by omega)
  simp only [Nat.cast_zero, Nat.cast_one] at h0 h1
  unfold isLocalMinimumIdx
  simp only [zero_add, zero_sub, h0, h1, Value_before_first, bind, Except.bind, pure,
    Except.pure]

theorem first_row_maximum (cl : List ℚ) (h : 2 ≤ cl.length) :
    isLocalMaximumIdx cl 0 =
      if cl.getD 0 0 ≥ cl.getD 1 0 then .error .panic else .ok 0 := by
  have h0 := Value_at cl 0 (by omega)
  have h1 := Value_at cl 1 (by omega)
  simp only [Nat.cast_zero, Nat.cast_one] at h0 h1
  unfold isLocalMaximumIdx
  simp only [zero_add, zero_sub, h0, h1, Value_before_first, bind, Except.bind, pure,
    Except.pure]

/-- The rows that the two local-extremum checks of `checkSignalToBuy` read
(`limit - 3` and its two neighbours) are rows of the window as soon as
`limit > 3`, and `PrepareDataFrame` returns a frame whatever the window is. -/
theorem signal_reads_in_range (atanDeg : F64 → F64) (w : List Kline) (limit : ℕ)
    (hlimit : 3 < limit) (hlen : w.length = limit) :
    (∃ df, PrepareDataFrame atanDeg w = .ok df) ∧
    (∃ m, isLocalMinimumIdx (w.map fun k => roundF64 k.Close) ((limit : ℤ) - 2 - 1) = .ok m) ∧
    (∃ m, isLocalMaximumIdx (w.map fun k => roundF64 k.Close) ((limit : ℤ) - 2 - 1) = .ok m) := by
  have hidx : (limit : ℤ) - 2 - 1 = ((limit - 3 : ℕ) : ℤ) := by omega
  refine ⟨PrepareDataFrame_total atanDeg w, ?_, ?_⟩
  · rw [hidx, isLocalMinimumIdx_at _ (limit - 3) (by omega) (by simp; omega)]
    exact ⟨_, rfl⟩
  · rw [hidx, isLocalMaximumIdx_at _ (limit - 3) (by omega) (by simp; omega)]
    exact ⟨_, rfl⟩

/-- C21 fails at `limit = 3`: the guard `limit > 2` lets a window of three
candles through, the local-extremum checks run at row `lastCandle - 1 = 0`,
and whatever the three candles are one of the two checks reads row `-1`,
which is out of range: `checkSignalToBuy` panics, after the fetch. -/
theorem three_candles_read_row_minus_one (atanDeg : F64 → F64) (gw : Gateway)
    (ks : List Kline) (hk : gw.klines = some ks) (hcsv : gw.csvOk = true)
    (hlen : ks.length = 3) :
    checkSignalToBuy atanDeg gw 3 = (.error .panic, [Call.klines true]) ∧
    Value ((sortByDateDesc ks).map fun k => roundF64 k.Close) (3 - 2 - 1 - 1) =
      .error .panic := by
  refine ⟨?_, Value_before_first _⟩
  obtain ⟨df, hdf⟩ := PrepareDataFrame_total atanDeg (sortByDateDesc ks)
  obtain ⟨hl1, -, hl2, hl3, -⟩ := PrepareDataFrame_lengths atanDeg _ df hdf
  rw [sortByDateDesc_length, hlen] at hl1 hl2 hl3
  have hcl : 2 ≤ df.close.length := by omega
  have hmin := first_row_minimum df.close hcl
  have hmax := first_row_maximum df.close hcl
  have hchart := saveChartAsSVG_ok df 3 (by norm_num) (by norm_num) (by omega) (by omega)
    (by omega)
  simp only [Nat.cast_ofNat] at hchart
  have hw : wrapInt64 ((3 : ℤ) - 2) = 3 - 2 := by decide
  have hres : signalOnFrame atanDeg 3 (sortByDateDesc ks) = .error .panic := by
    unfold signalOnFrame
    simp only [hdf, hchart, hw, bind, Except.bind]
    have e : ((3 : ℤ) - 2 - 1) = 0 := by norm_num
    by_cases hle : df.close.getD 0 0 ≤ df.close.getD 1 0
    · rw [if_pos hle] at hmin
      rw [← longBlockFrom_empty, longBlockFrom_fault df (3 - 2) _ _ (by rw [e]; exact hmin)]
    · rw [if_neg hle] at hmin
      rw [if_pos (le_of_lt (not_le.mp hle))] at hmax
      rw [← longBlockFrom_empty,
        longBlockFrom_skip df (3 - 2) 0 _ (by rw [e]; exact hmin) (by norm_num)]
      simp only
      rw [shortBlock_fault df (3 - 2) _ _ (by rw [e]; exact hmax)]
  have hg : ¬ (wrapInt64 ((3 : ℤ) - 2) ≤ 0) := by decide
  unfold checkSignalToBuy binanceKlinesFuturesDataframe
  simp only [hg, if_false, hk, hcsv, if_true, hres]

/-- C21 at the three candles of closes `12, 11, 10`, oldest first. -/
theorem three_candles_read_row_minus_one_witness :
    (flatWith [candle 1 12, candle 2 11, candle 3 10]).klines =
      some [candle 1 12, candle 2 11, candle 3 10] ∧
    (flatWith [candle 1 12, candle 2 11, candle 3 10]).csvOk = true ∧
    [candle 1 12, candle 2 11, candle 3 10].length = 3 ∧
    (checkSignalToBuy anyAngle (flatWith [candle 1 12, candle 2 11, candle 3 10]) 3 =
        (.error .panic, [Call.klines true]) ∧
      Value ((sortByDateDesc [candle 1 12, candle 2 11, candle 3 10]).map
        fun k => roundF64 k.Close) (3 - 2 - 1 - 1) = .error .panic) :=
  ⟨rfl, rfl, rfl,
    three_candles_read_row_minus_one anyAngle (flatWith [candle 1 12, candle 2 11, candle 3 10])
      [candle 1 12, candle 2 11, candle 3 10] rfl rfl rfl⟩

end TradingBot
